import Mathlib

set_option maxHeartbeats 1000000
set_option maxRecDepth 10000

/-
Verification of the zerialize serialization library (vendor/zerialize).

Shallow embedding conventions:
 - Byte buffers are `List Nat`, each element a byte value (0..255 by
   construction of the writers).
 - Machine integers are Nat / Int with explicit modular arithmetic where
   the C++ code overflows or converts.
 - IEEE-754 doubles are represented by their 64-bit bit patterns: the
   writers copy bit patterns into buffers (memcpy) and the readers copy
   them back out, so bit-pattern identity is exactly what round-trips.
 - Fallible C++ code (throwing SerializationError / DeserializationError /
   std::logic_error) is embedded in an Except monad over an error type
   that distinguishes the exception classes.
-/

namespace Zerialize

/-- Exception classes of the library (errors.hpp) plus std::logic_error,
which some writers (flex.hpp, json.hpp) throw instead of SerializationError. -/
inductive Err where
  | ser (msg : String)
  | deser (msg : String)
  | logic (msg : String)
  deriving Repr, DecidableEq

/-- Result monad for embedded fallible code. -/
abbrev EE (α : Type) := Except Err α

deriving instance DecidableEq for Except

/-- Raise a SerializationError. -/
def serErr {α : Type} (msg : String) : EE α := .error (.ser msg)

/-- Raise a DeserializationError. -/
def deserErr {α : Type} (msg : String) : EE α := .error (.deser msg)

/-- Guard that raises DeserializationError when the condition fails
(the `require` helper of ZeraViewBase and the `ensure` helpers). -/
def requireD (ok : Bool) (msg : String) : EE Unit :=
  if ok then .ok () else deserErr msg

/-- Byte at index `i` of a buffer (reads of in-bounds pointers; 0 is
never actually observed in verified paths because all accesses are
bounds-checked first). -/
def byteAt (l : List Nat) (i : Nat) : Nat := l.getD i 0

/-- Contiguous byte range `[ofs, ofs+n)` of a buffer. -/
def sliceBytes (l : List Nat) (ofs n : Nat) : List Nat := (l.drop ofs).take n

/-- Overwrite `bs.length` bytes of `l` starting at `at0` (memcpy into an
existing region). -/
def overwriteBytes (l : List Nat) (at0 : Nat) (bs : List Nat) : List Nat :=
  l.take at0 ++ bs ++ l.drop (at0 + bs.length)

/-- Little-endian 16-bit read (zera.hpp read_u16_le). -/
def read_u16_le (l : List Nat) (p : Nat) : Nat :=
  byteAt l p + byteAt l (p + 1) * 2 ^ 8

/-- Little-endian 32-bit read (zera.hpp read_u32_le). -/
def read_u32_le (l : List Nat) (p : Nat) : Nat :=
  byteAt l p + byteAt l (p + 1) * 2 ^ 8 + byteAt l (p + 2) * 2 ^ 16 +
    byteAt l (p + 3) * 2 ^ 24

/-- Little-endian 64-bit read (zera.hpp read_u64_le). -/
def read_u64_le (l : List Nat) (p : Nat) : Nat :=
  read_u32_le l p + read_u32_le l (p + 4) * 2 ^ 32

/-- Little-endian byte decomposition of a 16-bit value. -/
def u16Bytes (v : Nat) : List Nat := [v % 2 ^ 8, v / 2 ^ 8 % 2 ^ 8]

/-- Little-endian byte decomposition of a 32-bit value. -/
def u32Bytes (v : Nat) : List Nat :=
  [v % 2 ^ 8, v / 2 ^ 8 % 2 ^ 8, v / 2 ^ 16 % 2 ^ 8, v / 2 ^ 24 % 2 ^ 8]

/-- Little-endian byte decomposition of a 64-bit value (low u32 then high
u32, as append_u64_le writes it). -/
def u64Bytes (v : Nat) : List Nat :=
  u32Bytes (v % 2 ^ 32) ++ u32Bytes (v / 2 ^ 32 % 2 ^ 32)

/-- zera.hpp append_u16_le. -/
def append_u16_le (out : List Nat) (v : Nat) : List Nat := out ++ u16Bytes v

/-- zera.hpp append_u32_le. -/
def append_u32_le (out : List Nat) (v : Nat) : List Nat := out ++ u32Bytes v

/-- zera.hpp write_u32_le_at: overwrite four bytes at `at0`. -/
def write_u32_le_at (out : List Nat) (at0 : Nat) (v : Nat) : List Nat :=
  overwriteBytes out at0 (u32Bytes v)

/-- zera.hpp align_up. -/
def align_up (x a : Nat) : Nat :=
  if a = 0 then x else if x % a = 0 then x else x + (a - x % a)

/-- Two's-complement reinterpretation of a 64-bit pattern as a signed value
(static_cast<int64_t> of a uint64_t). -/
def toSigned64 (bits : Nat) : Int :=
  if bits < 2 ^ 63 then (bits : Int) else (bits : Int) - 2 ^ 64

/-- Unsigned 64-bit pattern of a signed value (static_cast<uint64_t> of an
int64_t). -/
def toUnsigned64 (v : Int) : Nat := (v % (2 ^ 64 : Int)).toNat

/-- size_t subtraction with wraparound (needed by the `env_size_ - 16`
check in ZeraDeserializer::init_from, which wraps when env_size < 16). -/
def subSizeT (a b : Nat) : Nat := (a + 2 ^ 64 - b) % 2 ^ 64

/-- INT64_MAX. -/
def i64Max : Nat := 2 ^ 63 - 1

/--
The abstract value domain shared by all codecs (spec section 3): null,
bool, 64-bit signed and unsigned integers, 64-bit floats (by bit pattern),
byte strings for text, blobs, arrays, and maps with byte-string keys.
-/
inductive Val where
  | vnull
  | vbool (b : Bool)
  | vi64 (n : Int)
  | vu64 (n : Nat)
  | vf64 (bits : Nat)
  | vstr (s : List Nat)
  | vblob (bytes : List Nat)
  | varr (elems : List Val)
  | vmap (entries : List (List Nat × Val))

/-- Byte-string well-formedness: every element is a byte. -/
def bytesWf (l : List Nat) : Bool := l.all (fun b => b < 2 ^ 8)

mutual

/-- Well-formedness of an abstract value: integers fit in 64 bits, float
patterns fit in 64 bits, strings/blobs/keys are byte lists, and map keys
are pairwise distinct (the data model's maps are keyed associative
sequences). -/
def Val.wf : Val → Bool
  | .vnull => true
  | .vbool _ => true
  | .vi64 n => decide (-(2 ^ 63 : Int) ≤ n) && decide (n < 2 ^ 63)
  | .vu64 n => decide (n < 2 ^ 64)
  | .vf64 bits => decide (bits < 2 ^ 64)
  | .vstr s => bytesWf s
  | .vblob b => bytesWf b
  | .varr elems => Val.wfList elems
  | .vmap entries =>
      Val.wfEntries entries &&
      (entries.map Prod.fst).Nodup &&
      entries.all (fun e => bytesWf e.1)

/-- Well-formedness of a list of values. -/
def Val.wfList : List Val → Bool
  | [] => true
  | v :: rest => v.wf && Val.wfList rest

/-- Well-formedness of map entries. -/
def Val.wfEntries : List (List Nat × Val) → Bool
  | [] => true
  | e :: rest => e.2.wf && Val.wfEntries rest

end

namespace Zera

/-- ZERA magic constant (zera.hpp). -/
def Magic : Nat := 0x564E455A

/-- ZERA version. -/
def Version : Nat := 1

/-- ZERA header size in bytes. -/
def HeaderSize : Nat := 20

/-- Arena base alignment. -/
def ArenaBaseAlign : Nat := 16

/-- Maximum inline string length. -/
def InlineMax : Nat := 12

/-- Maximum typed-array rank. -/
def RankMax : Nat := 8

/-- ValueRef tag bytes (enum Tag). -/
def TagNull : Nat := 0

/-- Tag for booleans. -/
def TagBool : Nat := 1

/-- Tag for signed 64-bit integers. -/
def TagI64 : Nat := 2

/-- Tag for 64-bit floats. -/
def TagF64 : Nat := 3

/-- Tag for strings. -/
def TagString : Nat := 4

/-- Tag for arrays. -/
def TagArray : Nat := 5

/-- Tag for objects (maps). -/
def TagObject : Nat := 6

/-- Tag for typed arrays. -/
def TagTypedArray : Nat := 7

/-- Tag for unsigned 64-bit integers. -/
def TagU64 : Nat := 8

/-- DType code for u8 (enum DType). -/
def DTypeU8 : Nat := 2

/-- Parsed ZERA header (struct HeaderView). -/
structure HeaderView where
  magic : Nat
  version : Nat
  flags : Nat
  root_ofs : Nat
  env_size : Nat
  arena_ofs : Nat
  deriving Repr, DecidableEq

/-- zera.hpp parse_header. -/
def parse_header (buf : List Nat) : EE HeaderView :=
  if buf.length < HeaderSize then deserErr "zera: truncated header"
  else .ok
    { magic := read_u32_le buf 0
      version := read_u16_le buf 4
      flags := read_u16_le buf 6
      root_ofs := read_u32_le buf 8
      env_size := read_u32_le buf 12
      arena_ofs := read_u32_le buf 16 }

/--
Reader view state of ZeraViewBase: the envelope region, the arena region,
and the offset of the current 16-byte ValueRef within the envelope.
The C++ class stores raw pointers into one buffer; the embedding stores
the two regions and the ValueRef offset directly (subviews share the
regions and differ only in `vrOfs`).
-/
structure Zr where
  env : List Nat
  arena : List Nat
  vrOfs : Nat
  deriving Repr

namespace Zr

/-- ZeraViewBase::require_vr (the null-pointer check cannot fail in the
embedding; the bounds check is the live one). -/
def require_vr (z : Zr) : EE Unit :=
  requireD (z.vrOfs + 16 ≤ z.env.length) "zera: ValueRef out of bounds"

/-- ZeraViewBase::tag. -/
def tag (z : Zr) : EE Nat := do
  z.require_vr
  .ok (byteAt z.env z.vrOfs)

/-- ZeraViewBase::flags. -/
def flags (z : Zr) : EE Nat := do
  z.require_vr
  .ok (byteAt z.env (z.vrOfs + 1))

/-- ZeraViewBase::aux. -/
def aux (z : Zr) : EE Nat := do
  z.require_vr
  .ok (read_u16_le z.env (z.vrOfs + 2))

/-- ZeraViewBase::a. -/
def a (z : Zr) : EE Nat := do
  z.require_vr
  .ok (read_u32_le z.env (z.vrOfs + 4))

/-- ZeraViewBase::b. -/
def b (z : Zr) : EE Nat := do
  z.require_vr
  .ok (read_u32_le z.env (z.vrOfs + 8))

/-- ZeraViewBase::c. -/
def c (z : Zr) : EE Nat := do
  z.require_vr
  .ok (read_u32_le z.env (z.vrOfs + 12))

/-- ZeraViewBase::inline_bytes_view. -/
def inline_bytes_view (z : Zr) (n : Nat) : EE (List Nat) := do
  requireD (n ≤ InlineMax) "zera: inline payload too large"
  z.require_vr
  .ok (sliceBytes z.env (z.vrOfs + 4) n)

/-- ZeraViewBase::arena_bytes_view (also arena_blob_view, which performs
the same checks and returns the same bytes). -/
def arena_bytes_view (z : Zr) (ofs len : Nat) : EE (List Nat) := do
  requireD (ofs ≤ z.arena.length) "zera: arena offset out of bounds"
  requireD (len ≤ z.arena.length) "zera: arena length out of bounds"
  requireD (ofs + len ≤ z.arena.length) "zera: arena span out of bounds"
  .ok (sliceBytes z.arena ofs len)

/-- ZeraViewBase::env_ptr_at: bounds-check an envelope range. The C++
function returns a pointer; the embedding returns unit, and callers use
the offset directly. -/
def env_ptr_at (z : Zr) (ofs need : Nat) : EE Unit := do
  requireD (ofs ≤ z.env.length) "zera: envelope offset out of bounds"
  requireD (need ≤ z.env.length) "zera: envelope need out of bounds"
  requireD (ofs + need ≤ z.env.length) "zera: envelope span out of bounds"

/-- ZeraViewBase::require_flags_ok. -/
def require_flags_ok (z : Zr) : EE Unit := do
  let t ← z.tag
  let fl ← z.flags
  if t = TagString then
    requireD (fl / 2 = 0) "zera: unknown ValueRef flags"
  else
    requireD (fl = 0) "zera: non-string ValueRef has flags set"

/-- ZeraViewBase::isNull. -/
def isNull (z : Zr) : EE Bool := do
  let t ← z.tag
  .ok (t = TagNull)

/-- ZeraViewBase::isBool. -/
def isBool (z : Zr) : EE Bool := do
  let t ← z.tag
  .ok (t = TagBool)

/-- ZeraViewBase::isInt. -/
def isInt (z : Zr) : EE Bool := do
  let t ← z.tag
  .ok (t = TagI64)

/-- ZeraViewBase::isUInt. -/
def isUInt (z : Zr) : EE Bool := do
  let t ← z.tag
  .ok (t = TagU64)

/-- ZeraViewBase::isFloat. -/
def isFloat (z : Zr) : EE Bool := do
  let t ← z.tag
  .ok (t = TagF64)

/-- ZeraViewBase::isString. -/
def isString (z : Zr) : EE Bool := do
  let t ← z.tag
  .ok (t = TagString)

/-- ZeraViewBase::isArray. -/
def isArray (z : Zr) : EE Bool := do
  let t ← z.tag
  .ok (t = TagArray)

/-- ZeraViewBase::isMap. -/
def isMap (z : Zr) : EE Bool := do
  let t ← z.tag
  .ok (t = TagObject)

/-- ZeraViewBase::isBlob. -/
def isBlob (z : Zr) : EE Bool := do
  let t ← z.tag
  if t = TagTypedArray then
    let ax ← z.aux
    .ok (ax = DTypeU8)
  else
    .ok false

/-- ZeraViewBase::asBool. -/
def asBool (z : Zr) : EE Bool := do
  let t ← z.tag
  requireD (t = TagBool) "zera: value is not a bool"
  z.require_flags_ok
  let v ← z.aux
  requireD (v = 0 || v = 1) "zera: invalid bool aux"
  .ok (v = 1)

/-- ZeraViewBase::asInt64. -/
def asInt64 (z : Zr) : EE Int := do
  let t ← z.tag
  requireD (t = TagI64 || t = TagU64) "zera: value is not an integer"
  z.require_flags_ok
  let av ← z.a
  let bv ← z.b
  let bits := av + bv * 2 ^ 32
  if t = TagU64 then do
    requireD (bits ≤ i64Max) "zera: uint64 out of range for int64"
    .ok (bits : Int)
  else
    .ok (toSigned64 bits)

/-- ZeraViewBase::asUInt64. -/
def asUInt64 (z : Zr) : EE Nat := do
  let t ← z.tag
  requireD (t = TagU64 || t = TagI64) "zera: value is not an integer"
  z.require_flags_ok
  let av ← z.a
  let bv ← z.b
  let bits := av + bv * 2 ^ 32
  if t = TagI64 then do
    let si := toSigned64 bits
    requireD (0 ≤ si) "zera: int64 out of range for uint64"
    .ok si.toNat
  else
    .ok bits

/-- ZeraViewBase::asDouble (result is the 64-bit IEEE-754 bit pattern the
memcpy reinterprets). -/
def asDouble (z : Zr) : EE Nat := do
  let t ← z.tag
  requireD (t = TagF64) "zera: value is not a float"
  z.require_flags_ok
  let av ← z.a
  let bv ← z.b
  .ok (av + bv * 2 ^ 32)

/-- ZeraViewBase::asInt8. -/
def asInt8 (z : Zr) : EE Int := do
  let v ← z.asInt64
  if v < -(2 ^ 7 : Int) || (2 ^ 7 : Int) - 1 < v then
    deserErr "zera: int8 out of range"
  else .ok v

/-- ZeraViewBase::asInt32. -/
def asInt32 (z : Zr) : EE Int := do
  let v ← z.asInt64
  if v < -(2 ^ 31 : Int) || (2 ^ 31 : Int) - 1 < v then
    deserErr "zera: int32 out of range"
  else .ok v

/-- ZeraViewBase::asStringView (asString returns the same bytes). -/
def asStringView (z : Zr) : EE (List Nat) := do
  let t ← z.tag
  requireD (t = TagString) "zera: value is not a string"
  z.require_flags_ok
  let fl ← z.flags
  if fl % 2 = 1 then do
    let len ← z.aux
    requireD (len ≤ InlineMax) "zera: inline string length too large"
    z.inline_bytes_view len
  else do
    let av ← z.a
    let bv ← z.b
    z.arena_bytes_view av bv

/-- ZeraViewBase::asBlob. -/
def asBlob (z : Zr) : EE (List Nat) := do
  let blob ← z.isBlob
  requireD blob "zera: value is not a blob"
  z.require_flags_ok
  let shape_ofs ← z.c
  z.env_ptr_at shape_ofs 4
  let rank := read_u32_le z.env shape_ofs
  requireD (rank ≤ RankMax) "zera: blob rank too large"
  requireD (rank = 1) "zera: blob must be rank 1"
  z.env_ptr_at shape_ofs (4 + 8 * rank)
  let dim0 := read_u64_le z.env (shape_ofs + 4)
  let bv ← z.b
  requireD (dim0 = bv) "zera: blob shape length mismatch"
  let av ← z.a
  z.arena_bytes_view av bv

/-- ZeraViewBase::arraySize. -/
def arraySize (z : Zr) : EE Nat := do
  let t ← z.tag
  requireD (t = TagArray) "zera: not an array"
  z.require_flags_ok
  let arr_ofs ← z.a
  z.env_ptr_at arr_ofs 4
  let count := read_u32_le z.env arr_ofs
  z.env_ptr_at arr_ofs (4 + 16 * count)
  .ok count

/-- ZeraViewBase::operator[](size_t). -/
def elem (z : Zr) (idx : Nat) : EE Zr := do
  let t ← z.tag
  requireD (t = TagArray) "zera: not an array"
  z.require_flags_ok
  let arr_ofs ← z.a
  z.env_ptr_at arr_ofs 4
  let count := read_u32_le z.env arr_ofs
  requireD (idx < count) "zera: array index out of bounds"
  let elem_ofs := arr_ofs + 4 + 16 * idx
  z.env_ptr_at elem_ofs 16
  .ok { z with vrOfs := elem_ofs }

/-- Loop body of ZeraViewBase::operator[](string_view): scan `count`
object entries starting at payload offset `ofs`, returning the value
ValueRef offset for `key`. -/
def objFind (z : Zr) (key : List Nat) : Nat → Nat → EE Zr
  | 0, _ => deserErr "zera: key not found"
  | n + 1, ofs => do
      z.env_ptr_at ofs 4
      let key_len := read_u16_le z.env ofs
      z.env_ptr_at (ofs + 4) key_len
      z.env_ptr_at (ofs + 4 + key_len) 16
      if key_len = key.length ∧ sliceBytes z.env (ofs + 4) key_len = key then
        .ok { z with vrOfs := ofs + 4 + key_len }
      else do
        z.env_ptr_at (ofs + 4 + key_len + 16) 0
        z.objFind key n (ofs + 4 + key_len + 16)

/-- ZeraViewBase::operator[](string_view). -/
def keyGet (z : Zr) (key : List Nat) : EE Zr := do
  let t ← z.tag
  requireD (t = TagObject) "zera: not a map"
  z.require_flags_ok
  let obj_ofs ← z.a
  z.env_ptr_at obj_ofs 4
  let count := read_u32_le z.env obj_ofs
  z.objFind key count (obj_ofs + 4)

/-- Loop body of ZeraViewBase::contains: like objFind but without the
value bounds check, returning a boolean. -/
def objContains (z : Zr) (key : List Nat) : Nat → Nat → EE Bool
  | 0, _ => .ok false
  | n + 1, ofs => do
      z.env_ptr_at ofs 4
      let key_len := read_u16_le z.env ofs
      z.env_ptr_at (ofs + 4) key_len
      if key_len = key.length ∧ sliceBytes z.env (ofs + 4) key_len = key then
        .ok true
      else do
        z.env_ptr_at (ofs + 4 + key_len + 16) 0
        z.objContains key n (ofs + 4 + key_len + 16)

/-- ZeraViewBase::contains. -/
def contains (z : Zr) (key : List Nat) : EE Bool := do
  let m ← z.isMap
  if !m then .ok false
  else do
    z.require_flags_ok
    let obj_ofs ← z.a
    z.env_ptr_at obj_ofs 4
    let count := read_u32_le z.env obj_ofs
    z.objContains key count (obj_ofs + 4)

/-- Walk of the KeysView iterator: collect `n` keys starting at entry
offset `ofs` (operator* bounds-checks the full entry, operator++ advances
and bounds-checks the new offset). -/
def keysWalk (z : Zr) : Nat → Nat → EE (List (List Nat))
  | 0, _ => .ok []
  | n + 1, ofs => do
      let key_len := read_u16_le z.env ofs
      z.env_ptr_at ofs (4 + key_len + 16)
      let key := sliceBytes z.env (ofs + 4) key_len
      z.env_ptr_at (ofs + (4 + key_len + 16)) 0
      let rest ← z.keysWalk n (ofs + (4 + key_len + 16))
      .ok (key :: rest)

/-- ZeraViewBase::mapKeys, materialized as the list of keys the KeysView
range yields in order. -/
def mapKeys (z : Zr) : EE (List (List Nat)) := do
  let t ← z.tag
  requireD (t = TagObject) "zera: not a map"
  z.require_flags_ok
  let obj_ofs ← z.a
  z.env_ptr_at obj_ofs 4
  let count := read_u32_le z.env obj_ofs
  z.env_ptr_at (obj_ofs + 4) 0
  z.keysWalk count (obj_ofs + 4)

end Zr

/-- ZeraDeserializer::init_from: parse and validate the header, then
produce the root view. The root-ValueRef check `root_ofs <= env_size - 16`
is size_t arithmetic in C++ and wraps when env_size < 16; `subSizeT`
reproduces that. -/
def init_from (buf : List Nat) : EE Zr := do
  let h ← parse_header buf
  if h.magic ≠ Magic then deserErr "zera: bad magic"
  else if h.version ≠ Version then deserErr "zera: unsupported version"
  else if h.flags ≠ 1 then deserErr "zera: flags invalid" else do
  requireD (h.env_size ≤ buf.length) "zera: env_size out of bounds"
  requireD (h.root_ofs < h.env_size) "zera: root_ofs out of bounds"
  requireD (h.arena_ofs ≤ buf.length) "zera: arena_ofs out of bounds"
  requireD (h.arena_ofs % ArenaBaseAlign = 0) "zera: arena_ofs not aligned"
  requireD (HeaderSize + h.env_size ≤ h.arena_ofs) "zera: arena_ofs overlaps envelope"
  let env := sliceBytes buf HeaderSize h.env_size
  let arena := sliceBytes buf h.arena_ofs (buf.length - h.arena_ofs)
  requireD (h.root_ofs ≤ subSizeT h.env_size 16) "zera: root ValueRef out of bounds"
  .ok { env := env, arena := arena, vrOfs := h.root_ofs }

/-- Writer container frames (RootSerializer::ArrayCtx / MapCtx). -/
inductive Frame where
  | arrCtx (payload : List Nat) (count : Nat)
  | mapCtx (payload : List Nat) (count : Nat) (pending : Option Nat)
  deriving Repr, DecidableEq

/-- Writer state (struct RootSerializer): container stack, envelope bytes,
arena bytes, root offset, inline-string threshold. -/
structure WState where
  st : List Frame := []
  env : List Nat := []
  arena : List Nat := []
  root_ofs : Option Nat := none
  inline_threshold : Nat := InlineMax
  deriving Repr

/-- RootSerializer::make_vr: a 16-byte ValueRef record. The uint8_t and
uint16_t parameter conversions truncate, hence the explicit mod. -/
def make_vr (tag flags aux a b c : Nat) : List Nat :=
  [tag % 2 ^ 8, flags % 2 ^ 8] ++ u16Bytes aux ++ u32Bytes a ++ u32Bytes b ++ u32Bytes c

/-- RootSerializer::append_env_payload. -/
def append_env_payload (s : WState) (bytes : List Nat) : EE (Nat × WState) := do
  let ofs := s.env.length
  if ofs > 2 ^ 32 - 1 then serErr "zera: envelope offset overflow"
  else .ok (ofs, { s with env := s.env ++ bytes })

/-- RootSerializer::arena_alloc. -/
def arena_alloc (s : WState) (len align : Nat) : EE (Nat × WState) := do
  let want_align := max 1 align
  let aligned := align_up s.arena.length want_align
  let padded := s.arena ++ List.replicate (aligned - s.arena.length) 0
  let ofs := padded.length
  if ofs > 2 ^ 32 - 1 then serErr "zera: arena offset overflow"
  else if len > 2 ^ 32 - 1 then serErr "zera: arena length overflow"
  else .ok (ofs, { s with arena := padded ++ List.replicate len 0 })

/-- RootSerializer::emit_shape_rank1. -/
def emit_shape_rank1 (s : WState) (dim0 : Nat) : EE (Nat × WState) :=
  append_env_payload s (u32Bytes 1 ++ u64Bytes dim0)

/-- RootSerializer::write_root_vr. -/
def write_root_vr (s : WState) (vr : List Nat) : EE WState := do
  if s.root_ofs.isSome then serErr "zera: multiple root values"
  else do
    let (ofs, s1) ← append_env_payload s vr
    .ok { s1 with root_ofs := some ofs }

/-- RootSerializer::deliver_vr. -/
def deliver_vr (s : WState) (vr : List Nat) : EE WState :=
  match s.st with
  | [] => write_root_vr s vr
  | .arrCtx payload count :: rest =>
      .ok { s with st := .arrCtx (payload ++ vr) ((count + 1) % 2 ^ 32) :: rest }
  | .mapCtx payload count pending :: rest =>
      match pending with
      | none => serErr "zera: map value without key()"
      | some at0 =>
          if at0 + 16 > payload.length then serErr "zera: internal map patch out of bounds"
          else .ok { s with st := .mapCtx (overwriteBytes payload at0 vr) count none :: rest }

/-- Serializer::null. -/
def wNull (s : WState) : EE WState := deliver_vr s (make_vr TagNull 0 0 0 0 0)

/-- Serializer::boolean. -/
def wBoolean (s : WState) (v : Bool) : EE WState :=
  deliver_vr s (make_vr TagBool 0 (if v then 1 else 0) 0 0 0)

/-- Serializer::int64. -/
def wInt64 (s : WState) (v : Int) : EE WState :=
  let bits := toUnsigned64 v
  deliver_vr s (make_vr TagI64 0 0 (bits % 2 ^ 32) (bits / 2 ^ 32 % 2 ^ 32) 0)

/-- Serializer::uint64. -/
def wUInt64 (s : WState) (v : Nat) : EE WState :=
  deliver_vr s (make_vr TagU64 0 0 (v % 2 ^ 32) (v / 2 ^ 32 % 2 ^ 32) 0)

/-- Serializer::double_ (the argument is the IEEE-754 bit pattern the
memcpy extracts). -/
def wDouble (s : WState) (bits : Nat) : EE WState :=
  deliver_vr s (make_vr TagF64 0 0 (bits % 2 ^ 32) (bits / 2 ^ 32 % 2 ^ 32) 0)

/-- Serializer::string. -/
def wString (s : WState) (sv : List Nat) : EE WState :=
  if sv.length ≤ min s.inline_threshold InlineMax then
    let out := overwriteBytes (make_vr TagString 1 sv.length 0 0 0) 4 sv
    deliver_vr s out
  else if sv.length > 2 ^ 32 - 1 then serErr "zera: string too large"
  else do
    let (ofs, s1) ← arena_alloc s sv.length 1
    let s2 := { s1 with arena := overwriteBytes s1.arena ofs sv }
    deliver_vr s2 (make_vr TagString 0 0 ofs sv.length 0)

/-- Serializer::binary. -/
def wBinary (s : WState) (bytes : List Nat) : EE WState :=
  if bytes.length > 2 ^ 32 - 1 then serErr "zera: blob too large"
  else do
    let byte_len := bytes.length
    let (arena_ofs, s1) ← arena_alloc s byte_len ArenaBaseAlign
    let s2 := { s1 with arena := overwriteBytes s1.arena arena_ofs bytes }
    let (shape_ofs, s3) ← emit_shape_rank1 s2 byte_len
    deliver_vr s3 (make_vr TagTypedArray 0 DTypeU8 arena_ofs byte_len shape_ofs)

/-- Serializer::begin_array. -/
def wBeginArray (s : WState) : EE WState :=
  .ok { s with st := .arrCtx (append_u32_le [] 0) 0 :: s.st }

/-- Serializer::end_array. -/
def wEndArray (s : WState) : EE WState :=
  match s.st with
  | .arrCtx payload count :: rest =>
      if count > 2 ^ 32 - 1 then serErr "zera: array too large"
      else do
        let payload1 := write_u32_le_at payload 0 count
        let (payload_ofs, s1) ← append_env_payload { s with st := rest } payload1
        deliver_vr s1 (make_vr TagArray 0 0 payload_ofs 0 0)
  | _ => serErr "zera: end_array outside array"

/-- Serializer::begin_map. -/
def wBeginMap (s : WState) : EE WState :=
  .ok { s with st := .mapCtx (append_u32_le [] 0) 0 none :: s.st }

/-- Serializer::end_map. -/
def wEndMap (s : WState) : EE WState :=
  match s.st with
  | .mapCtx payload count pending :: rest =>
      if pending.isSome then serErr "zera: end_map with dangling key()"
      else do
        let payload1 := write_u32_le_at payload 0 count
        let (payload_ofs, s1) ← append_env_payload { s with st := rest } payload1
        deliver_vr s1 (make_vr TagObject 0 0 payload_ofs 0 0)
  | _ => serErr "zera: end_map outside map"

/-- Serializer::key. -/
def wKey (s : WState) (k : List Nat) : EE WState :=
  match s.st with
  | .mapCtx payload count pending :: rest =>
      if pending.isSome then serErr "zera: key() called twice without value"
      else if k.length > 2 ^ 16 - 1 then serErr "zera: key too long"
      else
        let payload1 := append_u16_le payload k.length
        let payload2 := append_u16_le payload1 0
        let payload3 := payload2 ++ k
        let patch := payload3.length
        let payload4 := payload3 ++ List.replicate 16 0
        .ok { s with st := .mapCtx payload4 ((count + 1) % 2 ^ 32) (some patch) :: rest }
  | _ => serErr "zera: key() outside map"

/-- RootSerializer::finish. -/
def finish (s : WState) : EE (List Nat) := do
  if !s.st.isEmpty then serErr "zera: finish() called with unterminated container"
  else do
    let s1 ← if s.root_ofs.isNone then write_root_vr s (make_vr TagNull 0 0 0 0 0) else .ok s
    if s1.env.length > 2 ^ 32 - 1 then serErr "zera: envelope too large"
    else if s1.arena.length > 2 ^ 32 - 1 then serErr "zera: arena too large"
    else do
      let env_size := s1.env.length
      let arena_ofs := align_up (HeaderSize + env_size) ArenaBaseAlign
      if arena_ofs > 2 ^ 32 - 1 then serErr "zera: arena_ofs overflow"
      else
        let root := s1.root_ofs.getD 0
        .ok (u32Bytes Magic ++ u16Bytes Version ++ u16Bytes 1 ++
             u32Bytes root ++ u32Bytes env_size ++ u32Bytes arena_ofs ++
             s1.env ++ List.replicate (arena_ofs - (HeaderSize + env_size)) 0 ++ s1.arena)

mutual

/-- Emission of an abstract value through the ZERA writer, following the
builder DSL (serializers.hpp): scalars call the matching primitive
emitter; arrays call begin_array, emit each element, end_array; maps call
begin_map, then key/value for each entry, then end_map. -/
def emitVal (v : Val) (s : WState) : EE WState :=
  match v with
  | .vnull => wNull s
  | .vbool b => wBoolean s b
  | .vi64 n => wInt64 s n
  | .vu64 n => wUInt64 s n
  | .vf64 bits => wDouble s bits
  | .vstr str => wString s str
  | .vblob bytes => wBinary s bytes
  | .varr elems => do
      let s1 ← wBeginArray s
      let s2 ← emitList elems s1
      wEndArray s2
  | .vmap entries => do
      let s1 ← wBeginMap s
      let s2 ← emitEntries entries s1
      wEndMap s2

/-- Emit a list of array elements in order. -/
def emitList (vs : List Val) (s : WState) : EE WState :=
  match vs with
  | [] => .ok s
  | v :: rest => do
      let s1 ← emitVal v s
      emitList rest s1

/-- Emit map entries in order: key, then value. -/
def emitEntries (es : List (List Nat × Val)) (s : WState) : EE WState :=
  match es with
  | [] => .ok s
  | (k, v) :: rest => do
      let s1 ← wKey s k
      let s2 ← emitVal v s1
      emitEntries rest s2

end

/-- serialize<Zera>(v): run the builder against a fresh root writer and
finish. -/
def writeZera (v : Val) : EE (List Nat) := do
  let s ← emitVal v {}
  finish s

/-- Full write-then-read pipeline: serialize and construct the reader. -/
def readBackZera (v : Val) : EE Zr := do
  let buf ← writeZera v
  init_from buf

end Zera

/-- Representation of a decoded floating-point scalar by provenance: the
bit pattern read from the wire together with its width. Readers that
decode a 32- or 16-bit float convert it to double; values are compared by
pattern, which is exact for the 64-bit encodings the modelled writers
emit. -/
inductive FloatRepr where
  | f16Bits (n : Nat)
  | f32Bits (n : Nat)
  | f64Bits (n : Nat)
  deriving Repr, DecidableEq

/-- Signed reinterpretation of an 8-bit pattern (int8_t cast). -/
def toSigned8 (b : Nat) : Int := if b < 2 ^ 7 then (b : Int) else (b : Int) - 2 ^ 8

/-- Signed reinterpretation of a 16-bit pattern. -/
def toSigned16 (b : Nat) : Int := if b < 2 ^ 15 then (b : Int) else (b : Int) - 2 ^ 16

/-- Signed reinterpretation of a 32-bit pattern. -/
def toSigned32 (b : Nat) : Int := if b < 2 ^ 31 then (b : Int) else (b : Int) - 2 ^ 32

/-- Truncating conversion of a signed 64-bit value to a narrower signed
width `w` (static_cast<intN_t> semantics). -/
def castSigned (w : Nat) (v : Int) : Int :=
  let u := toUnsigned64 v % 2 ^ w
  if u < 2 ^ (w - 1) then (u : Int) else (u : Int) - 2 ^ w

/-- Big-endian byte decomposition of a 16-bit value. -/
def be16Bytes (v : Nat) : List Nat := [v / 2 ^ 8 % 2 ^ 8, v % 2 ^ 8]

/-- Big-endian byte decomposition of a 32-bit value. -/
def be32Bytes (v : Nat) : List Nat :=
  [v / 2 ^ 24 % 2 ^ 8, v / 2 ^ 16 % 2 ^ 8, v / 2 ^ 8 % 2 ^ 8, v % 2 ^ 8]

/-- Big-endian byte decomposition of a 64-bit value. -/
def be64Bytes (v : Nat) : List Nat := be32Bytes (v / 2 ^ 32 % 2 ^ 32) ++ be32Bytes (v % 2 ^ 32)

namespace MsgPack

/-- Big-endian 16-bit read (msgpack.hpp mp_read_be16). -/
def mp_read_be16 (l : List Nat) (p : Nat) : Nat :=
  byteAt l p * 2 ^ 8 + byteAt l (p + 1)

/-- Big-endian 32-bit read (msgpack.hpp mp_read_be32). -/
def mp_read_be32 (l : List Nat) (p : Nat) : Nat :=
  byteAt l p * 2 ^ 24 + byteAt l (p + 1) * 2 ^ 16 + byteAt l (p + 2) * 2 ^ 8 +
    byteAt l (p + 3)

/-- Big-endian 64-bit read (msgpack.hpp mp_read_be64). -/
def mp_read_be64 (l : List Nat) (p : Nat) : Nat :=
  mp_read_be32 l p * 2 ^ 32 + mp_read_be32 l (p + 4)

mutual

/-- msgpack.hpp mp_skip: size in bytes of the element at the start of the
view. The C++ function is plainly recursive; the embedding adds fuel,
which entry points instantiate with the view length (an upper bound on
the recursion depth, since every recursive call drops at least one
byte). -/
def mp_skip (fuel : Nat) (v : List Nat) : EE Nat :=
  match fuel with
  | 0 => deserErr "msgpack: skip recursion exhausted"
  | fuel + 1 =>
    if v.length = 0 then deserErr "msgpack: empty in skip"
    else
      let m := byteAt v 0
      if m ≤ 0x7f || 0xe0 ≤ m || m = 0xc0 || m = 0xc2 || m = 0xc3 then .ok 1
      else if m / 32 = 5 then .ok (1 + m % 32)
      else if m / 16 = 9 then mp_skipN fuel (m % 16) v 1
      else if m / 16 = 8 then mp_skipN fuel (2 * (m % 16)) v 1
      else if m = 0xcc || m = 0xd0 then .ok 2
      else if m = 0xcd || m = 0xd1 then .ok 3
      else if m = 0xce || m = 0xd2 || m = 0xca then .ok 5
      else if m = 0xcf || m = 0xd3 || m = 0xcb then .ok 9
      else if m = 0xd9 then
        if v.length < 2 then deserErr "str8" else .ok (2 + byteAt v 1)
      else if m = 0xda then
        if v.length < 3 then deserErr "str16" else .ok (3 + mp_read_be16 v 1)
      else if m = 0xdb then
        if v.length < 5 then deserErr "str32" else .ok (5 + mp_read_be32 v 1)
      else if m = 0xc4 then
        if v.length < 2 then deserErr "bin8" else .ok (2 + byteAt v 1)
      else if m = 0xc5 then
        if v.length < 3 then deserErr "bin16" else .ok (3 + mp_read_be16 v 1)
      else if m = 0xc6 then
        if v.length < 5 then deserErr "bin32" else .ok (5 + mp_read_be32 v 1)
      else if m = 0xdc then
        if v.length < 3 then deserErr "array16" else mp_skipN fuel (mp_read_be16 v 1) v 3
      else if m = 0xdd then
        if v.length < 5 then deserErr "array32" else mp_skipN fuel (mp_read_be32 v 1) v 5
      else if m = 0xde then
        if v.length < 3 then deserErr "map16" else mp_skipN fuel (2 * mp_read_be16 v 1) v 3
      else if m = 0xdf then
        if v.length < 5 then deserErr "map32" else mp_skipN fuel (2 * mp_read_be32 v 1) v 5
      else deserErr "msgpack: unsupported marker"
termination_by (fuel, 0)

/-- Skip `n` consecutive elements of `v` starting at byte offset `off`,
returning the final offset (the container loops in mp_skip; a map of `k`
entries skips `2*k` elements). -/
def mp_skipN (fuel : Nat) (n : Nat) (v : List Nat) (off : Nat) : EE Nat :=
  match n with
  | 0 => .ok off
  | n + 1 => do
      let s ← mp_skip fuel (v.drop off)
      mp_skipN fuel n v (off + s)
termination_by (fuel, n + 1)

end

/-- mp_skip with the standard fuel instantiation. -/
def mpSkipT (v : List Nat) : EE Nat := mp_skip (v.length + 1) v

/-- MsgPackDeserializer::isNull. -/
def isNull (v : List Nat) : Bool := v.length ≠ 0 && byteAt v 0 = 0xc0

/-- MsgPackDeserializer::isBool. -/
def isBool (v : List Nat) : Bool :=
  v.length ≠ 0 && (byteAt v 0 = 0xc2 || byteAt v 0 = 0xc3)

/-- MsgPackDeserializer::isInt. -/
def isInt (v : List Nat) : Bool :=
  if v.length = 0 then false
  else
    let m := byteAt v 0
    m ≤ 0x7f || 0xe0 ≤ m || m = 0xd0 || m = 0xd1 || m = 0xd2 || m = 0xd3

/-- MsgPackDeserializer::isUInt. -/
def isUInt (v : List Nat) : Bool :=
  if v.length = 0 then false
  else
    let m := byteAt v 0
    m ≤ 0x7f || m = 0xcc || m = 0xcd || m = 0xce || m = 0xcf

/-- MsgPackDeserializer::isFloat. -/
def isFloat (v : List Nat) : Bool :=
  if v.length = 0 then false
  else byteAt v 0 = 0xca || byteAt v 0 = 0xcb

/-- MsgPackDeserializer::isString. -/
def isString (v : List Nat) : Bool :=
  if v.length = 0 then false
  else
    let m := byteAt v 0
    m / 32 = 5 || m = 0xd9 || m = 0xda || m = 0xdb

/-- MsgPackDeserializer::isBlob. -/
def isBlob (v : List Nat) : Bool :=
  if v.length = 0 then false
  else byteAt v 0 = 0xc4 || byteAt v 0 = 0xc5 || byteAt v 0 = 0xc6

/-- MsgPackDeserializer::isArray. -/
def isArray (v : List Nat) : Bool :=
  if v.length = 0 then false
  else
    let m := byteAt v 0
    m / 16 = 9 || m = 0xdc || m = 0xdd

/-- MsgPackDeserializer::isMap. -/
def isMap (v : List Nat) : Bool :=
  if v.length = 0 then false
  else
    let m := byteAt v 0
    m / 16 = 8 || m = 0xde || m = 0xdf

/-- MsgPackDeserializer::asInt64. Note the unsigned-width cases return the
stored pattern converted to int64_t; for the u64 marker (0xcf) this is a
plain two's-complement reinterpretation with no range check. -/
def asInt64 (v : List Nat) : EE Int :=
  if v.length = 0 then deserErr "int64"
  else
    let m := byteAt v 0
    if m ≤ 0x7f then .ok (m : Int)
    else if 0xe0 ≤ m then .ok (toSigned8 m)
    else if m = 0xd0 then
      if v.length < 2 then deserErr "i8" else .ok (toSigned8 (byteAt v 1))
    else if m = 0xd1 then
      if v.length < 3 then deserErr "i16" else .ok (toSigned16 (mp_read_be16 v 1))
    else if m = 0xd2 then
      if v.length < 5 then deserErr "i32" else .ok (toSigned32 (mp_read_be32 v 1))
    else if m = 0xd3 then
      if v.length < 9 then deserErr "i64" else .ok (toSigned64 (mp_read_be64 v 1))
    else if m = 0xcc then
      if v.length < 2 then deserErr "u8" else .ok ((byteAt v 1 : Nat) : Int)
    else if m = 0xcd then
      if v.length < 3 then deserErr "u16" else .ok ((mp_read_be16 v 1 : Nat) : Int)
    else if m = 0xce then
      if v.length < 5 then deserErr "u32" else .ok ((mp_read_be32 v 1 : Nat) : Int)
    else if m = 0xcf then
      if v.length < 9 then deserErr "u64" else .ok (toSigned64 (mp_read_be64 v 1))
    else deserErr "not int"

/-- MsgPackDeserializer::asUInt64 (the fall-back for signed markers
converts the int64 result to uint64_t). -/
def asUInt64 (v : List Nat) : EE Nat :=
  if v.length = 0 then deserErr "uint64"
  else
    let m := byteAt v 0
    if m ≤ 0x7f then .ok m
    else if m = 0xcc then
      if v.length < 2 then deserErr "u8" else .ok (byteAt v 1)
    else if m = 0xcd then
      if v.length < 3 then deserErr "u16" else .ok (mp_read_be16 v 1)
    else if m = 0xce then
      if v.length < 5 then deserErr "u32" else .ok (mp_read_be32 v 1)
    else if m = 0xcf then
      if v.length < 9 then deserErr "u64" else .ok (mp_read_be64 v 1)
    else do
      let i ← asInt64 v
      .ok (toUnsigned64 i)

/-- MsgPackDeserializer::asInt8. -/
def asInt8 (v : List Nat) : EE Int := do
  let val ← asInt64 v
  if val < -(2 ^ 7 : Int) || (2 ^ 7 : Int) - 1 < val then deserErr "int8 out of range"
  else .ok val

/-- MsgPackDeserializer::asInt32. -/
def asInt32 (v : List Nat) : EE Int := do
  let val ← asInt64 v
  if val < -(2 ^ 31 : Int) || (2 ^ 31 : Int) - 1 < val then deserErr "int32 out of range"
  else .ok val

/-- MsgPackDeserializer::asDouble (result by bit pattern and width). -/
def asDouble (v : List Nat) : EE FloatRepr :=
  if !isFloat v then deserErr "not float"
  else
    let m := byteAt v 0
    if m = 0xca then
      if v.length < 5 then deserErr "f32" else .ok (.f32Bits (mp_read_be32 v 1))
    else
      if v.length < 9 then deserErr "f64" else .ok (.f64Bits (mp_read_be64 v 1))

/-- MsgPackDeserializer::asBool. -/
def asBool (v : List Nat) : EE Bool :=
  if !isBool v then deserErr "not bool" else .ok (byteAt v 0 = 0xc3)

/-- MsgPackDeserializer::str_info + asStringView. -/
def asStringView (v : List Nat) : EE (List Nat) :=
  let m := byteAt v 0
  if m / 32 = 5 then .ok (sliceBytes v 1 (m % 32))
  else if m = 0xd9 then .ok (sliceBytes v 2 (byteAt v 1))
  else if m = 0xda then .ok (sliceBytes v 3 (mp_read_be16 v 1))
  else if m = 0xdb then .ok (sliceBytes v 5 (mp_read_be32 v 1))
  else deserErr "msgpack: not a string"

/-- MsgPackDeserializer::bin_info + asBlob. -/
def asBlob (v : List Nat) : EE (List Nat) :=
  let m := byteAt v 0
  if m = 0xc4 then .ok (sliceBytes v 2 (byteAt v 1))
  else if m = 0xc5 then .ok (sliceBytes v 3 (mp_read_be16 v 1))
  else if m = 0xc6 then .ok (sliceBytes v 5 (mp_read_be32 v 1))
  else deserErr "msgpack: not a bin"

/-- MsgPackDeserializer::arr_info. -/
def arr_info (v : List Nat) : EE (Nat × Nat) :=
  let m := byteAt v 0
  if v.length = 0 then deserErr "msgpack: not an array"
  else if m / 16 = 9 then .ok (m % 16, 1)
  else if m = 0xdc then .ok (mp_read_be16 v 1, 3)
  else if m = 0xdd then .ok (mp_read_be32 v 1, 5)
  else deserErr "msgpack: not an array"

/-- MsgPackDeserializer::map_info. -/
def map_info (v : List Nat) : EE (Nat × Nat) :=
  let m := byteAt v 0
  if v.length = 0 then deserErr "msgpack: not a map"
  else if m / 16 = 8 then .ok (m % 16, 1)
  else if m = 0xde then .ok (mp_read_be16 v 1, 3)
  else if m = 0xdf then .ok (mp_read_be32 v 1, 5)
  else deserErr "msgpack: not a map"

/-- MsgPackDeserializer::arraySize. -/
def arraySize (v : List Nat) : EE Nat := do
  let (n, _) ← arr_info v
  .ok n

/-- MsgPackDeserializer::operator[](size_t): the subview of element `idx`. -/
def elem (v : List Nat) (idx : Nat) : EE (List Nat) := do
  let (n, off0) ← arr_info v
  if n ≤ idx then deserErr "index OOB"
  else do
    let off ← mp_skipN (v.length + 1) idx v off0
    let sz ← mp_skip (v.length + 1) (v.drop off)
    .ok (sliceBytes v off sz)

/-- Loop of MsgPackDeserializer::operator[](string_view). -/
def keyFind (v : List Nat) (key : List Nat) : Nat → Nat → EE (List Nat)
  | 0, _ => deserErr "key not found"
  | n + 1, off => do
      let ksz ← mpSkipT (v.drop off)
      let kd := sliceBytes v off ksz
      let vsz ← mpSkipT (v.drop (off + ksz))
      if isString kd then do
        let sv ← asStringView kd
        if sv = key then .ok (sliceBytes v (off + ksz) vsz)
        else keyFind v key n (off + ksz + vsz)
      else keyFind v key n (off + ksz + vsz)

/-- MsgPackDeserializer::operator[](string_view). -/
def keyGet (v : List Nat) (key : List Nat) : EE (List Nat) := do
  let (n, off) ← map_info v
  keyFind v key n off

/-- Loop of MsgPackDeserializer::contains. -/
def containsFind (v : List Nat) (key : List Nat) : Nat → Nat → EE Bool
  | 0, _ => .ok false
  | n + 1, off => do
      let ksz ← mpSkipT (v.drop off)
      let kd := sliceBytes v off ksz
      let vsz ← mpSkipT (v.drop (off + ksz))
      if isString kd then do
        let sv ← asStringView kd
        if sv = key then .ok true
        else containsFind v key n (off + ksz + vsz)
      else containsFind v key n (off + ksz + vsz)

/-- MsgPackDeserializer::contains. -/
def contains (v : List Nat) (key : List Nat) : EE Bool :=
  if !isMap v then .ok false
  else do
    let (n, off) ← map_info v
    containsFind v key n off

/-- Walk of the MsgPack KeysView iterator: the keys of the `n` entries in
order (each key must be a string, as operator* requires). -/
def keysWalk (v : List Nat) : Nat → Nat → EE (List (List Nat))
  | 0, _ => .ok []
  | n + 1, off => do
      let ksz ← mpSkipT (v.drop off)
      let kd := sliceBytes v off ksz
      let sv ← asStringView kd
      let vsz ← mpSkipT (v.drop (off + ksz))
      let rest ← keysWalk v n (off + ksz + vsz)
      .ok (sv :: rest)

/-- MsgPackDeserializer::mapKeys, materialized in iteration order. -/
def mapKeys (v : List Nat) : EE (List (List Nat)) := do
  if !isMap v then deserErr "not map"
  else do
    let (n, off) ← map_info v
    keysWalk v n off

/--
Modelled from the spec: the MsgPack writer streams through the external
msgpack-c packer (msgpack.h), which is not part of this repository. The
encodings below are the standard MessagePack encodings msgpack-c emits
(spec section 6 requires bit-exact compatibility with the published
format): minimal-width integer families, fixstr/str8/16/32, bin8/16/32,
float64 for double_, fixarray/array16/32 and fixmap/map16/32 with exact
up-front counts. Signed nonnegative values are packed in the unsigned
families, negative values in the signed families (msgpack_pack_int64).
-/
def encInt64 (n : Int) : List Nat :=
  if n < -(2 ^ 5 : Int) then
    if n < -(2 ^ 15 : Int) then
      if n < -(2 ^ 31 : Int) then 0xd3 :: be64Bytes (toUnsigned64 n)
      else 0xd2 :: be32Bytes (toUnsigned64 n % 2 ^ 32)
    else
      if n < -(2 ^ 7 : Int) then 0xd1 :: be16Bytes (toUnsigned64 n % 2 ^ 16)
      else [0xd0, toUnsigned64 n % 2 ^ 8]
  else if n < (2 ^ 7 : Int) then [toUnsigned64 n % 2 ^ 8]
  else
    if n < (2 ^ 16 : Int) then
      if n < (2 ^ 8 : Int) then [0xcc, n.toNat]
      else 0xcd :: be16Bytes n.toNat
    else
      if n < (2 ^ 32 : Int) then 0xce :: be32Bytes n.toNat
      else 0xcf :: be64Bytes n.toNat

/-- Modelled from the spec: msgpack_pack_uint64 minimal-width encoding. -/
def encUInt64 (n : Nat) : List Nat :=
  if n < 2 ^ 7 then [n]
  else if n < 2 ^ 8 then [0xcc, n]
  else if n < 2 ^ 16 then 0xcd :: be16Bytes n
  else if n < 2 ^ 32 then 0xce :: be32Bytes n
  else 0xcf :: be64Bytes n

/-- Modelled from the spec: msgpack_pack_str header + body. -/
def encStrHeader (len : Nat) : List Nat :=
  if len < 32 then [0xa0 + len]
  else if len < 2 ^ 8 then [0xd9, len]
  else if len < 2 ^ 16 then 0xda :: be16Bytes len
  else 0xdb :: be32Bytes len

/-- Modelled from the spec: msgpack_pack_bin header + body. -/
def encBinHeader (len : Nat) : List Nat :=
  if len < 2 ^ 8 then [0xc4, len]
  else if len < 2 ^ 16 then 0xc5 :: be16Bytes len
  else 0xc6 :: be32Bytes len

/-- Modelled from the spec: msgpack_pack_array header. -/
def encArrayHeader (n : Nat) : List Nat :=
  if n < 16 then [0x90 + n]
  else if n < 2 ^ 16 then 0xdc :: be16Bytes n
  else 0xdd :: be32Bytes n

/-- Modelled from the spec: msgpack_pack_map header. -/
def encMapHeader (n : Nat) : List Nat :=
  if n < 16 then [0x80 + n]
  else if n < 2 ^ 16 then 0xde :: be16Bytes n
  else 0xdf :: be32Bytes n

mutual

/-- Emission of an abstract value through the MsgPack writer (builder DSL
order; the MsgPackSerializer methods perform no protocol checks and the
packer appends bytes unconditionally). -/
def encVal : Val → List Nat
  | .vnull => [0xc0]
  | .vbool b => if b then [0xc3] else [0xc2]
  | .vi64 n => encInt64 n
  | .vu64 n => encUInt64 n
  | .vf64 bits => 0xcb :: be64Bytes bits
  | .vstr s => encStrHeader s.length ++ s
  | .vblob bytes => encBinHeader bytes.length ++ bytes
  | .varr elems => encArrayHeader elems.length ++ encList elems
  | .vmap entries => encMapHeader entries.length ++ encEntries entries

/-- Concatenated encodings of array elements. -/
def encList : List Val → List Nat
  | [] => []
  | v :: rest => encVal v ++ encList rest

/-- Concatenated encodings of map entries (key string then value). -/
def encEntries : List (List Nat × Val) → List Nat
  | [] => []
  | (k, v) :: rest => (encStrHeader k.length ++ k) ++ encVal v ++ encEntries rest

end

end MsgPack

namespace Cbor

/-- Decoded CBOR item head (CborDeserializer::Head). -/
structure Head where
  major : Nat
  addl : Nat
  val : Nat
  hlen : Nat
  indefinite : Bool
  deriving Repr, DecidableEq

/-- CBOR reader view: the whole buffer plus the start position of this
view's value (CborDeserializer stores buf_ and pos_). -/
structure Cr where
  buf : List Nat
  pos : Nat
  deriving Repr, DecidableEq

/-- CborDeserializer::get_be. -/
def get_be (l : List Nat) (p n : Nat) : Nat :=
  (List.range n).foldl (fun v i => v * 2 ^ 8 + byteAt l (p + i)) 0

/-- CborDeserializer::read_head. -/
def read_head (buf : List Nat) (p : Nat) : EE Head := do
  requireD (p < buf.length) "CBOR: truncated"
  let b := byteAt buf p
  let major := b / 32
  let addl := b % 32
  if major = 7 then
    if addl = 25 then .ok ⟨major, addl, 2, 1, false⟩
    else if addl = 26 then .ok ⟨major, addl, 4, 1, false⟩
    else if addl = 27 then .ok ⟨major, addl, 8, 1, false⟩
    else if addl = 24 then do
      requireD (p + 2 ≤ buf.length) "CBOR: truncated simple(24)"
      .ok ⟨major, addl, 0, 2, false⟩
    else if addl = 31 then .ok ⟨major, addl, 0, 1, true⟩
    else .ok ⟨major, addl, 0, 1, false⟩
  else
    if addl < 24 then .ok ⟨major, addl, addl, 1, false⟩
    else if addl = 24 then do
      requireD (p + 2 ≤ buf.length) "CBOR: truncated u8"
      .ok ⟨major, addl, byteAt buf (p + 1), 2, false⟩
    else if addl = 25 then do
      requireD (p + 3 ≤ buf.length) "CBOR: truncated u16"
      .ok ⟨major, addl, get_be buf (p + 1) 2, 3, false⟩
    else if addl = 26 then do
      requireD (p + 5 ≤ buf.length) "CBOR: truncated u32"
      .ok ⟨major, addl, get_be buf (p + 1) 4, 5, false⟩
    else if addl = 27 then do
      requireD (p + 9 ≤ buf.length) "CBOR: truncated u64"
      .ok ⟨major, addl, get_be buf (p + 1) 8, 9, false⟩
    else if addl = 31 then .ok ⟨major, addl, 0, 1, true⟩
    else deserErr "CBOR: reserved additional info"

mutual

/-- CborDeserializer::skip: position just past the value starting at `p`.
Plainly recursive in C++; the embedding adds fuel instantiated by callers
with the buffer length (a bound on the recursion and loop depth for
inputs the C++ code terminates on). -/
def skip (fuel : Nat) (buf : List Nat) (p : Nat) : EE Nat :=
  match fuel with
  | 0 => deserErr "CBOR: skip recursion exhausted"
  | fuel + 1 => do
    let h ← read_head buf p
    let q := p + h.hlen
    if h.major ≤ 1 then .ok q
    else if h.major = 2 || h.major = 3 then
      if !h.indefinite then do
        requireD (q + h.val ≤ buf.length) "CBOR: truncated string"
        .ok (q + h.val)
      else chunkLoop fuel buf h.major q
    else if h.major = 4 then
      if !h.indefinite then skipN fuel h.val buf q
      else indefLoop fuel buf q 1
    else if h.major = 5 then
      if !h.indefinite then skipN fuel (2 * h.val) buf q
      else indefLoop fuel buf q 2
    else if h.major = 6 then skip fuel buf q
    else
      if h.addl = 25 then do
        requireD (q + 2 ≤ buf.length) "CBOR: truncated f16"
        .ok (q + 2)
      else if h.addl = 26 then do
        requireD (q + 4 ≤ buf.length) "CBOR: truncated f32"
        .ok (q + 4)
      else if h.addl = 27 then do
        requireD (q + 8 ≤ buf.length) "CBOR: truncated f64"
        .ok (q + 8)
      else if h.addl = 24 then do
        requireD (q + 1 ≤ buf.length) "CBOR: truncated simple(24)"
        .ok (q + 1)
      else .ok q
termination_by (fuel, 0)

/-- Skip `n` consecutive values starting at position `q` (the definite
container loops of CborDeserializer::skip; a map of k entries skips 2*k
values). -/
def skipN (fuel : Nat) (n : Nat) (buf : List Nat) (q : Nat) : EE Nat :=
  match n with
  | 0 => .ok q
  | n + 1 => do
      let q1 ← skip fuel buf q
      skipN fuel n buf q1
termination_by (fuel, n + 1)

/-- Chunk loop of CborDeserializer::skip for indefinite (byte) strings. -/
def chunkLoop (fuel : Nat) (buf : List Nat) (major : Nat) (q : Nat) : EE Nat :=
  match fuel with
  | 0 => deserErr "CBOR: chunk loop exhausted"
  | fuel + 1 => do
      requireD (q < buf.length) "CBOR: truncated indef str"
      if byteAt buf q = 0xFF then .ok (q + 1)
      else do
        let ch ← read_head buf q
        requireD (ch.major = major) "CBOR: wrong chunk type"
        requireD (!ch.indefinite) "CBOR: nested indef chunks not allowed"
        chunkLoop fuel buf major (q + ch.hlen + ch.val)
termination_by (fuel, 0)

/-- Break-terminated loop of CborDeserializer::skip for indefinite arrays
(step = 1) and maps (step = 2). -/
def indefLoop (fuel : Nat) (buf : List Nat) (q : Nat) (step : Nat) : EE Nat :=
  match fuel with
  | 0 => deserErr "CBOR: indefinite loop exhausted"
  | fuel + 1 => do
      requireD (q < buf.length) "CBOR: truncated indef container"
      if byteAt buf q = 0xFF then .ok (q + 1)
      else do
        let q1 ← skipN fuel step buf q
        indefLoop fuel buf q1 step
termination_by (fuel, step + 1)

end

/-- CborDeserializer::head. -/
def Cr.head (c : Cr) : EE Head := read_head c.buf c.pos

/-- Fuel instantiation used by the view operations. -/
def Cr.fuelOf (c : Cr) : Nat := c.buf.length + 1

/-- CborDeserializer::isNull. -/
def Cr.isNull (c : Cr) : EE Bool := do
  let h ← c.head
  .ok (h.major = 7 && h.addl = 22)

/-- CborDeserializer::isBool. -/
def Cr.isBool (c : Cr) : EE Bool := do
  let h ← c.head
  .ok (h.major = 7 && (h.addl = 20 || h.addl = 21))

/-- CborDeserializer::isInt. -/
def Cr.isInt (c : Cr) : EE Bool := do
  let h ← c.head
  .ok (h.major = 0 || h.major = 1)

/-- CborDeserializer::isUInt. -/
def Cr.isUInt (c : Cr) : EE Bool := do
  let h ← c.head
  .ok (h.major = 0)

/-- CborDeserializer::isFloat. -/
def Cr.isFloat (c : Cr) : EE Bool := do
  let h ← c.head
  .ok (h.major = 7 && (h.addl = 25 || h.addl = 26 || h.addl = 27))

/-- CborDeserializer::isString. -/
def Cr.isString (c : Cr) : EE Bool := do
  let h ← c.head
  .ok (h.major = 3)

/-- CborDeserializer::isBlob. -/
def Cr.isBlob (c : Cr) : EE Bool := do
  let h ← c.head
  .ok (h.major = 2)

/-- CborDeserializer::isMap. -/
def Cr.isMap (c : Cr) : EE Bool := do
  let h ← c.head
  .ok (h.major = 5)

/-- CborDeserializer::isArray. -/
def Cr.isArray (c : Cr) : EE Bool := do
  let h ← c.head
  .ok (h.major = 4)

/-- CborDeserializer::asInt64. Note the major-0 case is a plain
static_cast<int64_t> of the stored unsigned value, with no range check. -/
def Cr.asInt64 (c : Cr) : EE Int := do
  let h ← c.head
  requireD (h.major = 0 || h.major = 1) "CBOR: not an integer"
  if h.major = 0 then .ok (toSigned64 h.val)
  else do
    requireD (h.val ≤ i64Max) "int64 underflow"
    .ok (-1 - (h.val : Int))

/-- CborDeserializer::asUInt64. -/
def Cr.asUInt64 (c : Cr) : EE Nat := do
  let h ← c.head
  requireD (h.major = 0) "CBOR: not an unsigned integer"
  .ok h.val

/-- CborDeserializer::asInt8. -/
def Cr.asInt8 (c : Cr) : EE Int := do
  let v ← c.asInt64
  if v < -(2 ^ 7 : Int) || (2 ^ 7 : Int) - 1 < v then deserErr "int8 out of range"
  else .ok v

/-- CborDeserializer::asInt32. -/
def Cr.asInt32 (c : Cr) : EE Int := do
  let v ← c.asInt64
  if v < -(2 ^ 31 : Int) || (2 ^ 31 : Int) - 1 < v then deserErr "int32 out of range"
  else .ok v

/-- CborDeserializer::asDouble by provenance: the half/single/double bit
pattern read at the body position (decode_f16 and the float32 memcpy
convert to double; the 64-bit case is the identity on patterns). -/
def Cr.asDouble (c : Cr) : EE FloatRepr := do
  let h ← c.head
  let fl ← c.isFloat
  requireD fl "CBOR: not a float"
  let q := c.pos + h.hlen
  if h.addl = 25 then .ok (.f16Bits (byteAt c.buf q * 2 ^ 8 + byteAt c.buf (q + 1)))
  else if h.addl = 26 then .ok (.f32Bits (get_be c.buf q 4))
  else .ok (.f64Bits (get_be c.buf q 8))

/-- CborDeserializer::asBool. -/
def Cr.asBool (c : Cr) : EE Bool := do
  let h ← c.head
  requireD (h.major = 7 && (h.addl = 20 || h.addl = 21)) "CBOR: not a bool"
  .ok (h.addl = 21)

/-- Materialization of chunked text (the indefinite branch of
CborDeserializer::asString). -/
def strChunks (fuel : Nat) (buf : List Nat) (major : Nat) (q : Nat) : EE (List Nat) :=
  match fuel with
  | 0 => deserErr "CBOR: chunk materialization exhausted"
  | fuel + 1 => do
      requireD (q < buf.length) "CBOR: truncated indef tstr"
      if byteAt buf q = 0xFF then .ok []
      else do
        let ch ← read_head buf q
        requireD (ch.major = major && !ch.indefinite) "CBOR: bad tstr chunk"
        let q1 := q + ch.hlen
        requireD (q1 + ch.val ≤ buf.length) "CBOR: trunc"
        let rest ← strChunks fuel buf major (q1 + ch.val)
        .ok (sliceBytes buf q1 ch.val ++ rest)

/-- CborDeserializer::asString (definite and indefinite forms). -/
def Cr.asString (c : Cr) : EE (List Nat) := do
  let h ← c.head
  requireD (h.major = 3) "CBOR: not a string"
  let q := c.pos + h.hlen
  if !h.indefinite then do
    requireD (q + h.val ≤ c.buf.length) "CBOR: truncated string"
    .ok (sliceBytes c.buf q h.val)
  else strChunks c.fuelOf c.buf 3 q

/-- CborDeserializer::asStringView. -/
def Cr.asStringView (c : Cr) : EE (List Nat) := do
  let h ← c.head
  requireD (h.major = 3) "CBOR: not a string"
  requireD (!h.indefinite) "CBOR: string is indefinite; use asString()"
  let q := c.pos + h.hlen
  requireD (q + h.val ≤ c.buf.length) "CBOR: trunc tstr"
  .ok (sliceBytes c.buf q h.val)

/-- CborDeserializer::asBlob. -/
def Cr.asBlob (c : Cr) : EE (List Nat) := do
  let h ← c.head
  requireD (h.major = 2) "CBOR: not a byte string"
  requireD (!h.indefinite) "CBOR: chunked byte string; fetch via asBlobVec()"
  let q := c.pos + h.hlen
  requireD (q + h.val ≤ c.buf.length) "CBOR: trunc bstr"
  .ok (sliceBytes c.buf q h.val)

/-- Loop of the definite branch of CborDeserializer::contains. -/
def containsLoopD (fuel : Nat) (c : Cr) (key : List Nat) : Nat → Nat → EE Bool
  | 0, _ => .ok false
  | n + 1, q => do
      let kh ← read_head c.buf q
      if kh.major = 3 ∧ !kh.indefinite then do
        let ksv := sliceBytes c.buf (q + kh.hlen) kh.val
        if ksv = key then .ok true
        else do
          let q1 ← skip fuel c.buf q
          let q2 ← skip fuel c.buf q1
          containsLoopD fuel c key n q2
      else do
        let ks ← Cr.asString { c with pos := q }
        if ks = key then .ok true
        else do
          let q1 ← skip fuel c.buf q
          let q2 ← skip fuel c.buf q1
          containsLoopD fuel c key n q2

/-- Loop of the indefinite branch of CborDeserializer::contains. -/
def containsLoopI (fuel : Nat) (c : Cr) (key : List Nat) (q : Nat) : EE Bool :=
  match fuel with
  | 0 => deserErr "CBOR: contains loop exhausted"
  | fuel + 1 => do
      requireD (q < c.buf.length) "CBOR: trunc indef map"
      if byteAt c.buf q = 0xFF then .ok false
      else do
        let k ← Cr.asString { c with pos := q }
        let q1 ← skip (c.fuelOf) c.buf q
        if k = key then .ok true
        else do
          let q2 ← skip (c.fuelOf) c.buf q1
          containsLoopI fuel c key q2

/-- CborDeserializer::contains. -/
def Cr.contains (c : Cr) (key : List Nat) : EE Bool := do
  let h ← c.head
  if h.major ≠ 5 then .ok false
  else
    let q := c.pos + h.hlen
    if !h.indefinite then containsLoopD c.fuelOf c key h.val q
    else containsLoopI c.fuelOf c key q

/-- Loop of the definite branch of CborDeserializer::operator[](key). -/
def keyFindD (fuel : Nat) (c : Cr) (key : List Nat) : Nat → Nat → EE Cr
  | 0, _ => deserErr "CBOR: key not found"
  | n + 1, q => do
      let k ← Cr.asString { c with pos := q }
      let q1 ← skip fuel c.buf q
      if k = key then .ok { c with pos := q1 }
      else do
        let q2 ← skip fuel c.buf q1
        keyFindD fuel c key n q2

/-- Loop of the indefinite branch of CborDeserializer::operator[](key). -/
def keyFindI (fuel : Nat) (c : Cr) (key : List Nat) (q : Nat) : EE Cr :=
  match fuel with
  | 0 => deserErr "CBOR: key loop exhausted"
  | fuel + 1 => do
      requireD (q < c.buf.length) "CBOR: trunc indef map"
      if byteAt c.buf q = 0xFF then deserErr "CBOR: key not found"
      else do
        let k ← Cr.asString { c with pos := q }
        let q1 ← skip c.fuelOf c.buf q
        if k = key then .ok { c with pos := q1 }
        else do
          let q2 ← skip c.fuelOf c.buf q1
          keyFindI fuel c key q2

/-- CborDeserializer::operator[](string_view). -/
def Cr.keyGet (c : Cr) (key : List Nat) : EE Cr := do
  let h ← c.head
  requireD (h.major = 5) "CBOR: not a map"
  let q := c.pos + h.hlen
  if !h.indefinite then keyFindD c.fuelOf c key h.val q
  else keyFindI c.fuelOf c key q

/-- Count loop for indefinite arrays (CborDeserializer::arraySize). -/
def countIndef (fuel : Nat) (buf : List Nat) (q : Nat) (acc : Nat) : EE Nat :=
  match fuel with
  | 0 => deserErr "CBOR: count loop exhausted"
  | fuel + 1 => do
      requireD (q < buf.length) "CBOR: trunc indef arr"
      if byteAt buf q = 0xFF then .ok acc
      else do
        let q1 ← skip (buf.length + 1) buf q
        countIndef fuel buf q1 (acc + 1)

/-- CborDeserializer::arraySize. -/
def Cr.arraySize (c : Cr) : EE Nat := do
  let h ← c.head
  requireD (h.major = 4) "CBOR: not an array"
  if !h.indefinite then .ok h.val
  else countIndef c.fuelOf c.buf (c.pos + h.hlen) 0

/-- Walk to element `idx` of an indefinite array. -/
def elemIndef (fuel : Nat) (c : Cr) (idx : Nat) (q : Nat) : EE Cr :=
  match fuel with
  | 0 => deserErr "CBOR: index loop exhausted"
  | fuel + 1 => do
      requireD (q < c.buf.length) "CBOR: trunc indef arr"
      if byteAt c.buf q = 0xFF then deserErr "CBOR: index OOB"
      else if idx = 0 then .ok { c with pos := q }
      else do
        let q1 ← skip c.fuelOf c.buf q
        elemIndef fuel c (idx - 1) q1

/-- CborDeserializer::operator[](size_t). -/
def Cr.elem (c : Cr) (idx : Nat) : EE Cr := do
  let h ← c.head
  requireD (h.major = 4) "CBOR: not an array"
  let q := c.pos + h.hlen
  if !h.indefinite then do
    requireD (idx < h.val) "CBOR: index OOB"
    let q1 ← skipN c.fuelOf idx c.buf q
    .ok { c with pos := q1 }
  else elemIndef c.fuelOf c idx q

/-- Walk of the CBOR KeysView iterator over a definite map: keys in entry
order (fast path slices definite text keys; other keys materialize via
asString). The iterator helpers perform no bounds checks of their own. -/
def keysWalkD (fuel : Nat) (c : Cr) : Nat → Nat → EE (List (List Nat))
  | 0, _ => .ok []
  | n + 1, q => do
      let kh ← read_head c.buf q
      let key ←
        if kh.major = 3 ∧ !kh.indefinite then
          .ok (sliceBytes c.buf (q + kh.hlen) kh.val)
        else Cr.asString { c with pos := q }
      let q1 ← skip fuel c.buf q
      let q2 ← skip fuel c.buf q1
      let rest ← keysWalkD fuel c n q2
      .ok (key :: rest)

/-- Walk of the CBOR KeysView iterator over an indefinite map. -/
def keysWalkI (fuel : Nat) (c : Cr) (q : Nat) : EE (List (List Nat)) :=
  match fuel with
  | 0 => deserErr "CBOR: keys loop exhausted"
  | fuel + 1 => do
      requireD (q < c.buf.length) "CBOR: trunc indef map"
      if byteAt c.buf q = 0xFF then .ok []
      else do
        let kh ← read_head c.buf q
        let key ←
          if kh.major = 3 ∧ !kh.indefinite then
            .ok (sliceBytes c.buf (q + kh.hlen) kh.val)
          else Cr.asString { c with pos := q }
        let q1 ← skip c.fuelOf c.buf q
        let q2 ← skip c.fuelOf c.buf q1
        let rest ← keysWalkI fuel c q2
        .ok (key :: rest)

/-- CborDeserializer::mapKeys, materialized in iteration order. -/
def Cr.mapKeys (c : Cr) : EE (List (List Nat)) := do
  let h ← c.head
  requireD (h.major = 5) "CBOR: not a map"
  let q := c.pos + h.hlen
  if !h.indefinite then keysWalkD c.fuelOf c h.val q
  else keysWalkI c.fuelOf c q

/--
Modelled from the spec: the CBOR writer delegates to the external
jsoncons cbor encoder, which is not part of this repository. The model
emits the standard definite-length encodings with minimal-width heads
(preferred serialization): nonnegative integers as major 0, negative as
major 1 with the -1-n convention, text as major 3, byte strings as major
2, arrays/maps as major 4/5 with up-front counts, booleans/null as the
major-7 simple values, and double_ as the 64-bit float (0xfb). If the
encoder shortens exactly-representable doubles to 32 bits the decoded
double value is unchanged, so round-trip verdicts are unaffected.
-/
def encHead (major n : Nat) : List Nat :=
  if n < 24 then [major * 32 + n]
  else if n < 2 ^ 8 then [major * 32 + 24, n]
  else if n < 2 ^ 16 then (major * 32 + 25) :: be16Bytes n
  else if n < 2 ^ 32 then (major * 32 + 26) :: be32Bytes n
  else (major * 32 + 27) :: be64Bytes n

mutual

/-- Emission of an abstract value through the CBOR writer (builder DSL
order; Serializer methods delegate to the encoder unconditionally). -/
def encVal : Val → List Nat
  | .vnull => [0xf6]
  | .vbool b => if b then [0xf5] else [0xf4]
  | .vi64 n => if 0 ≤ n then encHead 0 n.toNat else encHead 1 (-1 - n).toNat
  | .vu64 n => encHead 0 n
  | .vf64 bits => 0xfb :: be64Bytes bits
  | .vstr s => encHead 3 s.length ++ s
  | .vblob bytes => encHead 2 bytes.length ++ bytes
  | .varr elems => encHead 4 elems.length ++ encList elems
  | .vmap entries => encHead 5 entries.length ++ encEntries entries

/-- Concatenated encodings of array elements. -/
def encList : List Val → List Nat
  | [] => []
  | v :: rest => encVal v ++ encList rest

/-- Concatenated encodings of map entries (text key then value). -/
def encEntries : List (List Nat × Val) → List Nat
  | [] => []
  | (k, v) :: rest => (encHead 3 k.length ++ k) ++ encVal v ++ encEntries rest

end

/-- Reader over a freshly written buffer. -/
def readBack (v : Val) : Cr := { buf := encVal v, pos := 0 }

end Cbor

namespace Flex

/--
Modelled from the spec: the FlexBuffers on-disk format and its
builder/reader live in the external flatbuffers library
(flexbuffers.h); the repository only wraps them (flex.hpp). Per spec
sections 4.2 and 9, the wrapped reader exposes the logical tree with
maps physically keyed by sorted strings, so the model is a value tree
whose maps are stored in sorted key order.
-/
inductive Fv where
  | fnull
  | fbool (b : Bool)
  | fint (n : Int)
  | fuint (n : Nat)
  | ffloat (bits : Nat)
  | fstr (s : List Nat)
  | fblob (bytes : List Nat)
  | farr (elems : List Fv)
  | fmap (entries : List (List Nat × Fv))

/-- Lexicographic byte-order comparison used for FlexBuffers key sorting. -/
def lexLe : List Nat → List Nat → Bool
  | [], _ => true
  | _ :: _, [] => false
  | x :: xs, y :: ys => if x < y then true else if y < x then false else lexLe xs ys

/-- Insert an entry into a key-sorted entry list. -/
def insertEntry (e : List Nat × Fv) : List (List Nat × Fv) → List (List Nat × Fv)
  | [] => [e]
  | f :: rest => if lexLe e.1 f.1 then e :: f :: rest else f :: insertEntry e rest

/-- Sort entries by key (flexbuffers::Builder::EndMap sorts keys). -/
def sortEntries (es : List (List Nat × Fv)) : List (List Nat × Fv) :=
  es.foldr insertEntry []

mutual

/-- Modelled from the spec: writing an abstract value through the
FlexBuffers writer and re-reading it yields the same logical tree except
that map entries are physically sorted by key. -/
def ofVal : Val → Fv
  | .vnull => .fnull
  | .vbool b => .fbool b
  | .vi64 n => .fint n
  | .vu64 n => .fuint n
  | .vf64 bits => .ffloat bits
  | .vstr s => .fstr s
  | .vblob bytes => .fblob bytes
  | .varr elems => .farr (ofList elems)
  | .vmap entries => .fmap (sortEntries (ofEntries entries))

/-- Element-wise conversion. -/
def ofList : List Val → List Fv
  | [] => []
  | v :: rest => ofVal v :: ofList rest

/-- Entry-wise conversion (before sorting). -/
def ofEntries : List (List Nat × Val) → List (List Nat × Fv)
  | [] => []
  | (k, v) :: rest => (k, ofVal v) :: ofEntries rest

end

namespace Fv

/-- FlexViewBase::isNull. -/
def isNull : Fv → Bool
  | .fnull => true
  | _ => false

/-- FlexViewBase::isBool. -/
def isBool : Fv → Bool
  | .fbool _ => true
  | _ => false

/-- FlexViewBase::isInt. -/
def isInt : Fv → Bool
  | .fint _ => true
  | _ => false

/-- FlexViewBase::isUInt. -/
def isUInt : Fv → Bool
  | .fuint _ => true
  | _ => false

/-- FlexViewBase::isFloat. -/
def isFloat : Fv → Bool
  | .ffloat _ => true
  | _ => false

/-- FlexViewBase::isString. -/
def isString : Fv → Bool
  | .fstr _ => true
  | _ => false

/-- FlexViewBase::isBlob. -/
def isBlob : Fv → Bool
  | .fblob _ => true
  | _ => false

/-- FlexViewBase::isMap. -/
def isMap : Fv → Bool
  | .fmap _ => true
  | _ => false

/-- FlexViewBase::isArray (IsAnyVector and not IsMap). -/
def isArray : Fv → Bool
  | .farr _ => true
  | _ => false

/-- FlexViewBase::asInt64 (type check in flex.hpp; extraction by the
flexbuffers reference). -/
def asInt64 : Fv → EE Int
  | .fint n => .ok n
  | _ => deserErr "value is not a signed integer"

/-- FlexViewBase::asInt8: the repository checks isInt only; the
flexbuffers AsInt8 accessor truncates to the narrow width (a
static_cast of AsInt64, modelled from the published flexbuffers
semantics). -/
def asInt8 : Fv → EE Int
  | .fint n => .ok (castSigned 8 n)
  | _ => deserErr "value is not a signed integer"

/-- FlexViewBase::asInt32 (truncating, as asInt8). -/
def asInt32 : Fv → EE Int
  | .fint n => .ok (castSigned 32 n)
  | _ => deserErr "value is not a signed integer"

/-- FlexViewBase::asUInt64. -/
def asUInt64 : Fv → EE Nat
  | .fuint n => .ok n
  | _ => deserErr "value is not an unsigned integer"

/-- FlexViewBase::asDouble. -/
def asDouble : Fv → EE FloatRepr
  | .ffloat bits => .ok (.f64Bits bits)
  | _ => deserErr "value is not a float"

/-- FlexViewBase::asBool. -/
def asBool : Fv → EE Bool
  | .fbool b => .ok b
  | _ => deserErr "value is not a bool"

/-- FlexViewBase::asStringView. -/
def asStringView : Fv → EE (List Nat)
  | .fstr s => .ok s
  | _ => deserErr "value is not a string"

/-- FlexViewBase::asBlob. -/
def asBlob : Fv → EE (List Nat)
  | .fblob bytes => .ok bytes
  | _ => deserErr "value is not a blob"

/-- FlexViewBase::arraySize. -/
def arraySize : Fv → EE Nat
  | .farr elems => .ok elems.length
  | _ => deserErr "not an array"

/-- FlexViewBase::operator[](size_t). -/
def elem : Fv → Nat → EE Fv
  | .farr elems, idx =>
      match elems.get? idx with
      | some v => .ok v
      | none => deserErr "index out of bounds"
  | _, _ => deserErr "not an array"

/-- FlexViewBase::mapKeys: the physically sorted key sequence. -/
def mapKeys : Fv → EE (List (List Nat))
  | .fmap entries => .ok (entries.map Prod.fst)
  | _ => deserErr "not a map"

/-- Key lookup over the sorted entries (the binary search of
FlexViewBase::operator[] finds a key iff it is present). -/
def lookupEntry (key : List Nat) : List (List Nat × Fv) → Option Fv
  | [] => none
  | (k, v) :: rest => if k = key then some v else lookupEntry key rest

/-- FlexViewBase::contains. -/
def contains (f : Fv) (key : List Nat) : EE Bool :=
  match f with
  | .fmap entries => .ok (lookupEntry key entries).isSome
  | _ => .ok false

/-- FlexViewBase::operator[](string_view). -/
def keyGet (f : Fv) (key : List Nat) : EE Fv :=
  match f with
  | .fmap entries =>
      match lookupEntry key entries with
      | some v => .ok v
      | none => deserErr "key not found"
  | _ => deserErr "not a map"

end Fv

/-- Flex writer protocol state (flex.hpp RootSerializer::Ctx stack): the
frames record array/map kind; the wrapper checks only that end_array and
end_map close the matching frame kind, throwing std::logic_error
otherwise (ensure_in). Key pairing is not tracked. -/
inductive FCtx where
  | arrK
  | objK
  deriving Repr, DecidableEq

/-- flex.hpp Serializer::end_array / end_map frame check (ensure_in):
raises std::logic_error, not SerializationError. -/
def ensure_in (st : List FCtx) (want : FCtx) (fn : String) : EE Unit :=
  match st with
  | [] => .error (.logic (fn ++ " called outside correct container"))
  | k :: _ => if k = want then .ok () else .error (.logic (fn ++ " called outside correct container"))

end Flex

namespace Json

/--
Modelled from the spec: the JSON codec delegates parsing to the external
yyjson library (json.hpp wraps it); the model is the parsed value tree.
Numbers carry the yyjson subtype: nonnegative integers parse as uint,
negative as sint, and reals are modelled by bit pattern.
-/
inductive Jv where
  | jnull
  | jbool (b : Bool)
  | jsint (n : Int)
  | juint (n : Nat)
  | jreal (bits : Nat)
  | jstr (s : List Nat)
  | jarr (elems : List Jv)
  | jobj (entries : List (List Nat × Jv))

/-- Base64 alphabet byte values (internals/base64.hpp). -/
def b64Char (i : Nat) : Nat :=
  byteAt [65, 66, 67, 68, 69, 70, 71, 72, 73, 74, 75, 76, 77, 78, 79, 80,
          81, 82, 83, 84, 85, 86, 87, 88, 89, 90,
          97, 98, 99, 100, 101, 102, 103, 104, 105, 106, 107, 108, 109, 110,
          111, 112, 113, 114, 115, 116, 117, 118, 119, 120, 121, 122,
          48, 49, 50, 51, 52, 53, 54, 55, 56, 57, 43, 47] i

/-- internals/base64.hpp base64Encode (RFC 4648, with padding). -/
def base64Encode : List Nat → List Nat
  | [] => []
  | [a] => [b64Char (a / 4), b64Char (a % 4 * 16), 61, 61]
  | [a, b] => [b64Char (a / 4), b64Char (a % 4 * 16 + b / 16), b64Char (b % 16 * 4), 61]
  | a :: b :: c :: rest =>
      [b64Char (a / 4), b64Char (a % 4 * 16 + b / 16),
       b64Char (b % 16 * 4 + c / 64), b64Char (c % 64)] ++ base64Encode rest

/-- The "~b" blob tag string. -/
def blobTag : List Nat := [126, 98]

/-- The "base64" blob encoding marker string. -/
def blobEncoding : List Nat := [98, 97, 115, 101, 54, 52]

mutual

/-- Modelled from the spec: writing an abstract value through the JSON
writer (json.hpp Serializer over yyjson_mut) and re-parsing the text
yields this tree; blobs become the three-element base64-tagged array. -/
def ofVal : Val → Jv
  | .vnull => .jnull
  | .vbool b => .jbool b
  | .vi64 n => if 0 ≤ n then .juint n.toNat else .jsint n
  | .vu64 n => .juint n
  | .vf64 bits => .jreal bits
  | .vstr s => .jstr s
  | .vblob bytes => .jarr [.jstr blobTag, .jstr (base64Encode bytes), .jstr blobEncoding]
  | .varr elems => .jarr (ofList elems)
  | .vmap entries => .jobj (ofEntries entries)

/-- Element-wise conversion. -/
def ofList : List Val → List Jv
  | [] => []
  | v :: rest => ofVal v :: ofList rest

/-- Entry-wise conversion (insertion order preserved). -/
def ofEntries : List (List Nat × Val) → List (List Nat × Jv)
  | [] => []
  | (k, v) :: rest => (k, ofVal v) :: ofEntries rest

end

namespace Jv

/-- JsonDeserializer::isNull. -/
def isNull : Jv → Bool
  | .jnull => true
  | _ => false

/-- JsonDeserializer::isBool. -/
def isBool : Jv → Bool
  | .jbool _ => true
  | _ => false

/-- JsonDeserializer::isInt (yyjson_is_int: sint or uint subtype). -/
def isInt : Jv → Bool
  | .jsint _ => true
  | .juint _ => true
  | _ => false

/-- JsonDeserializer::isUInt (yyjson_is_uint). -/
def isUInt : Jv → Bool
  | .juint _ => true
  | _ => false

/-- JsonDeserializer::isFloat (yyjson_is_real). -/
def isFloat : Jv → Bool
  | .jreal _ => true
  | _ => false

/-- JsonDeserializer::isString. -/
def isString : Jv → Bool
  | .jstr _ => true
  | _ => false

/-- JsonDeserializer::isMap. -/
def isMap : Jv → Bool
  | .jobj _ => true
  | _ => false

/-- JsonDeserializer::isArray. -/
def isArray : Jv → Bool
  | .jarr _ => true
  | _ => false

/-- yyjson_get_sint: the stored 64-bit pattern as a signed value. -/
def getSint : Jv → Int
  | .jsint n => n
  | .juint n => toSigned64 n
  | _ => 0

/-- JsonDeserializer::asInt64. -/
def asInt64 (j : Jv) : EE Int :=
  if j.isInt then .ok j.getSint else deserErr "Value is not a signed integer"

/-- JsonDeserializer::asInt8: a plain static_cast<int8_t> of the stored
value after the integer type check, with no range check. -/
def asInt8 (j : Jv) : EE Int :=
  if j.isInt then .ok (castSigned 8 j.getSint) else deserErr "Value is not a signed integer"

/-- JsonDeserializer::asInt32 (truncating cast, as asInt8). -/
def asInt32 (j : Jv) : EE Int :=
  if j.isInt then .ok (castSigned 32 j.getSint) else deserErr "Value is not a signed integer"

/-- JsonDeserializer::asUInt64. -/
def asUInt64 : Jv → EE Nat
  | .juint n => .ok n
  | _ => deserErr "Value is not a unsigned integer"

/-- JsonDeserializer::asBool. -/
def asBool : Jv → EE Bool
  | .jbool b => .ok b
  | _ => deserErr "Value is not a boolean"

/-- JsonDeserializer::asStringView. -/
def asStringView : Jv → EE (List Nat)
  | .jstr s => .ok s
  | _ => deserErr "Value is not a string"

/-- JsonDeserializer::arraySize. -/
def arraySize : Jv → EE Nat
  | .jarr elems => .ok elems.length
  | _ => deserErr "Value is not a array"

/-- JsonDeserializer::operator[](size_t). -/
def elem : Jv → Nat → EE Jv
  | .jarr elems, idx =>
      match elems.get? idx with
      | some v => .ok v
      | none => deserErr "Array index out of range"
  | _, _ => deserErr "Value is not a array"

/-- First-match key lookup (yyjson_obj_getn). -/
def lookupEntry (key : List Nat) : List (List Nat × Jv) → Option Jv
  | [] => none
  | (k, v) :: rest => if k = key then some v else lookupEntry key rest

/-- JsonDeserializer::contains. -/
def contains (j : Jv) (key : List Nat) : EE Bool :=
  match j with
  | .jobj entries => .ok (lookupEntry key entries).isSome
  | _ => .ok false

/-- JsonDeserializer::operator[](string_view). -/
def keyGet (j : Jv) (key : List Nat) : EE Jv :=
  match j with
  | .jobj entries =>
      match lookupEntry key entries with
      | some v => .ok v
      | none => deserErr "Key not found"
  | _ => deserErr "Value is not a map/object"

/-- JsonDeserializer::mapKeys (yyjson object iteration order = insertion
order). -/
def mapKeys : Jv → EE (List (List Nat))
  | .jobj entries => .ok (entries.map Prod.fst)
  | _ => deserErr "Value is not a map/object"

end Jv

/-- json.hpp RootSerializer::finish with no root written: sets the root
to null and writes the document, so re-parsing yields null. -/
def finishFresh : Jv := .jnull

end Json

namespace Tensor

/-- tensor/view_info.hpp TensorViewReason: the closed reason set. -/
inductive Reason where
  | Ok
  | NotSpanBacked
  | Misaligned
  deriving Repr, DecidableEq

/-- tensor/view_info.hpp TensorViewInfo. -/
structure TensorViewInfo where
  zero_copy : Bool := false
  reason : Reason := .Ok
  required_alignment : Nat := 0
  address : Nat := 0
  byte_size : Nat := 0
  deriving Repr, DecidableEq

/-- A codec blob as the tensor adapter receives it: either a borrowed
span into the buffer (FlexBuffers, MessagePack, CBOR, ZERA) or an owning
byte vector (JSON). Both carry the data address the adapter records. The
constructor distinction models the compile-time type distinction the
adapter branches on. -/
inductive Blob where
  | spanB (addr : Nat) (bytes : List Nat)
  | ownedB (addr : Nat) (bytes : List Nat)
  deriving Repr, DecidableEq

/-- Bytes of a blob (tensor/xtensor.hpp blob_to_span). -/
def Blob.bytes : Blob → List Nat
  | .spanB _ bytes => bytes
  | .ownedB _ bytes => bytes

/-- Data address of a blob span. -/
def Blob.addr : Blob → Nat
  | .spanB addr _ => addr
  | .ownedB addr _ => addr

/--
Generic reader value for instantiating the tensor templates
(tensor/utils.hpp, tensor/xtensor.hpp are templates over the Reader
concept). Scalar accessors use the checked semantics shared by the
MsgPack, CBOR and ZERA readers; the dtype codes and shape dimensions the
adapter reads are in-range, where all codecs agree.
-/
inductive Dv where
  | dnull
  | dbool (b : Bool)
  | dint (n : Int)
  | duint (n : Nat)
  | dfloat (bits : Nat)
  | dstr (s : List Nat)
  | dblob (blob : Blob)
  | darr (elems : List Dv)
  | dmap (entries : List (List Nat × Dv))

namespace Dv

/-- Reader isArray. -/
def isArray : Dv → Bool
  | .darr _ => true
  | _ => false

/-- Reader isInt. -/
def isInt : Dv → Bool
  | .dint _ => true
  | _ => false

/-- Reader isUInt. -/
def isUInt : Dv → Bool
  | .duint _ => true
  | _ => false

/-- Reader isBlob. -/
def isBlob : Dv → Bool
  | .dblob _ => true
  | _ => false

/-- Reader arraySize. -/
def arraySize : Dv → EE Nat
  | .darr elems => .ok elems.length
  | _ => deserErr "not an array"

/-- Reader operator[](size_t). -/
def elem : Dv → Nat → EE Dv
  | .darr elems, idx =>
      match elems.get? idx with
      | some v => .ok v
      | none => deserErr "index out of bounds"
  | _, _ => deserErr "not an array"

/-- Reader asInt64. -/
def asInt64 : Dv → EE Int
  | .dint n => .ok n
  | _ => deserErr "not a signed integer"

/-- Reader asUInt64. -/
def asUInt64 : Dv → EE Nat
  | .duint n => .ok n
  | _ => deserErr "not an unsigned integer"

/-- Reader asInt8 (checked narrowing shared by MsgPack/CBOR/ZERA). -/
def asInt8 (d : Dv) : EE Int := do
  let v ← d.asInt64
  if v < -(2 ^ 7 : Int) || (2 ^ 7 : Int) - 1 < v then deserErr "int8 out of range"
  else .ok v

/-- Reader asInt32 (checked narrowing shared by MsgPack/CBOR/ZERA). -/
def asInt32 (d : Dv) : EE Int := do
  let v ← d.asInt64
  if v < -(2 ^ 31 : Int) || (2 ^ 31 : Int) - 1 < v then deserErr "int32 out of range"
  else .ok v

/-- Reader asBlob: the protocol-specific blob representation. -/
def asBlob : Dv → EE Blob
  | .dblob blob => .ok blob
  | _ => deserErr "not a blob"

end Dv

/-- tensor/utils.hpp isTensor (flat-array form, TensorIsMap = false),
with the C++ short-circuit evaluation order. -/
def isTensor (dtypeCode : Nat) (buf : Dv) : EE Bool := do
  if !buf.isArray then .ok false
  else do
    let n ← buf.arraySize
    if n < 3 then .ok false
    else do
      let e0 ← buf.elem 0
      if !e0.isInt then .ok false
      else do
        let c0 ← e0.asInt8
        if c0 ≠ (dtypeCode : Int) then .ok false
        else do
          let e1 ← buf.elem 1
          if !e1.isArray then .ok false
          else do
            let e2 ← buf.elem 2
            .ok e2.isBlob

/-- Loop body of tensor/utils.hpp tensor_shape. -/
def tensorShapeLoop (d : Dv) (n : Nat) : Nat → EE (List Nat)
  | 0 => .ok []
  | k + 1 => do
      let i := n - (k + 1)
      let e ← d.elem i
      let dim ←
        if e.isUInt then do
          let v ← e.asUInt64
          if v > 2 ^ 32 - 1 then deserErr "tensor dimension exceeds TensorShapeElement range"
          else .ok v
        else if e.isInt then do
          let v ← e.asInt64
          if v < 0 then deserErr "tensor dimensions must be non-negative"
          else if v > (2 ^ 32 : Int) - 1 then deserErr "tensor dimension exceeds TensorShapeElement range"
          else .ok v.toNat
        else deserErr "tensor shape contains non-integer element"
      let rest ← tensorShapeLoop d n k
      .ok (dim :: rest)

/-- tensor/utils.hpp tensor_shape. -/
def tensor_shape (d : Dv) : EE (List Nat) := do
  if !d.isArray then deserErr "tensor shape must be an array"
  else do
    let n ← d.arraySize
    tensorShapeLoop d n n

/-- tensor/xtensor.hpp checked_element_count: multiply the dimensions
with a size_t overflow check on the product of the dimensions; a zero
dimension returns zero immediately. -/
def checked_element_count : List Nat → EE Nat :=
  go 1
where
  /-- Fold with the running count. -/
  go (count : Nat) : List Nat → EE Nat
    | [] => .ok count
    | d :: rest =>
        if d = 0 then .ok 0
        else if count > (2 ^ 64 - 1) / d then deserErr "tensor element count overflow"
        else go (count * d) rest

/-- Backing storage of an XTensorView: a zero-copy span view or an
owning aligned copy. -/
inductive Backing where
  | viewSpan (bytes : List Nat)
  | ownedArr (bytes : List Nat)
  deriving Repr, DecidableEq

/-- tensor/xtensor.hpp XTensorView, reduced to its observable content:
the zero-copy report and the element bytes it is backed by. -/
structure XTView where
  info : TensorViewInfo
  shape : List Nat
  element_count : Nat
  backing : Backing
  deriving Repr, DecidableEq

/-- tensor/xtensor.hpp asXTensorView, parameterized by the element
type's dtype code, size and alignment, and the optional fixed rank `D`.
The expected byte length is computed in size_t arithmetic, so the final
multiplication by sizeof(T) wraps modulo 2^64 (only the dimension
product itself is overflow-checked). -/
def asXTensorView (dtypeCode sizeofT alignT : Nat) (D : Option Nat) (buf : Dv) : EE XTView := do
  let ten ← isTensor dtypeCode buf
  if !ten then deserErr "not a tensor"
  else do
    let dtype_ref ← buf.elem 0
    let dtype ← dtype_ref.asInt32
    if dtype ≠ (dtypeCode : Int) then
      deserErr "asXTensorView dtype mismatch"
    else do
      let shape_ref ← buf.elem 1
      let vshape ← tensor_shape shape_ref
      match D with
      | some d =>
          if vshape.length ≠ d then deserErr "asXTensorView rank mismatch" else .ok ()
      | none => .ok ()
      let data_ref ← buf.elem 2
      let blob ← data_ref.asBlob
      let bytes := blob.bytes
      let element_count ← checked_element_count vshape
      let expected_bytes := element_count * sizeofT % 2 ^ 64
      if bytes.length ≠ expected_bytes then
        deserErr "asXTensorView byte size mismatch"
      else
        match blob with
        | .ownedB addr _ =>
            .ok { info := { zero_copy := false, reason := .NotSpanBacked,
                            required_alignment := alignT, address := addr,
                            byte_size := bytes.length }
                  shape := vshape, element_count := element_count,
                  backing := .ownedArr bytes }
        | .spanB addr _ =>
            if addr % alignT ≠ 0 then
              .ok { info := { zero_copy := false, reason := .Misaligned,
                              required_alignment := alignT, address := addr,
                              byte_size := bytes.length }
                    shape := vshape, element_count := element_count,
                    backing := .ownedArr bytes }
            else
              .ok { info := { zero_copy := true, reason := .Ok,
                              required_alignment := alignT, address := addr,
                              byte_size := bytes.length }
                    shape := vshape, element_count := element_count,
                    backing := .viewSpan bytes }

end Tensor

/-- The writer interface calls (spec section 4.1 writer contract), used
to drive writers with arbitrary call sequences. -/
inductive Op where
  | onull
  | obool (b : Bool)
  | oint64 (n : Int)
  | ouint64 (n : Nat)
  | odouble (bits : Nat)
  | ostring (s : List Nat)
  | obinary (bytes : List Nat)
  | obeginArray (n : Nat)
  | oendArray
  | obeginMap (n : Nat)
  | oendMap
  | okey (k : List Nat)
  deriving Repr, DecidableEq

namespace Zera

/-- Apply one writer call to the ZERA writer. -/
def applyOp (s : WState) : Op → EE WState
  | .onull => wNull s
  | .obool b => wBoolean s b
  | .oint64 n => wInt64 s n
  | .ouint64 n => wUInt64 s n
  | .odouble bits => wDouble s bits
  | .ostring str => wString s str
  | .obinary bytes => wBinary s bytes
  | .obeginArray _ => wBeginArray s
  | .oendArray => wEndArray s
  | .obeginMap _ => wBeginMap s
  | .oendMap => wEndMap s
  | .okey k => wKey s k

/-- Run a writer call sequence from a state. -/
def runOps (s : WState) : List Op → EE WState
  | [] => .ok s
  | op :: rest => do
      let s1 ← applyOp s op
      runOps s1 rest

end Zera

namespace MsgPack

/-- Apply one writer call to the MsgPack writer (msgpack.hpp
MsgPackSerializer): every method packs bytes unconditionally; end_array
and end_map are no-ops and no container or key state is tracked, so no
call ever raises. -/
def applyOp (out : List Nat) : Op → List Nat
  | .onull => out ++ [0xc0]
  | .obool b => out ++ (if b then [0xc3] else [0xc2])
  | .oint64 n => out ++ encInt64 n
  | .ouint64 n => out ++ encUInt64 n
  | .odouble bits => out ++ 0xcb :: be64Bytes bits
  | .ostring s => out ++ encStrHeader s.length ++ s
  | .obinary bytes => out ++ encBinHeader bytes.length ++ bytes
  | .obeginArray n => out ++ encArrayHeader n
  | .oendArray => out
  | .obeginMap n => out ++ encMapHeader n
  | .oendMap => out
  | .okey k => out ++ encStrHeader k.length ++ k

/-- Run a writer call sequence against the MsgPack writer; the result is
total because the writer performs no protocol checks. -/
def runOps (out : List Nat) : List Op → List Nat
  | [] => out
  | op :: rest => runOps (applyOp out op) rest

/-- MsgPackRootSerializer::finish on a fresh writer: the streaming buffer
is empty, and finish returns an empty ZBuffer. -/
def finishFresh : List Nat := []

end MsgPack

namespace Cbor

/-- cborjc::RootSerializer::finish on a fresh writer: no root was
written, so finish encodes null (0xf6) and returns that buffer. -/
def finishFresh : List Nat := [0xf6]

end Cbor

namespace Flex

/-- flex.hpp RootSerializer::finish on a fresh writer: no root was
written, so it emits Null and finishes; the reader over the resulting
buffer sees the null value. -/
def finishFresh : Fv := .fnull

end Flex

mutual

/-- Generous upper bound on the total number of bytes a value contributes
to any writer (ValueRef records, headers, payload bytes, padding). Used
as the size hypothesis under which the ZERA writer's u32 envelope/arena
overflow checks cannot fire. -/
def Val.footprint : Val → Nat
  | .vnull | .vbool _ | .vi64 _ | .vu64 _ | .vf64 _ => 64
  | .vstr s => 64 + s.length
  | .vblob bytes => 64 + bytes.length
  | .varr elems => 64 + Val.footprintList elems
  | .vmap entries => 64 + Val.footprintEntries entries

/-- Footprint of a list of values. -/
def Val.footprintList : List Val → Nat
  | [] => 0
  | v :: rest => v.footprint + Val.footprintList rest

/-- Footprint of map entries. -/
def Val.footprintEntries : List (List Nat × Val) → Nat
  | [] => 0
  | (k, v) :: rest => 64 + k.length + v.footprint + Val.footprintEntries rest

end

/-- Encoding-size well-formedness: string, blob and key lengths fit the
formats (u32 payload lengths, u16 ZERA key lengths, u32 container
counts), all under the ZERA envelope/arena limits via the footprint
bound. -/
def Val.bounded (v : Val) : Bool := v.footprint ≤ 2 ^ 31

namespace Zera

mutual

/--
Structural-equality observation of claim C1 for the ZERA reader: the
matching type predicate holds, the matching scalar accessor returns the
scalar, arraySize and indexed access reproduce arrays element by
element, and key access reproduces every map entry.
-/
def SEq (z : Zr) : Val → Bool
  | .vnull => decide (z.isNull = Except.ok true)
  | .vbool b => decide (z.isBool = Except.ok true ∧ z.asBool = Except.ok b)
  | .vi64 n => decide (z.isInt = Except.ok true ∧ z.asInt64 = Except.ok n)
  | .vu64 n => decide (z.isUInt = Except.ok true ∧ z.asUInt64 = Except.ok n)
  | .vf64 bits => decide (z.isFloat = Except.ok true ∧ z.asDouble = Except.ok bits)
  | .vstr s => decide (z.isString = Except.ok true ∧ z.asStringView = Except.ok s)
  | .vblob bytes => decide (z.isBlob = Except.ok true ∧ z.asBlob = Except.ok bytes)
  | .varr elems =>
      decide (z.isArray = Except.ok true ∧ z.arraySize = Except.ok elems.length) &&
      SEqElems z 0 elems
  | .vmap entries => decide (z.isMap = Except.ok true) && SEqEntries z entries

/-- Indexed elements reproduce the array. -/
def SEqElems (z : Zr) (i : Nat) : List Val → Bool
  | [] => true
  | v :: rest =>
      (match z.elem i with
       | .ok z1 => SEq z1 v
       | .error _ => false) &&
      SEqElems z (i + 1) rest

/-- Key access reproduces every entry. -/
def SEqEntries (z : Zr) : List (List Nat × Val) → Bool
  | [] => true
  | (k, v) :: rest =>
      (match z.keyGet k with
       | .ok z1 => SEq z1 v
       | .error _ => false) &&
      SEqEntries z rest

end

/-- Claim C1's observation for ZERA applied to the write-then-read
pipeline. -/
def roundTrip (v : Val) : Bool :=
  match readBackZera v with
  | .ok z => SEq z v
  | .error _ => false

/-- The header conditions claim C7 states for writer-produced buffers:
20-byte little-endian header with the ZERA magic, version 1, flags with
only bit 0 set, root offset inside the envelope, envelope fitting before
the arena offset, and a 16-aligned arena offset of at least
20 + envelope size, all within the buffer. -/
def headerConds (buf : List Nat) : Bool :=
  20 ≤ buf.length &&
  read_u32_le buf 0 = Magic &&
  read_u16_le buf 4 = 1 &&
  read_u16_le buf 6 = 1 &&
  read_u32_le buf 8 < read_u32_le buf 12 &&
  read_u32_le buf 12 ≤ buf.length &&
  read_u32_le buf 16 % 16 = 0 &&
  20 + read_u32_le buf 12 ≤ read_u32_le buf 16 &&
  read_u32_le buf 16 ≤ buf.length

/-- The exact acceptance condition of ZeraDeserializer::init_from: the
claimed header conditions plus the root-ValueRef bound
root_ofs ≤ env_size - 16 in wrapping size_t arithmetic. -/
def acceptCond (buf : List Nat) : Bool :=
  headerConds buf &&
  read_u32_le buf 8 ≤ subSizeT (read_u32_le buf 12) 16

/-- ZERA writer-state invariant: a recorded root offset points at a full
16-byte ValueRef inside the envelope. -/
def WInv (s : WState) : Prop :=
  ∀ o, s.root_ofs = some o → o + 16 ≤ s.env.length

/-- Observer: the result is a DeserializationError. -/
def deserRejects (r : EE Zr) : Bool :=
  match r with
  | .error (.deser _) => true
  | _ => false

end Zera

namespace MsgPack

mutual

/--
Structural-equality observation of claim C1 for the MsgPack reader over
a subview. When `strict` is true the signed-integer clause demands the
isInt predicate, as the claim states; when false it accepts isUInt as
well (MessagePack stores nonnegative signed integers in the unsigned
marker families, so isInt can be false on values the writer packed with
int64).
-/
def SEq (strict : Bool) (d : List Nat) : Val → Bool
  | .vnull => isNull d
  | .vbool b => isBool d && decide (asBool d = Except.ok b)
  | .vi64 n =>
      (if strict then isInt d else isInt d || isUInt d) &&
      decide (asInt64 d = Except.ok n)
  | .vu64 n => isUInt d && decide (asUInt64 d = Except.ok n)
  | .vf64 bits => isFloat d && decide (asDouble d = Except.ok (.f64Bits bits))
  | .vstr s => isString d && decide (asStringView d = Except.ok s)
  | .vblob bytes => isBlob d && decide (asBlob d = Except.ok bytes)
  | .varr elems =>
      (isArray d && decide (arraySize d = Except.ok elems.length)) &&
      SEqElems strict d 0 elems
  | .vmap entries => isMap d && SEqEntries strict d entries

/-- Indexed elements reproduce the array. -/
def SEqElems (strict : Bool) (d : List Nat) (i : Nat) : List Val → Bool
  | [] => true
  | v :: rest =>
      (match elem d i with
       | .ok d1 => SEq strict d1 v
       | .error _ => false) &&
      SEqElems strict d (i + 1) rest

/-- Key access reproduces every entry. -/
def SEqEntries (strict : Bool) (d : List Nat) : List (List Nat × Val) → Bool
  | [] => true
  | (k, v) :: rest =>
      (match keyGet d k with
       | .ok d1 => SEq strict d1 v
       | .error _ => false) &&
      SEqEntries strict d rest

end

/-- Claim C1's observation for MsgPack applied to the write-then-read
pipeline (the root view is the whole finished buffer). -/
def roundTrip (strict : Bool) (v : Val) : Bool := SEq strict (encVal v) v

end MsgPack

namespace Cbor

mutual

/-- Structural-equality observation of claim C1 for the CBOR reader. -/
def SEq (c : Cr) : Val → Bool
  | .vnull => decide (c.isNull = Except.ok true)
  | .vbool b => decide (c.isBool = Except.ok true ∧ c.asBool = Except.ok b)
  | .vi64 n => decide (c.isInt = Except.ok true ∧ c.asInt64 = Except.ok n)
  | .vu64 n => decide (c.isUInt = Except.ok true ∧ c.asUInt64 = Except.ok n)
  | .vf64 bits => decide (c.isFloat = Except.ok true ∧ c.asDouble = Except.ok (.f64Bits bits))
  | .vstr s => decide (c.isString = Except.ok true ∧ c.asStringView = Except.ok s)
  | .vblob bytes => decide (c.isBlob = Except.ok true ∧ c.asBlob = Except.ok bytes)
  | .varr elems =>
      decide (c.isArray = Except.ok true ∧ c.arraySize = Except.ok elems.length) &&
      SEqElems c 0 elems
  | .vmap entries => decide (c.isMap = Except.ok true) && SEqEntries c entries

/-- Indexed elements reproduce the array. -/
def SEqElems (c : Cr) (i : Nat) : List Val → Bool
  | [] => true
  | v :: rest =>
      (match c.elem i with
       | .ok c1 => SEq c1 v
       | .error _ => false) &&
      SEqElems c (i + 1) rest

/-- Key access reproduces every entry. -/
def SEqEntries (c : Cr) : List (List Nat × Val) → Bool
  | [] => true
  | (k, v) :: rest =>
      (match c.keyGet k with
       | .ok c1 => SEq c1 v
       | .error _ => false) &&
      SEqEntries c rest

end

/-- Claim C1's observation for CBOR applied to the write-then-read
pipeline. -/
def roundTrip (v : Val) : Bool := SEq (readBack v) v

end Cbor

namespace Flex

mutual

/-- Structural-equality observation of claim C1 for the FlexBuffers
reader model. -/
def SEq (f : Fv) : Val → Bool
  | .vnull => f.isNull
  | .vbool b => f.isBool && decide (f.asBool = Except.ok b)
  | .vi64 n => f.isInt && decide (f.asInt64 = Except.ok n)
  | .vu64 n => f.isUInt && decide (f.asUInt64 = Except.ok n)
  | .vf64 bits => f.isFloat && decide (f.asDouble = Except.ok (.f64Bits bits))
  | .vstr s => f.isString && decide (f.asStringView = Except.ok s)
  | .vblob bytes => f.isBlob && decide (f.asBlob = Except.ok bytes)
  | .varr elems =>
      (f.isArray && decide (f.arraySize = Except.ok elems.length)) && SEqElems f 0 elems
  | .vmap entries => f.isMap && SEqEntries f entries

/-- Indexed elements reproduce the array. -/
def SEqElems (f : Fv) (i : Nat) : List Val → Bool
  | [] => true
  | v :: rest =>
      (match f.elem i with
       | .ok f1 => SEq f1 v
       | .error _ => false) &&
      SEqElems f (i + 1) rest

/-- Key access reproduces every entry. -/
def SEqEntries (f : Fv) : List (List Nat × Val) → Bool
  | [] => true
  | (k, v) :: rest =>
      (match f.keyGet k with
       | .ok f1 => SEq f1 v
       | .error _ => false) &&
      SEqEntries f rest

end

/-- Claim C1's observation for FlexBuffers applied to the write-then-read
pipeline. -/
def roundTrip (v : Val) : Bool := SEq (ofVal v) v

end Flex

/-- Whether a writer call emits a value (null, boolean, int64, uint64,
double_, string or binary), as opposed to container or key calls. -/
def Op.isValueEmission : Op → Bool
  | .onull | .obool _ | .oint64 _ | .ouint64 _ | .odouble _ | .ostring _ | .obinary _ => true
  | _ => false

/-- The tensor triple used to exercise the tensor adapter with a given
dtype code, shape and blob (flat-array form: dtype, shape, data). -/
def Tensor.triple (code : Nat) (dims : List Nat) (blob : Tensor.Blob) : Tensor.Dv :=
  .darr [.dint code, .darr (dims.map .duint), .dblob blob]

/-- Bind on an ok result applies the continuation. -/
@[simp] theorem eeBindOk {α β : Type} (a : α) (f : α → EE β) :
    (Except.ok a : EE α) >>= f = f a := rfl

/-- Bind on an error propagates the error. -/
@[simp] theorem eeBindErr {α β : Type} (e : Err) (f : α → EE β) :
    (Except.error e : EE α) >>= f = .error e := rfl

/-- A satisfied requireD succeeds. -/
@[simp] theorem requireD_true (msg : String) : requireD true msg = .ok () := rfl

/-- A failed requireD raises DeserializationError. -/
@[simp] theorem requireD_false (msg : String) :
    requireD false msg = .error (.deser msg) := rfl

theorem byteAt_append_lt (l1 l2 : List Nat) (i : Nat) (h : i < l1.length) :
    byteAt (l1 ++ l2) i = byteAt l1 i := List.getD_append _ _ _ _ h

theorem byteAt_append_ge (l1 l2 : List Nat) (i : Nat) (h : l1.length ≤ i) :
    byteAt (l1 ++ l2) i = byteAt l2 (i - l1.length) := List.getD_append_right _ _ _ _ h

theorem byteAt_shift (l1 l2 : List Nat) (k : Nat) :
    byteAt (l1 ++ l2) (l1.length + k) = byteAt l2 k := by
  rw [byteAt_append_ge l1 l2 _ (by omega)]
  congr 1
  omega

theorem read_u16_le_shift (l1 l2 : List Nat) (k : Nat) :
    read_u16_le (l1 ++ l2) (l1.length + k) = read_u16_le l2 k := by
  unfold read_u16_le
  rw [byteAt_shift, show l1.length + k + 1 = l1.length + (k + 1) by omega, byteAt_shift]

theorem read_u32_le_shift (l1 l2 : List Nat) (k : Nat) :
    read_u32_le (l1 ++ l2) (l1.length + k) = read_u32_le l2 k := by
  unfold read_u32_le
  rw [byteAt_shift,
      show l1.length + k + 1 = l1.length + (k + 1) by omega, byteAt_shift,
      show l1.length + k + 2 = l1.length + (k + 2) by omega, byteAt_shift,
      show l1.length + k + 3 = l1.length + (k + 3) by omega, byteAt_shift]

theorem read_u64_le_shift (l1 l2 : List Nat) (k : Nat) :
    read_u64_le (l1 ++ l2) (l1.length + k) = read_u64_le l2 k := by
  unfold read_u64_le
  rw [read_u32_le_shift, show l1.length + k + 4 = l1.length + (k + 4) by omega,
      read_u32_le_shift]

theorem read_u16_le_left (l1 l2 : List Nat) (k : Nat) (h : k + 2 ≤ l1.length) :
    read_u16_le (l1 ++ l2) k = read_u16_le l1 k := by
  unfold read_u16_le
  rw [byteAt_append_lt _ _ _ (by omega), byteAt_append_lt _ _ _ (by omega)]

theorem read_u32_le_left (l1 l2 : List Nat) (k : Nat) (h : k + 4 ≤ l1.length) :
    read_u32_le (l1 ++ l2) k = read_u32_le l1 k := by
  unfold read_u32_le
  rw [byteAt_append_lt _ _ _ (by omega), byteAt_append_lt _ _ _ (by omega),
      byteAt_append_lt _ _ _ (by omega), byteAt_append_lt _ _ _ (by omega)]

theorem read_u64_le_left (l1 l2 : List Nat) (k : Nat) (h : k + 8 ≤ l1.length) :
    read_u64_le (l1 ++ l2) k = read_u64_le l1 k := by
  unfold read_u64_le
  rw [read_u32_le_left _ _ _ (by omega), read_u32_le_left _ _ _ (by omega)]

theorem read_u16_u16Bytes (v : Nat) (rest : List Nat) :
    read_u16_le (u16Bytes v ++ rest) 0 = v % 2 ^ 16 := by
  simp [u16Bytes, read_u16_le, byteAt]
  omega

theorem read_u32_u32Bytes (v : Nat) (rest : List Nat) :
    read_u32_le (u32Bytes v ++ rest) 0 = v % 2 ^ 32 := by
  simp [u32Bytes, read_u32_le, byteAt]
  omega

theorem read_u64_u64Bytes (v : Nat) (rest : List Nat) :
    read_u64_le (u64Bytes v ++ rest) 0 = v % 2 ^ 64 := by
  unfold u64Bytes
  rw [List.append_assoc]
  unfold read_u64_le
  have e1 : read_u32_le (u32Bytes (v % 2 ^ 32) ++ (u32Bytes (v / 2 ^ 32 % 2 ^ 32) ++ rest)) 0 =
      v % 2 ^ 32 % 2 ^ 32 := read_u32_u32Bytes _ _
  have e2 : read_u32_le (u32Bytes (v % 2 ^ 32) ++ (u32Bytes (v / 2 ^ 32 % 2 ^ 32) ++ rest))
      (0 + 4) = v / 2 ^ 32 % 2 ^ 32 % 2 ^ 32 := by
    rw [show (0 + 4 : Nat) = (u32Bytes (v % 2 ^ 32)).length + 0 by simp [u32Bytes]]
    rw [read_u32_le_shift]
    exact read_u32_u32Bytes _ _
  rw [e1, e2]
  omega

theorem sliceBytes_shift (l1 l2 : List Nat) (k n : Nat) :
    sliceBytes (l1 ++ l2) (l1.length + k) n = sliceBytes l2 k n := by
  unfold sliceBytes
  congr 1
  rw [List.drop_append_eq_append_drop]
  simp

theorem sliceBytes_all (l : List Nat) : sliceBytes l 0 l.length = l := by
  simp [sliceBytes]

theorem sliceBytes_left (l1 l2 : List Nat) (ofs n : Nat) (h : ofs + n ≤ l1.length) :
    sliceBytes (l1 ++ l2) ofs n = sliceBytes l1 ofs n := by
  unfold sliceBytes
  rw [List.drop_append_eq_append_drop]
  rw [List.take_append_eq_append_take]
  have h1 : n - (l1.drop ofs).length = 0 := by simp; omega
  have h2 : ofs - l1.length = 0 := by omega
  simp [h1, h2]
  omega

theorem align_up_16_dvd (x : Nat) : align_up x 16 % 16 = 0 := by
  unfold align_up
  split
  · omega
  · split
    · omega
    · omega

theorem align_up_16_ge (x : Nat) : x ≤ align_up x 16 := by
  unfold align_up
  split
  · omega
  · split
    · omega
    · omega

/--
Claim C2. The spec mandates that asInt64 on a stored unsigned value above
INT64_MAX raise DeserializationError in every codec, while asUInt64
returns it exactly. The ZERA reader raises as specified, and asUInt64 is
exact everywhere, but the CBOR and MsgPack readers have no range check in
asInt64: both return the two's-complement reinterpretation
-9223372036854775803 of 2^63 + 5 instead of raising.
-/
theorem claim_C2_big_u64_asInt64 :
    (Zerialize.Cbor.readBack (.vu64 (2 ^ 63 + 5))).asInt64 = .ok (-9223372036854775803) ∧
    Zerialize.MsgPack.asInt64 (Zerialize.MsgPack.encVal (.vu64 (2 ^ 63 + 5))) =
      .ok (-9223372036854775803) ∧
    (Zerialize.Cbor.readBack (.vu64 (2 ^ 63 + 5))).asUInt64 = .ok (2 ^ 63 + 5) ∧
    Zerialize.MsgPack.asUInt64 (Zerialize.MsgPack.encVal (.vu64 (2 ^ 63 + 5))) =
      .ok (2 ^ 63 + 5) ∧
    ((Zerialize.Zera.readBackZera (.vu64 (2 ^ 63 + 5))).bind Zerialize.Zera.Zr.asUInt64 =
      .ok (2 ^ 63 + 5)) ∧
    ((Zerialize.Zera.readBackZera (.vu64 (2 ^ 63 + 5))).bind Zerialize.Zera.Zr.asInt64 =
      .error (.deser "zera: uint64 out of range for int64")) := by
  refine ⟨by decide, by decide, by decide, by decide, by decide, by decide⟩

/--
Claim C8. The tensor adapter is claimed to raise DeserializationError
when prod(shape) * sizeof(T) overflows, but checked_element_count only
checks the product of the dimensions; the final multiplication by
sizeof(T) is unchecked size_t arithmetic. With dtype float64 (code 11,
sizeof 8) and shape [2^31, 2^30], the element count 2^61 passes the
check, 2^61 * 8 wraps to 0, an empty aligned span blob matches the
wrapped expected size, and the adapter returns a zero-copy view claiming
2^61 elements backed by zero bytes instead of raising.
-/
theorem claim_C8_size_overflow_accepted :
    Zerialize.Tensor.asXTensorView 11 8 8 none
      (Zerialize.Tensor.triple 11 [2 ^ 31, 2 ^ 30] (.spanB 0 [])) =
    .ok { info := { zero_copy := true, reason := .Ok, required_alignment := 8,
                    address := 0, byte_size := 0 },
          shape := [2 ^ 31, 2 ^ 30], element_count := 2 ^ 61,
          backing := .viewSpan [] } := by decide

/--
Claim C9 counterexample. The claim states that for every codec a freshly
constructed root writer's finish() yields a buffer whose reader reports
isNull. The MsgPack root writer's finish returns an empty buffer when
nothing was packed, and the MsgPack reader's isNull is false on an empty
view.
-/
theorem claim_C9_counterexample :
    Zerialize.MsgPack.finishFresh = [] ∧
    Zerialize.MsgPack.isNull Zerialize.MsgPack.finishFresh = false := by decide

/--
Claim C9 as amended: for the ZERA, CBOR, FlexBuffers and JSON writers,
finish() on a fresh root writer encodes the null value and the codec's
reader over that buffer reports isNull = true; the MsgPack writer instead
returns an empty buffer, on which every reader type predicate is false.
-/
theorem claim_C9_fresh_finish_null :
    ((Zerialize.Zera.finish {}).bind Zerialize.Zera.init_from).bind
        Zerialize.Zera.Zr.isNull = .ok true ∧
    Zerialize.Cbor.Cr.isNull { buf := Zerialize.Cbor.finishFresh, pos := 0 } = .ok true ∧
    Zerialize.Flex.Fv.isNull Zerialize.Flex.finishFresh = true ∧
    Zerialize.Json.Jv.isNull Zerialize.Json.finishFresh = true ∧
    Zerialize.MsgPack.finishFresh = [] ∧
    Zerialize.MsgPack.isNull [] = false ∧
    Zerialize.MsgPack.isBool [] = false ∧
    Zerialize.MsgPack.isInt [] = false ∧
    Zerialize.MsgPack.isUInt [] = false ∧
    Zerialize.MsgPack.isFloat [] = false ∧
    Zerialize.MsgPack.isString [] = false ∧
    Zerialize.MsgPack.isBlob [] = false ∧
    Zerialize.MsgPack.isArray [] = false ∧
    Zerialize.MsgPack.isMap [] = false := by decide

namespace Zera

/-- arena_alloc either fails with a SerializationError or only extends
the arena, returning some offset. -/
theorem arena_alloc_shape (s : WState) (len al : Nat) :
    (∃ m, arena_alloc s len al = .error (.ser m)) ∨
    (∃ ofs arena1, arena_alloc s len al = .ok (ofs, { s with arena := arena1 })) := by
  unfold arena_alloc
  dsimp only
  split
  · exact .inl ⟨_, rfl⟩
  · split
    · exact .inl ⟨_, rfl⟩
    · exact .inr ⟨_, _, rfl⟩

/-- append_env_payload either fails with a SerializationError or appends
the bytes to the envelope, returning the old envelope length. -/
theorem append_env_payload_shape (s : WState) (bytes : List Nat) :
    (∃ m, append_env_payload s bytes = .error (.ser m)) ∨
    append_env_payload s bytes = .ok (s.env.length, { s with env := s.env ++ bytes }) := by
  unfold append_env_payload
  dsimp only
  split
  · exact .inl ⟨_, rfl⟩
  · exact .inr rfl

end Zera

/--
Claim C5 counterexample. The claim states that every codec's writer
raises SerializationError on the listed protocol violations. The MsgPack
writer performs no protocol checks at all: its container calls are
unchecked (end_array and end_map are no-ops) and nothing tracks keys, so
the sequence begin_map(1); int64(5); end_map — a value emitted in a map
frame without a preceding key — completes without any error and produces
the bytes 0x81 0x05.
-/
theorem claim_C5_counterexample :
    Zerialize.MsgPack.runOps [] [.obeginMap 1, .oint64 5, .oendMap] = [0x81, 0x05] ∧
    Zerialize.MsgPack.runOps [] [.obeginMap 1, .okey [97], .oendMap] = [0x81, 0xa1, 97] ∧
    Zerialize.MsgPack.runOps [] [.obeginMap 1, .oendArray] = [0x81] := by decide

/--
Claim C5 as amended: the ZERA writer raises SerializationError for all
three protocol violations — end_map with a dangling key, any value
emission inside a map frame without a pending key, and end_array while
the innermost open container is a map frame. The FlexBuffers wrapper
raises std::logic_error (not SerializationError) when end_array closes a
map frame, and the MsgPack writer performs no checks and never raises.
-/
theorem claim_C5_writer_protocol :
    (∀ (s : Zerialize.Zera.WState) payload count patch rest,
       s.st = .mapCtx payload count (some patch) :: rest →
       ∃ msg, Zerialize.Zera.wEndMap s = .error (.ser msg)) ∧
    (∀ (s : Zerialize.Zera.WState) payload count rest (op : Zerialize.Op),
       s.st = .mapCtx payload count none :: rest →
       op.isValueEmission = true →
       ∃ msg, Zerialize.Zera.applyOp s op = .error (.ser msg)) ∧
    (∀ (s : Zerialize.Zera.WState) payload count patch rest,
       s.st = .mapCtx payload count patch :: rest →
       Zerialize.Zera.wEndArray s = .error (.ser "zera: end_array outside array")) ∧
    (∀ st, Zerialize.Flex.ensure_in (.objK :: st) .arrK "end_array" =
       .error (.logic "end_array called outside correct container")) ∧
    Zerialize.MsgPack.runOps [] [.obeginMap 1, .oint64 5, .oendMap] = [0x81, 0x05] := by
  refine ⟨?_, ?_, ?_, ?_, by decide⟩
  · intro s payload count patch rest h
    exact ⟨"zera: end_map with dangling key()", by simp [Zerialize.Zera.wEndMap, h, serErr]⟩
  · intro s payload count rest op h hop
    have hdeliver : ∀ vr, Zerialize.Zera.deliver_vr s vr =
        .error (.ser "zera: map value without key()") := by
      intro vr
      simp [Zerialize.Zera.deliver_vr, h, serErr]
    cases op with
    | onull =>
        exact ⟨_, by simp only [Zerialize.Zera.applyOp, Zerialize.Zera.wNull]; exact hdeliver _⟩
    | obool b =>
        exact ⟨_, by simp only [Zerialize.Zera.applyOp, Zerialize.Zera.wBoolean]; exact hdeliver _⟩
    | oint64 n =>
        exact ⟨_, by simp only [Zerialize.Zera.applyOp, Zerialize.Zera.wInt64]; exact hdeliver _⟩
    | ouint64 n =>
        exact ⟨_, by simp only [Zerialize.Zera.applyOp, Zerialize.Zera.wUInt64]; exact hdeliver _⟩
    | odouble bits =>
        exact ⟨_, by simp only [Zerialize.Zera.applyOp, Zerialize.Zera.wDouble]; exact hdeliver _⟩
    | ostring str =>
        simp only [Zerialize.Zera.applyOp, Zerialize.Zera.wString]
        split
        · exact ⟨"zera: map value without key()", hdeliver _⟩
        · split
          · exact ⟨"zera: string too large", rfl⟩
          · rcases Zerialize.Zera.arena_alloc_shape s str.length 1 with ⟨m, hm⟩ | ⟨ofs, arena1, hok⟩
            · exact ⟨m, by rw [hm]; rfl⟩
            · exact ⟨"zera: map value without key()", by rw [hok, h]; rfl⟩
    | obinary bytes =>
        simp only [Zerialize.Zera.applyOp, Zerialize.Zera.wBinary]
        split
        · exact ⟨"zera: blob too large", rfl⟩
        · rcases Zerialize.Zera.arena_alloc_shape s bytes.length Zerialize.Zera.ArenaBaseAlign
            with ⟨m, hm⟩ | ⟨ofs, arena1, hok⟩
          · exact ⟨m, by rw [hm]; rfl⟩
          · rw [hok]
            have hshape := Zerialize.Zera.append_env_payload_shape
              { ({ s with arena := arena1 } : Zerialize.Zera.WState) with
                  arena := Zerialize.overwriteBytes arena1 ofs bytes }
              (Zerialize.u32Bytes 1 ++ Zerialize.u64Bytes bytes.length)
            rcases hshape with ⟨m, hm⟩ | hok2
            · exact ⟨m, by
                simp only [Bind.bind, Except.bind, Zerialize.Zera.emit_shape_rank1] at hm ⊢
                rw [hm]⟩
            · exact ⟨"zera: map value without key()", by
                simp only [Bind.bind, Except.bind, Zerialize.Zera.emit_shape_rank1] at hok2 ⊢
                rw [hok2, h]; rfl⟩
    | obeginArray n => simp [Zerialize.Op.isValueEmission] at hop
    | oendArray => simp [Zerialize.Op.isValueEmission] at hop
    | obeginMap n => simp [Zerialize.Op.isValueEmission] at hop
    | oendMap => simp [Zerialize.Op.isValueEmission] at hop
    | okey k => simp [Zerialize.Op.isValueEmission] at hop
  · intro s payload count patch rest h
    simp [Zerialize.Zera.wEndArray, h, serErr]
  · intro st
    rfl

/--
Claim C5 witness: the amended protocol statements applied to concrete
writer states — a map frame with a dangling key rejects end_map, a map
frame with no pending key rejects a null emission, and end_array inside a
map frame is rejected.
-/
theorem claim_C5_witness :
    (∃ msg, Zerialize.Zera.wEndMap
      { st := [.mapCtx (List.replicate 24 0) 1 (some 8)] } = .error (.ser msg)) ∧
    (∃ msg, Zerialize.Zera.applyOp
      { st := [.mapCtx [0, 0, 0, 0] 0 none] } .onull = .error (.ser msg)) ∧
    Zerialize.Zera.wEndArray { st := [.mapCtx [0, 0, 0, 0] 0 none] } =
      .error (.ser "zera: end_array outside array") :=
  ⟨claim_C5_writer_protocol.1 _ _ _ _ _ rfl,
   claim_C5_writer_protocol.2.1 _ _ _ _ _ rfl rfl,
   claim_C5_writer_protocol.2.2.1 _ _ _ _ _ rfl⟩

namespace Tensor

/-- Dv.asInt8 on a small nonnegative int code. -/
theorem asInt8_dint (code : Nat) (hcode : code ≤ 127) :
    Dv.asInt8 (.dint code) = .ok code := by
  rw [Dv.asInt8]
  simp only [Dv.asInt64, eeBindOk]
  rw [if_neg]
  simp
  omega

/-- Dv.asInt32 on a small nonnegative int code. -/
theorem asInt32_dint (code : Nat) (hcode : code ≤ 127) :
    Dv.asInt32 (.dint code) = .ok code := by
  rw [Dv.asInt32]
  simp only [Dv.asInt64, eeBindOk]
  rw [if_neg]
  simp
  omega

/-- A well-formed tensor triple passes the isTensor shape test. -/
theorem isTensor_triple (code : Nat) (hcode : code ≤ 127) (dims : List Nat) (blob : Blob) :
    isTensor code (triple code dims blob) = .ok true := by
  rw [isTensor, triple]
  simp only [Dv.isArray, Bool.not_true, Bool.false_eq_true, if_false, Dv.arraySize, eeBindOk]
  rw [if_neg (by simp)]
  have h0 : Dv.elem (Dv.darr [Dv.dint code, Dv.darr (dims.map Dv.duint), Dv.dblob blob]) 0 =
      .ok (.dint code) := rfl
  rw [h0]
  simp only [eeBindOk, Dv.isInt, Bool.not_true, Bool.false_eq_true, if_false]
  rw [asInt8_dint code hcode]
  simp only [eeBindOk]
  rw [if_neg (by simp)]
  rfl

/-- The shape loop collects unsigned dimensions below 2^32 verbatim. -/
theorem tensorShapeLoop_duint (dims : List Nat) (hd : ∀ d ∈ dims, d < 2 ^ 32) :
    ∀ k, k ≤ dims.length →
    tensorShapeLoop (.darr (dims.map .duint)) dims.length k =
      .ok (dims.drop (dims.length - k)) := by
  intro k
  induction k with
  | zero => intro _; simp [tensorShapeLoop]
  | succ k ih =>
      intro hk
      have hi : dims.length - (k + 1) < dims.length := by omega
      have hget : Dv.elem (Dv.darr (dims.map Dv.duint)) (dims.length - (k + 1)) =
          .ok (.duint (dims.get ⟨dims.length - (k + 1), hi⟩)) := by
        rw [Dv.elem]
        rw [List.get?_map, List.get?_eq_get hi]
        rfl
      have hmem : dims.get ⟨dims.length - (k + 1), hi⟩ ∈ dims := List.get_mem _ _ _
      have hlt := hd _ hmem
      rw [tensorShapeLoop, hget]
      simp only [eeBindOk, Dv.isUInt, Dv.asUInt64, if_true]
      rw [if_neg (by omega)]
      rw [ih (by omega)]
      simp only [eeBindOk]
      congr 1
      have hstep : dims.length - k = (dims.length - (k + 1)) + 1 := by omega
      rw [hstep]
      rw [List.drop_eq_get_cons hi]

/-- tensor_shape on an array of unsigned dimensions below 2^32 returns
them verbatim. -/
theorem tensor_shape_duint (dims : List Nat) (hd : ∀ d ∈ dims, d < 2 ^ 32) :
    tensor_shape (.darr (dims.map .duint)) = .ok dims := by
  rw [tensor_shape]
  simp only [Dv.isArray, Bool.not_true, Bool.false_eq_true, if_false, Dv.arraySize,
    List.length_map, eeBindOk, ite_false]
  have h := tensorShapeLoop_duint dims hd dims.length (le_refl _)
  simp only [Nat.sub_self, List.drop_zero] at h
  exact h

/-- The adapter on a well-formed triple reduces to the final blob branch. -/
theorem asXTensorView_triple (code szT alT : Nat) (dims : List Nat) (blob : Blob) (ec : Nat)
    (hcode : code ≤ 127) (hd : ∀ d ∈ dims, d < 2 ^ 32)
    (hec : checked_element_count dims = .ok ec)
    (hlen : blob.bytes.length = ec * szT % 2 ^ 64) :
    asXTensorView code szT alT none (triple code dims blob) =
      (match blob with
       | .ownedB addr _ =>
           .ok { info := { zero_copy := false, reason := .NotSpanBacked,
                           required_alignment := alT, address := addr,
                           byte_size := blob.bytes.length }
                 shape := dims, element_count := ec,
                 backing := .ownedArr blob.bytes }
       | .spanB addr _ =>
           if addr % alT ≠ 0 then
             .ok { info := { zero_copy := false, reason := .Misaligned,
                             required_alignment := alT, address := addr,
                             byte_size := blob.bytes.length }
                   shape := dims, element_count := ec,
                   backing := .ownedArr blob.bytes }
           else
             .ok { info := { zero_copy := true, reason := .Ok,
                             required_alignment := alT, address := addr,
                             byte_size := blob.bytes.length }
                   shape := dims, element_count := ec,
                   backing := .viewSpan blob.bytes }) := by
  rw [asXTensorView]
  rw [isTensor_triple code hcode dims blob]
  simp only [eeBindOk, Bool.not_true, Bool.false_eq_true, if_false, ite_false]
  have helem0 : Dv.elem (triple code dims blob) 0 = .ok (.dint code) := rfl
  have helem1 : Dv.elem (triple code dims blob) 1 = .ok (.darr (dims.map .duint)) := rfl
  have helem2 : Dv.elem (triple code dims blob) 2 = .ok (.dblob blob) := rfl
  rw [show (triple code dims blob).elem 0 = Except.ok (Dv.dint code) from rfl]
  simp only [eeBindOk]
  rw [asInt32_dint code hcode]
  simp only [eeBindOk]
  rw [if_neg (by simp)]
  rw [show (triple code dims blob).elem 1 = Except.ok (Dv.darr (dims.map .duint)) from rfl]
  simp only [eeBindOk]
  rw [tensor_shape_duint dims hd]
  simp only [eeBindOk]
  rw [show (triple code dims blob).elem 2 = Except.ok (Dv.dblob blob) from rfl]
  simp only [eeBindOk]
  rw [show Dv.asBlob (Dv.dblob blob) = Except.ok blob from rfl]
  simp only [eeBindOk]
  rw [hec]
  simp only [eeBindOk]
  rw [if_neg (by rw [hlen]; simp)]
  cases blob <;> rfl

end Tensor

/--
Claim C3. For a well-formed tensor triple, asXTensorView reports exactly:
zero_copy = true with reason Ok and a view aliasing the blob bytes when
the blob is a borrowed span whose address is divisible by the element
alignment; zero_copy = false with reason Misaligned and an owning copy
when the span address is not; and zero_copy = false with reason
NotSpanBacked and an owning copy when the blob is an owning byte sequence
(the JSON case). The reported reason is always one of Ok, NotSpanBacked,
Misaligned.
-/
theorem claim_C3_zero_copy_reporting
    (code szT alT : Nat) (dims : List Nat) (blob : Zerialize.Tensor.Blob) (ec : Nat)
    (hcode : code ≤ 127) (hd : ∀ d ∈ dims, d < 2 ^ 32)
    (hec : Zerialize.Tensor.checked_element_count dims = .ok ec)
    (hlen : blob.bytes.length = ec * szT % 2 ^ 64) :
    ∃ view, Zerialize.Tensor.asXTensorView code szT alT none
        (Zerialize.Tensor.triple code dims blob) = .ok view ∧
      (view.info.reason = .Ok ∨ view.info.reason = .NotSpanBacked ∨
        view.info.reason = .Misaligned) ∧
      view.info.required_alignment = alT ∧
      view.info.address = blob.addr ∧
      view.info.byte_size = blob.bytes.length ∧
      (∀ addr bytes, blob = .spanB addr bytes → addr % alT = 0 →
        view.info.zero_copy = true ∧ view.info.reason = .Ok ∧
          view.backing = .viewSpan bytes) ∧
      (∀ addr bytes, blob = .spanB addr bytes → addr % alT ≠ 0 →
        view.info.zero_copy = false ∧ view.info.reason = .Misaligned ∧
          view.backing = .ownedArr bytes) ∧
      (∀ addr bytes, blob = .ownedB addr bytes →
        view.info.zero_copy = false ∧ view.info.reason = .NotSpanBacked ∧
          view.backing = .ownedArr bytes) := by
  have hmain := Zerialize.Tensor.asXTensorView_triple code szT alT dims blob ec hcode hd hec hlen
  rcases blob with ⟨addr, bytes⟩ | ⟨addr, bytes⟩
  · by_cases halign : addr % alT = 0
    · rw [hmain]
      dsimp only
      rw [if_neg (by simp [halign])]
      refine ⟨_, rfl, by simp, by simp, by simp [Zerialize.Tensor.Blob.addr],
        by simp, ?_, ?_, ?_⟩
      · intro a b hab hal
        cases hab
        simp [Zerialize.Tensor.Blob.bytes]
      · intro a b hab hal
        exact absurd halign (by cases hab; exact hal)
      · intro a b hab
        simp at hab
    · rw [hmain]
      dsimp only
      rw [if_pos halign]
      refine ⟨_, rfl, by simp, by simp, by simp [Zerialize.Tensor.Blob.addr],
        by simp, ?_, ?_, ?_⟩
      · intro a b hab hal
        cases hab
        exact absurd hal halign
      · intro a b hab hal
        cases hab
        simp [Zerialize.Tensor.Blob.bytes]
      · intro a b hab
        simp at hab
  · rw [hmain]
    dsimp only
    refine ⟨_, rfl, by simp, by simp, by simp [Zerialize.Tensor.Blob.addr],
      by simp, ?_, ?_, ?_⟩
    · intro a b hab hal
      simp at hab
    · intro a b hab hal
      simp at hab
    · intro a b hab
      cases hab
      simp [Zerialize.Tensor.Blob.bytes]


/--
Claim C3 witness: a 2x2 float64 tensor triple (dtype code 11, 32 data
bytes): an 8-aligned borrowed span yields the zero-copy Ok report.
-/
theorem claim_C3_witness :
    ∃ view, Zerialize.Tensor.asXTensorView 11 8 8 none
        (Zerialize.Tensor.triple 11 [2, 2] (.spanB 16 (List.replicate 32 7))) = .ok view ∧
      (view.info.reason = .Ok ∨ view.info.reason = .NotSpanBacked ∨
        view.info.reason = .Misaligned) ∧
      view.info.required_alignment = 8 ∧
      view.info.address = (Zerialize.Tensor.Blob.spanB 16 (List.replicate 32 7)).addr ∧
      view.info.byte_size = (Zerialize.Tensor.Blob.spanB 16 (List.replicate 32 7)).bytes.length ∧
      (∀ addr bytes,
        (Zerialize.Tensor.Blob.spanB 16 (List.replicate 32 7)) = .spanB addr bytes →
        addr % 8 = 0 →
        view.info.zero_copy = true ∧ view.info.reason = .Ok ∧
          view.backing = .viewSpan bytes) ∧
      (∀ addr bytes,
        (Zerialize.Tensor.Blob.spanB 16 (List.replicate 32 7)) = .spanB addr bytes →
        addr % 8 ≠ 0 →
        view.info.zero_copy = false ∧ view.info.reason = .Misaligned ∧
          view.backing = .ownedArr bytes) ∧
      (∀ addr bytes,
        (Zerialize.Tensor.Blob.spanB 16 (List.replicate 32 7)) = .ownedB addr bytes →
        view.info.zero_copy = false ∧ view.info.reason = .NotSpanBacked ∧
          view.backing = .ownedArr bytes) :=
  claim_C3_zero_copy_reporting 11 8 8 [2, 2] (.spanB 16 (List.replicate 32 7)) 4
    (by decide) (by decide) (by decide) (by decide)

/--
Claim C10. For every codec's reader, contains(k) on a value that is not a
map returns false without raising, while keyed indexing on the same value
raises DeserializationError.
-/
theorem claim_C10_contains_non_map :
    (∀ (z : Zerialize.Zera.Zr) key, z.isMap = .ok false →
       z.contains key = .ok false ∧ z.keyGet key = .error (.deser "zera: not a map")) ∧
    (∀ (v : List Nat) key, Zerialize.MsgPack.isMap v = false →
       Zerialize.MsgPack.contains v key = .ok false ∧
       Zerialize.MsgPack.keyGet v key = .error (.deser "msgpack: not a map")) ∧
    (∀ (c : Zerialize.Cbor.Cr) key, c.isMap = .ok false →
       c.contains key = .ok false ∧ c.keyGet key = .error (.deser "CBOR: not a map")) ∧
    (∀ (f : Zerialize.Flex.Fv) key, f.isMap = false →
       f.contains key = .ok false ∧ f.keyGet key = .error (.deser "not a map")) ∧
    (∀ (j : Zerialize.Json.Jv) key, j.isMap = false →
       j.contains key = .ok false ∧
       j.keyGet key = .error (.deser "Value is not a map/object")) := by
  refine ⟨?_, ?_, ?_, ?_, ?_⟩
  · intro z key h
    rcases htag : z.tag with e | t
    · rw [Zerialize.Zera.Zr.isMap, htag] at h
      simp at h
    · rw [Zerialize.Zera.Zr.isMap, htag] at h
      simp at h
      constructor
      · rw [Zerialize.Zera.Zr.contains, Zerialize.Zera.Zr.isMap, htag]
        simp [h]
      · rw [Zerialize.Zera.Zr.keyGet, htag]
        simp [h]
  · intro v key h
    constructor
    · rw [Zerialize.MsgPack.contains, h]
      rfl
    · rw [Zerialize.MsgPack.keyGet, Zerialize.MsgPack.map_info]
      by_cases hv : v.length = 0
      · simp [hv, deserErr]
      · rw [Zerialize.MsgPack.isMap] at h
        simp only [if_neg hv] at h ⊢
        simp at h
        simp [h.1.1, h.1.2, h.2, deserErr]
  · intro c key h
    rcases hh : c.head with e | hd
    · rw [Zerialize.Cbor.Cr.isMap, hh] at h
      simp at h
    · rw [Zerialize.Cbor.Cr.isMap, hh] at h
      simp at h
      constructor
      · rw [Zerialize.Cbor.Cr.contains, hh]
        simp [h]
      · rw [Zerialize.Cbor.Cr.keyGet, hh]
        simp [h]
  · intro f key h
    cases f <;> simp_all [Zerialize.Flex.Fv.isMap, Zerialize.Flex.Fv.contains,
      Zerialize.Flex.Fv.keyGet, deserErr]
  · intro j key h
    cases j <;> simp_all [Zerialize.Json.Jv.isMap, Zerialize.Json.Jv.contains,
      Zerialize.Json.Jv.keyGet, deserErr]

/--
Claim C10 witness: concrete non-map values — a ZERA int ValueRef, a
MsgPack int view, a CBOR int view, a Flex int, and a JSON int — for which
contains returns false and keyed indexing raises.
-/
theorem claim_C10_witness :
    (Zerialize.Zera.Zr.contains
        { env := Zerialize.Zera.make_vr 2 0 0 5 0 0, arena := [], vrOfs := 0 } [97] =
      .ok false ∧
     Zerialize.Zera.Zr.keyGet
        { env := Zerialize.Zera.make_vr 2 0 0 5 0 0, arena := [], vrOfs := 0 } [97] =
      .error (.deser "zera: not a map")) ∧
    (Zerialize.MsgPack.contains [5] [97] = .ok false ∧
     Zerialize.MsgPack.keyGet [5] [97] = .error (.deser "msgpack: not a map")) ∧
    (Zerialize.Cbor.Cr.contains { buf := [5], pos := 0 } [97] = .ok false ∧
     Zerialize.Cbor.Cr.keyGet { buf := [5], pos := 0 } [97] =
       .error (.deser "CBOR: not a map")) ∧
    (Zerialize.Flex.Fv.contains (.fint 5) [97] = .ok false ∧
     Zerialize.Flex.Fv.keyGet (.fint 5) [97] = .error (.deser "not a map")) ∧
    (Zerialize.Json.Jv.contains (.juint 5) [97] = .ok false ∧
     Zerialize.Json.Jv.keyGet (.juint 5) [97] =
       .error (.deser "Value is not a map/object")) :=
  ⟨claim_C10_contains_non_map.1 _ _ (by decide),
   claim_C10_contains_non_map.2.1 _ _ (by decide),
   claim_C10_contains_non_map.2.2.1 _ _ (by decide),
   claim_C10_contains_non_map.2.2.2.1 _ _ (by decide),
   claim_C10_contains_non_map.2.2.2.2 _ _ (by decide)⟩

end Zerialize

namespace Zerialize
namespace Zera

/-- make_vr records are 16 bytes. -/
theorem make_vr_length (t f a b c d : Nat) : (make_vr t f a b c d).length = 16 := by
  simp [make_vr, u16Bytes, u32Bytes]

/-- Overwriting inside bounds preserves the length. -/
theorem overwriteBytes_length (l : List Nat) (at0 : Nat) (bs : List Nat)
    (h : at0 + bs.length ≤ l.length) : (overwriteBytes l at0 bs).length = l.length := by
  simp [overwriteBytes]
  omega

/-- A state whose envelope is extended and root preserved keeps WInv. -/
theorem WInv_extend (s s1 : WState) (hinv : WInv s) (henv : ∃ t, s1.env = s.env ++ t)
    (hroot : s1.root_ofs = s.root_ofs) : WInv s1 := by
  intro o ho
  rcases henv with ⟨t, ht⟩
  rw [ht]
  rw [hroot] at ho
  have := hinv o ho
  simp
  omega

/-- Successful arena_alloc only changes the arena. -/
theorem arena_alloc_ok_fields (s : WState) (len al ofs : Nat) (s1 : WState)
    (h : arena_alloc s len al = .ok (ofs, s1)) :
    s1.st = s.st ∧ s1.env = s.env ∧ s1.root_ofs = s.root_ofs ∧
    s1.inline_threshold = s.inline_threshold := by
  unfold arena_alloc at h
  dsimp only at h
  split at h
  · simp [serErr] at h
  · split at h
    · simp [serErr] at h
    · simp at h
      rw [← h.2]
      exact ⟨rfl, rfl, rfl, rfl⟩

/-- Successful append_env_payload appends to the envelope and returns its
old length. -/
theorem append_env_payload_ok (s : WState) (bytes : List Nat) (ofs : Nat) (s1 : WState)
    (h : append_env_payload s bytes = .ok (ofs, s1)) :
    ofs = s.env.length ∧ s1 = { s with env := s.env ++ bytes } := by
  unfold append_env_payload at h
  dsimp only at h
  split at h
  · simp [serErr] at h
  · simp at h
    exact ⟨h.1.symm, h.2.symm⟩

/-- Successful deliver_vr of a 16-byte record preserves WInv and only
extends the envelope. -/
theorem deliver_vr_inv (s : WState) (vr : List Nat) (s1 : WState)
    (hok : deliver_vr s vr = .ok s1) (hinv : WInv s) (hvr : vr.length = 16) :
    WInv s1 ∧ (∃ t, s1.env = s.env ++ t) := by
  obtain ⟨st, env, arena, root, thr⟩ := s
  cases st with
  | nil =>
      simp only [deliver_vr] at hok
      unfold write_root_vr at hok
      cases root with
      | some r => simp [serErr] at hok
      | none =>
          simp only [Option.isSome_none, Bool.false_eq_true, if_false] at hok
          rcases happ : append_env_payload ⟨[], env, arena, none, thr⟩ vr with e | ⟨ofs, s2⟩
          · rw [happ] at hok
            simp at hok
          · rw [happ] at hok
            simp at hok
            rcases append_env_payload_ok _ vr ofs s2 happ with ⟨hofs, hs2⟩
            constructor
            · intro o ho
              rw [← hok] at ho
              simp at ho
              rw [← hok]
              simp [hs2, hofs]
              rw [← ho]
              simp [hofs, hvr]
            · rw [← hok]
              simp [hs2]
  | cons f rest =>
      cases f with
      | arrCtx payload count =>
          simp only [deliver_vr] at hok
          simp at hok
          constructor
          · intro o ho
            rw [← hok] at ho
            simp at ho
            rw [← hok]
            simp
            exact hinv o ho
          · rw [← hok]
            exact ⟨[], by simp⟩
      | mapCtx payload count pending =>
          cases pending with
          | none => simp [deliver_vr, serErr] at hok
          | some at0 =>
              simp only [deliver_vr] at hok
              split at hok
              · simp [serErr] at hok
              · simp at hok
                constructor
                · intro o ho
                  rw [← hok] at ho
                  simp at ho
                  rw [← hok]
                  simp
                  exact hinv o ho
                · rw [← hok]
                  exact ⟨[], by simp⟩

end Zera
end Zerialize

namespace Zerialize
namespace Zera

/-- WInv survives a stack change plus envelope extension. -/
theorem WInv_env_ext (s : WState) (st1 : List Frame) (t : List Nat) (hinv : WInv s) :
    WInv { s with st := st1, env := s.env ++ t } := by
  intro o ho
  simp only [List.length_append]
  have := hinv o ho
  omega

/-- Every successful writer call preserves WInv and only extends the
envelope. -/
theorem applyOp_inv (s : WState) (op : Op) (s1 : WState)
    (hok : applyOp s op = .ok s1) (hinv : WInv s) :
    WInv s1 ∧ (∃ t, s1.env = s.env ++ t) := by
  cases op with
  | onull =>
      exact deliver_vr_inv s _ s1 hok hinv (make_vr_length _ _ _ _ _ _)
  | obool b =>
      exact deliver_vr_inv s _ s1 hok hinv (make_vr_length _ _ _ _ _ _)
  | oint64 n =>
      exact deliver_vr_inv s _ s1 hok hinv (make_vr_length _ _ _ _ _ _)
  | ouint64 n =>
      exact deliver_vr_inv s _ s1 hok hinv (make_vr_length _ _ _ _ _ _)
  | odouble bits =>
      exact deliver_vr_inv s _ s1 hok hinv (make_vr_length _ _ _ _ _ _)
  | ostring str =>
      simp only [applyOp] at hok
      unfold wString at hok
      split at hok
      · rename_i hle
        refine deliver_vr_inv s _ s1 hok hinv ?_
        rw [overwriteBytes_length]
        · exact make_vr_length _ _ _ _ _ _
        · rw [make_vr_length]
          simp [InlineMax] at hle
          omega
      · split at hok
        · simp [serErr] at hok
        · rcases halloc : arena_alloc s str.length 1 with e | ⟨ofs, sa⟩
          · rw [halloc] at hok
            simp at hok
          · rw [halloc] at hok
            simp at hok
            rcases arena_alloc_ok_fields s _ _ ofs sa halloc with ⟨hst, henv, hroot, hthr⟩
            have hinv2 : WInv { sa with arena := overwriteBytes sa.arena ofs str } := by
              intro o ho
              simp only at ho
              rw [hroot] at ho
              have := hinv o ho
              simp only [henv]
              omega
            rcases deliver_vr_inv _ _ s1 hok hinv2 (make_vr_length _ _ _ _ _ _) with ⟨h1, t, ht⟩
            refine ⟨h1, t, ?_⟩
            simpa [henv] using ht
  | obinary bytes =>
      simp only [applyOp] at hok
      unfold wBinary at hok
      split at hok
      · simp [serErr] at hok
      · dsimp only at hok
        rcases halloc : arena_alloc s bytes.length ArenaBaseAlign with e | ⟨ofs, sa⟩
        · rw [halloc] at hok
          simp at hok
        · rw [halloc] at hok
          simp at hok
          rcases arena_alloc_ok_fields s _ _ ofs sa halloc with ⟨hst, henv, hroot, hthr⟩
          rcases hshape : emit_shape_rank1 { sa with arena := overwriteBytes sa.arena ofs bytes } bytes.length
            with e | ⟨sofs, sb⟩
          · rw [hshape] at hok
            simp at hok
          · rw [hshape] at hok
            simp at hok
            rcases append_env_payload_ok _ _ sofs sb hshape with ⟨hsofs, hsb⟩
            have hinv3 : WInv sb := by
              intro o ho
              rw [hsb] at ho ⊢
              simp only at ho ⊢
              rw [hroot] at ho
              have := hinv o ho
              simp only [henv, List.length_append]
              omega
            rcases deliver_vr_inv _ _ s1 hok hinv3 (make_vr_length _ _ _ _ _ _) with ⟨h1, t, ht⟩
            refine ⟨h1, ?_⟩
            rw [hsb] at ht
            simp only [henv] at ht
            exact ⟨_, by rw [ht, List.append_assoc]⟩
  | obeginArray n =>
      simp only [applyOp] at hok
      unfold wBeginArray at hok
      simp at hok
      refine ⟨?_, [], by rw [← hok]; simp⟩
      intro o ho
      rw [← hok] at ho
      rw [← hok]
      exact hinv o ho
  | oendArray =>
      simp only [applyOp] at hok
      unfold wEndArray at hok
      split at hok
      · rename_i payload count rest heq
        split at hok
        · simp [serErr] at hok
        · dsimp only at hok
          rcases happ : append_env_payload { s with st := rest } (write_u32_le_at payload 0 count)
            with e | ⟨pofs, sa⟩
          · rw [happ] at hok
            simp at hok
          · rw [happ] at hok
            simp at hok
            rcases append_env_payload_ok _ _ pofs sa happ with ⟨hpofs, hsa⟩
            have hinv2 : WInv sa := by
              rw [hsa]
              exact WInv_env_ext s rest _ hinv
            rcases deliver_vr_inv _ _ s1 hok hinv2 (make_vr_length _ _ _ _ _ _) with ⟨h1, t, ht⟩
            refine ⟨h1, ?_⟩
            rw [hsa] at ht
            simp only at ht
            exact ⟨_, by rw [ht, List.append_assoc]⟩
      · simp [serErr] at hok
  | obeginMap n =>
      simp only [applyOp] at hok
      unfold wBeginMap at hok
      simp at hok
      refine ⟨?_, [], by rw [← hok]; simp⟩
      intro o ho
      rw [← hok] at ho
      rw [← hok]
      exact hinv o ho
  | oendMap =>
      simp only [applyOp] at hok
      unfold wEndMap at hok
      split at hok
      · rename_i payload count pending rest heq
        split at hok
        · simp [serErr] at hok
        · dsimp only at hok
          rcases happ : append_env_payload { s with st := rest } (write_u32_le_at payload 0 count)
            with e | ⟨pofs, sa⟩
          · rw [happ] at hok
            simp at hok
          · rw [happ] at hok
            simp at hok
            rcases append_env_payload_ok _ _ pofs sa happ with ⟨hpofs, hsa⟩
            have hinv2 : WInv sa := by
              rw [hsa]
              exact WInv_env_ext s rest _ hinv
            rcases deliver_vr_inv _ _ s1 hok hinv2 (make_vr_length _ _ _ _ _ _) with ⟨h1, t, ht⟩
            refine ⟨h1, ?_⟩
            rw [hsa] at ht
            simp only at ht
            exact ⟨_, by rw [ht, List.append_assoc]⟩
      · simp [serErr] at hok
  | okey k =>
      simp only [applyOp] at hok
      unfold wKey at hok
      split at hok
      · split at hok
        · simp [serErr] at hok
        · split at hok
          · simp [serErr] at hok
          · simp at hok
            refine ⟨?_, [], by rw [← hok]; simp⟩
            intro o ho
            rw [← hok] at ho
            rw [← hok]
            exact hinv o ho
      · simp [serErr] at hok

/-- runOps from a WInv state preserves WInv and only extends the envelope. -/
theorem runOps_inv (ops : List Op) (s : WState) (s1 : WState)
    (hok : runOps s ops = .ok s1) (hinv : WInv s) :
    WInv s1 ∧ (∃ t, s1.env = s.env ++ t) := by
  induction ops generalizing s with
  | nil =>
      simp [runOps] at hok
      rw [← hok]
      exact ⟨hinv, [], by simp⟩
  | cons op rest ih =>
      unfold runOps at hok
      rcases hop : applyOp s op with e | sa
      · rw [hop] at hok
        simp at hok
      · rw [hop] at hok
        simp at hok
        rcases applyOp_inv s op sa hop hinv with ⟨hinva, t1, ht1⟩
        rcases ih sa hok hinva with ⟨hinvb, t2, ht2⟩
        exact ⟨hinvb, t1 ++ t2, by rw [ht2, ht1, List.append_assoc]⟩

end Zera
end Zerialize

namespace Zerialize
namespace Zera

/-- Field reads of a ZERA header laid out as by finish. -/
theorem zera_header_fields (r es ao : Nat) (rest : List Nat) :
    read_u32_le (u32Bytes Magic ++ (u16Bytes Version ++ (u16Bytes 1 ++ (u32Bytes r ++ (u32Bytes es ++ (u32Bytes ao ++ rest)))))) 0 = Magic ∧
    read_u16_le (u32Bytes Magic ++ (u16Bytes Version ++ (u16Bytes 1 ++ (u32Bytes r ++ (u32Bytes es ++ (u32Bytes ao ++ rest)))))) 4 = 1 ∧
    read_u16_le (u32Bytes Magic ++ (u16Bytes Version ++ (u16Bytes 1 ++ (u32Bytes r ++ (u32Bytes es ++ (u32Bytes ao ++ rest)))))) 6 = 1 ∧
    read_u32_le (u32Bytes Magic ++ (u16Bytes Version ++ (u16Bytes 1 ++ (u32Bytes r ++ (u32Bytes es ++ (u32Bytes ao ++ rest)))))) 8 = r % 2 ^ 32 ∧
    read_u32_le (u32Bytes Magic ++ (u16Bytes Version ++ (u16Bytes 1 ++ (u32Bytes r ++ (u32Bytes es ++ (u32Bytes ao ++ rest)))))) 12 = es % 2 ^ 32 ∧
    read_u32_le (u32Bytes Magic ++ (u16Bytes Version ++ (u16Bytes 1 ++ (u32Bytes r ++ (u32Bytes es ++ (u32Bytes ao ++ rest)))))) 16 = ao % 2 ^ 32 ∧
    (u32Bytes Magic ++ (u16Bytes Version ++ (u16Bytes 1 ++ (u32Bytes r ++ (u32Bytes es ++ (u32Bytes ao ++ rest)))))).length = 20 + rest.length := by
  refine ⟨?_, ?_, ?_, ?_, ?_, ?_, ?_⟩
  · rw [read_u32_u32Bytes]
    decide
  · have e1 := read_u16_le_shift (u32Bytes Magic) (u16Bytes Version ++ (u16Bytes 1 ++ (u32Bytes r ++ (u32Bytes es ++ (u32Bytes ao ++ rest))))) 0
    rw [show (u32Bytes Magic).length + 0 = 4 from rfl] at e1
    rw [e1, read_u16_u16Bytes]
    decide
  · have e1 := read_u16_le_shift (u32Bytes Magic) (u16Bytes Version ++ (u16Bytes 1 ++ (u32Bytes r ++ (u32Bytes es ++ (u32Bytes ao ++ rest))))) 2
    rw [show (u32Bytes Magic).length + 2 = 6 from rfl] at e1
    have e2 := read_u16_le_shift (u16Bytes Version) (u16Bytes 1 ++ (u32Bytes r ++ (u32Bytes es ++ (u32Bytes ao ++ rest)))) 0
    rw [show (u16Bytes Version).length + 0 = 2 from rfl] at e2
    rw [e1, e2, read_u16_u16Bytes]
    decide
  · have e1 := read_u32_le_shift (u32Bytes Magic) (u16Bytes Version ++ (u16Bytes 1 ++ (u32Bytes r ++ (u32Bytes es ++ (u32Bytes ao ++ rest))))) 4
    rw [show (u32Bytes Magic).length + 4 = 8 from rfl] at e1
    have e2 := read_u32_le_shift (u16Bytes Version) (u16Bytes 1 ++ (u32Bytes r ++ (u32Bytes es ++ (u32Bytes ao ++ rest)))) 2
    rw [show (u16Bytes Version).length + 2 = 4 from rfl] at e2
    have e3 := read_u32_le_shift (u16Bytes 1) (u32Bytes r ++ (u32Bytes es ++ (u32Bytes ao ++ rest))) 0
    rw [show (u16Bytes 1).length + 0 = 2 from rfl] at e3
    rw [e1, e2, e3, read_u32_u32Bytes]
  · have e1 := read_u32_le_shift (u32Bytes Magic) (u16Bytes Version ++ (u16Bytes 1 ++ (u32Bytes r ++ (u32Bytes es ++ (u32Bytes ao ++ rest))))) 8
    rw [show (u32Bytes Magic).length + 8 = 12 from rfl] at e1
    have e2 := read_u32_le_shift (u16Bytes Version) (u16Bytes 1 ++ (u32Bytes r ++ (u32Bytes es ++ (u32Bytes ao ++ rest)))) 6
    rw [show (u16Bytes Version).length + 6 = 8 from rfl] at e2
    have e3 := read_u32_le_shift (u16Bytes 1) (u32Bytes r ++ (u32Bytes es ++ (u32Bytes ao ++ rest))) 4
    rw [show (u16Bytes 1).length + 4 = 6 from rfl] at e3
    have e4 := read_u32_le_shift (u32Bytes r) (u32Bytes es ++ (u32Bytes ao ++ rest)) 0
    rw [show (u32Bytes r).length + 0 = 4 from rfl] at e4
    rw [e1, e2, e3, e4, read_u32_u32Bytes]
  · have e1 := read_u32_le_shift (u32Bytes Magic) (u16Bytes Version ++ (u16Bytes 1 ++ (u32Bytes r ++ (u32Bytes es ++ (u32Bytes ao ++ rest))))) 12
    rw [show (u32Bytes Magic).length + 12 = 16 from rfl] at e1
    have e2 := read_u32_le_shift (u16Bytes Version) (u16Bytes 1 ++ (u32Bytes r ++ (u32Bytes es ++ (u32Bytes ao ++ rest)))) 10
    rw [show (u16Bytes Version).length + 10 = 12 from rfl] at e2
    have e3 := read_u32_le_shift (u16Bytes 1) (u32Bytes r ++ (u32Bytes es ++ (u32Bytes ao ++ rest))) 8
    rw [show (u16Bytes 1).length + 8 = 10 from rfl] at e3
    have e4 := read_u32_le_shift (u32Bytes r) (u32Bytes es ++ (u32Bytes ao ++ rest)) 4
    rw [show (u32Bytes r).length + 4 = 8 from rfl] at e4
    have e5 := read_u32_le_shift (u32Bytes es) (u32Bytes ao ++ rest) 0
    rw [show (u32Bytes es).length + 0 = 4 from rfl] at e5
    rw [e1, e2, e3, e4, e5, read_u32_u32Bytes]
  · simp [u32Bytes, u16Bytes]
    omega

end Zera
end Zerialize

namespace Zerialize
namespace Zera

/-- Successful finish from a WInv state produces exactly the header layout
with a rooted envelope. -/
theorem finish_ok_shape (s : WState) (buf : List Nat)
    (hfin : finish s = .ok buf) (hinv : WInv s) :
    ∃ r env arena, r + 16 ≤ env.length ∧ env.length ≤ 2 ^ 32 - 1 ∧
      align_up (20 + env.length) 16 ≤ 2 ^ 32 - 1 ∧
      buf = u32Bytes Magic ++ u16Bytes Version ++ u16Bytes 1 ++ u32Bytes r ++
            u32Bytes env.length ++ u32Bytes (align_up (20 + env.length) 16) ++
            env ++ List.replicate (align_up (20 + env.length) 16 - (20 + env.length)) 0 ++ arena := by
  unfold finish at hfin
  split at hfin
  · simp [serErr] at hfin
  · rcases hroot : s.root_ofs with _ | r0
    · rw [hroot] at hfin
      simp only [Option.isNone_none, if_true] at hfin
      unfold write_root_vr at hfin
      rw [hroot] at hfin
      simp only [Option.isSome_none, Bool.false_eq_true, if_false] at hfin
      rcases happ : append_env_payload s (make_vr TagNull 0 0 0 0 0) with e | ⟨ofs, sa⟩
      · rw [happ] at hfin
        simp at hfin
      · rw [happ] at hfin
        simp only [eeBindOk] at hfin
        rcases append_env_payload_ok _ _ ofs sa happ with ⟨hofs, hsa⟩
        split at hfin
        · simp [serErr] at hfin
        · split at hfin
          · simp [serErr] at hfin
          · split at hfin
            · simp [serErr] at hfin
            · simp only [Except.ok.injEq] at hfin
              rename_i henv harena hao
              refine ⟨ofs, sa.env, sa.arena, ?_, ?_, ?_, ?_⟩
              · rw [hsa, hofs]
                simp [make_vr_length, make_vr, u16Bytes, u32Bytes]
              · simp at henv
                omega
              · simp [HeaderSize, ArenaBaseAlign] at hao
                omega
              · rw [← hfin]
                simp [hsa, hofs, HeaderSize, ArenaBaseAlign]
    · rw [hroot] at hfin
      simp only [Option.isNone_some, Bool.false_eq_true, if_false, eeBindOk] at hfin
      split at hfin
      · simp [serErr] at hfin
      · split at hfin
        · simp [serErr] at hfin
        · split at hfin
          · simp [serErr] at hfin
          · simp only [Except.ok.injEq] at hfin
            rename_i henv harena hao
            refine ⟨r0, s.env, s.arena, hinv r0 hroot, ?_, ?_, ?_⟩
            · simp at henv
              omega
            · simp [HeaderSize, ArenaBaseAlign] at hao
              omega
            · rw [← hfin]
              simp [hroot, HeaderSize, ArenaBaseAlign]

end Zera

end Zerialize
namespace Zerialize
namespace Zera

/-- init_from accepts every buffer satisfying acceptCond, returning the
sliced envelope and arena regions with the root offset. -/
theorem init_from_of_accept (buf : List Nat) (hacc : acceptCond buf = true) :
    init_from buf = .ok { env := sliceBytes buf 20 (read_u32_le buf 12),
                          arena := sliceBytes buf (read_u32_le buf 16) (buf.length - read_u32_le buf 16),
                          vrOfs := read_u32_le buf 8 } := by
  unfold acceptCond headerConds at hacc
  simp only [Bool.and_eq_true, decide_eq_true_eq] at hacc
  obtain ⟨⟨⟨⟨⟨⟨⟨⟨⟨hl, hm⟩, hv⟩, hf⟩, hre⟩, hel⟩, h16⟩, hov⟩, hal⟩, hrs⟩ := hacc
  unfold init_from parse_header
  rw [if_neg (show ¬ buf.length < HeaderSize by simp only [HeaderSize]; omega)]
  simp only [eeBindOk]
  dsimp only
  rw [if_neg (show ¬ read_u32_le buf 0 ≠ Magic by simp [hm])]
  rw [if_neg (show ¬ read_u16_le buf 4 ≠ Version by simp [Version, hv])]
  rw [if_neg (show ¬ read_u16_le buf 6 ≠ 1 by simp [hf])]
  simp only [HeaderSize, ArenaBaseAlign, decide_eq_true hel, decide_eq_true hre,
    decide_eq_true hov, decide_eq_true h16, decide_eq_true hal, decide_eq_true hrs,
    requireD_true, eeBindOk]

end Zera
end Zerialize

namespace Zerialize
namespace Zera

/-- init_from only accepts buffers satisfying acceptCond. -/
theorem accept_of_ok (buf : List Nat) (z : Zr) (hz : init_from buf = .ok z) :
    acceptCond buf = true := by
  unfold init_from parse_header at hz
  split at hz
  · simp [deserErr] at hz
  · rename_i hlen
    simp only [eeBindOk] at hz
    dsimp only at hz
    split at hz
    · simp [deserErr] at hz
    · split at hz
      · simp [deserErr] at hz
      · split at hz
        · simp [deserErr] at hz
        · rename_i hm hv hf
          unfold requireD at hz
          split at hz
          · rename_i hc1
            split at hz
            · rename_i hc2
              split at hz
              · rename_i hc3
                split at hz
                · rename_i hc4
                  split at hz
                  · rename_i hc5
                    split at hz
                    · rename_i hc6
                      have hm2 : read_u32_le buf 0 = Magic := by
                        by_contra hne
                        exact hm hne
                      have hv2 : read_u16_le buf 4 = 1 := by
                        by_contra hne
                        exact hv (by simpa [Version] using hne)
                      have hf2 : read_u16_le buf 6 = 1 := by
                        by_contra hne
                        exact hf hne
                      have e1 := of_decide_eq_true hc1
                      have e2 := of_decide_eq_true hc2
                      have e3 := of_decide_eq_true hc3
                      have e4 := of_decide_eq_true hc4
                      have e5 := of_decide_eq_true hc5
                      have e6 := of_decide_eq_true hc6
                      simp only [HeaderSize] at hlen e5
                      simp only [ArenaBaseAlign] at e4
                      simp only [acceptCond, headerConds, Bool.and_eq_true, decide_eq_true_eq]
                      exact ⟨⟨⟨⟨⟨⟨⟨⟨⟨by omega, hm2⟩, hv2⟩, hf2⟩, e2⟩, e1⟩, e4⟩, e5⟩, e3⟩, e6⟩
                    · simp [deserErr, eeBindErr] at hz
                  · simp [deserErr, eeBindErr] at hz
                · simp [deserErr, eeBindErr] at hz
              · simp [deserErr, eeBindErr] at hz
            · simp [deserErr, eeBindErr] at hz
          · simp [deserErr, eeBindErr] at hz

/-- Every init_from rejection is a DeserializationError. -/
theorem init_from_err_deser (buf : List Nat) (e : Err) (hz : init_from buf = .error e) :
    ∃ m, e = .deser m := by
  unfold init_from parse_header at hz
  split at hz
  · simp only [deserErr, eeBindErr, Except.error.injEq] at hz
    exact ⟨_, hz.symm⟩
  · simp only [eeBindOk] at hz
    dsimp only at hz
    split at hz
    · simp only [deserErr, eeBindErr, Except.error.injEq] at hz
      exact ⟨_, hz.symm⟩
    · split at hz
      · simp only [deserErr, eeBindErr, Except.error.injEq] at hz
        exact ⟨_, hz.symm⟩
      · split at hz
        · simp only [deserErr, eeBindErr, Except.error.injEq] at hz
          exact ⟨_, hz.symm⟩
        · unfold requireD at hz
          split at hz
          · split at hz
            · split at hz
              · split at hz
                · split at hz
                  · split at hz
                    · simp at hz
                    · simp only [deserErr, eeBindOk, eeBindErr, Except.error.injEq] at hz
                      exact ⟨_, hz.symm⟩
                  · simp only [deserErr, eeBindOk, eeBindErr, Except.error.injEq] at hz
                    exact ⟨_, hz.symm⟩
                · simp only [deserErr, eeBindOk, eeBindErr, Except.error.injEq] at hz
                  exact ⟨_, hz.symm⟩
              · simp only [deserErr, eeBindOk, eeBindErr, Except.error.injEq] at hz
                exact ⟨_, hz.symm⟩
            · simp only [deserErr, eeBindOk, eeBindErr, Except.error.injEq] at hz
              exact ⟨_, hz.symm⟩
          · simp only [deserErr, eeBindOk, eeBindErr, Except.error.injEq] at hz
            exact ⟨_, hz.symm⟩

end Zera
end Zerialize

namespace Zerialize
namespace Zera

/-- Successful finish from a WInv state yields a buffer init_from accepts. -/
theorem finish_acceptCond (s : WState) (buf : List Nat)
    (hfin : finish s = .ok buf) (hinv : WInv s) : acceptCond buf = true := by
  rcases finish_ok_shape s buf hfin hinv with ⟨r, env, arena, hr, hes, hao, hbuf⟩
  subst hbuf
  simp only [List.append_assoc]
  obtain ⟨f0, f4, f6, f8, f12, f16, flen⟩ := zera_header_fields r env.length
    (align_up (20 + env.length) 16)
    (env ++ (List.replicate (align_up (20 + env.length) 16 - (20 + env.length)) 0 ++ arena))
  have hge := align_up_16_ge (20 + env.length)
  have hdvd := align_up_16_dvd (20 + env.length)
  unfold acceptCond headerConds subSizeT
  rw [f0, f4, f6, f8, f12, f16, flen]
  simp only [List.length_append, List.length_replicate]
  simp only [Bool.and_eq_true, decide_eq_true_eq]
  refine ⟨⟨⟨⟨⟨⟨⟨⟨⟨?_, trivial⟩, trivial⟩, trivial⟩, ?_⟩, ?_⟩, ?_⟩, ?_⟩, ?_⟩, ?_⟩ <;> omega

end Zera
end Zerialize

namespace Zerialize

/-- C7 counterexample: a buffer satisfying every header condition stated in
the claim (magic, version, flags, root inside envelope, envelope size,
arena offset aligned and past the envelope) whose root offset 10 exceeds
env_size - 16 = 4, which ZeraDeserializer::init_from rejects. -/
theorem claim_C7_counterexample :
    Zera.headerConds (u32Bytes Zera.Magic ++ u16Bytes 1 ++ u16Bytes 1 ++ u32Bytes 10 ++
      u32Bytes 20 ++ u32Bytes 48 ++ List.replicate 28 0) = true ∧
    Zera.init_from (u32Bytes Zera.Magic ++ u16Bytes 1 ++ u16Bytes 1 ++ u32Bytes 10 ++
      u32Bytes 20 ++ u32Bytes 48 ++ List.replicate 28 0) =
      .error (.deser "zera: root ValueRef out of bounds") := by
  constructor
  · rfl
  · rfl

/-- C7 (amended): every buffer produced by finish() from a writer run
satisfies the header conditions together with the stricter root bound
root_ofs <= env_size - 16 (acceptCond); init_from accepts exactly the
buffers satisfying acceptCond, returning the envelope and arena slices
and the root offset, and raises DeserializationError on every other
buffer. -/
theorem claim_C7_header :
    (∀ ops s buf, Zera.runOps {} ops = .ok s → Zera.finish s = .ok buf →
      Zera.acceptCond buf = true) ∧
    (∀ buf, Zera.acceptCond buf = true →
      Zera.init_from buf = .ok { env := sliceBytes buf 20 (read_u32_le buf 12),
                                 arena := sliceBytes buf (read_u32_le buf 16) (buf.length - read_u32_le buf 16),
                                 vrOfs := read_u32_le buf 8 }) ∧
    (∀ buf, Zera.acceptCond buf = false → Zera.deserRejects (Zera.init_from buf) = true) := by
  refine ⟨?_, ?_, ?_⟩
  · intro ops s buf hops hfin
    have h0 : Zera.WInv {} := by
      intro o ho
      exact Option.noConfusion ho
    rcases Zera.runOps_inv ops {} s hops h0 with ⟨hinv, -⟩
    exact Zera.finish_acceptCond s buf hfin hinv
  · exact Zera.init_from_of_accept
  · intro buf hacc
    rcases hres : Zera.init_from buf with e | z
    · rcases Zera.init_from_err_deser buf e hres with ⟨m, hm⟩
      rw [hm]
      rfl
    · have h := Zera.accept_of_ok buf z hres
      rw [h] at hacc
      cases hacc

end Zerialize

namespace Zerialize

/-- C7 witness: the buffer finish() produces for the trivial writer run is
accepted, and the empty buffer is rejected with DeserializationError. -/
theorem claim_C7_witness :
    Zera.acceptCond (u32Bytes Zera.Magic ++ u16Bytes Zera.Version ++ u16Bytes 1 ++
      u32Bytes 0 ++ u32Bytes 16 ++ u32Bytes 48 ++ Zera.make_vr Zera.TagNull 0 0 0 0 0 ++
      List.replicate 12 0 ++ []) = true ∧
    Zera.deserRejects (Zera.init_from []) = true :=
  ⟨claim_C7_header.1 [] {} _ rfl rfl, claim_C7_header.2.2 [] rfl⟩

end Zerialize

namespace Zerialize

theorem byteAt_cons_zero (a : Nat) (l : List Nat) : byteAt (a :: l) 0 = a := rfl

theorem byteAt_cons_succ (a : Nat) (l : List Nat) (k : Nat) :
    byteAt (a :: l) (k + 1) = byteAt l k := rfl

theorem toSigned64_toUnsigned64 (n : Int) (h1 : -(2 ^ 63) ≤ n) (h2 : n < 2 ^ 63) :
    toSigned64 (toUnsigned64 n) = n := by
  unfold toSigned64 toUnsigned64
  split <;> omega

theorem toUnsigned64_lt (n : Int) : toUnsigned64 n < 2 ^ 64 := by
  unfold toUnsigned64
  omega

theorem be16Bytes_length (x : Nat) : (be16Bytes x).length = 2 := rfl

theorem be32Bytes_length (x : Nat) : (be32Bytes x).length = 4 := rfl

theorem be64Bytes_length (x : Nat) : (be64Bytes x).length = 8 := by
  simp [be64Bytes, be32Bytes]

namespace MsgPack

theorem mp_read_be16_cons (m x : Nat) (rest : List Nat) :
    mp_read_be16 (m :: (be16Bytes x ++ rest)) 1 = x % 2 ^ 16 := by
  simp [mp_read_be16, be16Bytes, byteAt]
  omega

theorem mp_read_be32_cons (m x : Nat) (rest : List Nat) :
    mp_read_be32 (m :: (be32Bytes x ++ rest)) 1 = x % 2 ^ 32 := by
  simp [mp_read_be32, be32Bytes, byteAt]
  omega

theorem mp_read_be64_cons (m x : Nat) (rest : List Nat) :
    mp_read_be64 (m :: (be64Bytes x ++ rest)) 1 = x % 2 ^ 64 := by
  simp [mp_read_be64, mp_read_be32, be64Bytes, be32Bytes, byteAt]
  omega

theorem byteAt_cons_cons_one (a b : Nat) (l : List Nat) : byteAt (a :: b :: l) 1 = b := rfl

theorem asInt64_encInt64 (n : Int) (rest : List Nat) (h1 : -(2 ^ 63) ≤ n) (h2 : n < 2 ^ 63) :
    asInt64 (encInt64 n ++ rest) = .ok n := by
  unfold encInt64
  split_ifs with c1 c2 c3 c4 c5 c6 c7 c8
  · simp only [List.cons_append, asInt64, List.length_cons, List.length_append,
      be64Bytes_length, byteAt_cons_zero]
    rw [if_neg (by omega), if_neg (by decide), if_neg (by decide), if_neg (by decide),
      if_neg (by decide), if_neg (by decide), if_pos (by decide), if_neg (by omega),
      mp_read_be64_cons]
    simp only [Except.ok.injEq]
    rw [Nat.mod_eq_of_lt (toUnsigned64_lt n)]
    exact toSigned64_toUnsigned64 n h1 h2
  · simp only [List.cons_append, asInt64, List.length_cons, List.length_append,
      be32Bytes_length, byteAt_cons_zero]
    rw [if_neg (by omega), if_neg (by decide), if_neg (by decide), if_neg (by decide),
      if_neg (by decide), if_pos (by decide), if_neg (by omega), mp_read_be32_cons]
    simp only [Except.ok.injEq]
    unfold toSigned32 toUnsigned64
    split_ifs <;> omega
  · simp only [List.cons_append, asInt64, List.length_cons, List.length_append,
      be16Bytes_length, byteAt_cons_zero]
    rw [if_neg (by omega), if_neg (by decide), if_neg (by decide), if_neg (by decide),
      if_pos (by decide), if_neg (by omega), mp_read_be16_cons]
    simp only [Except.ok.injEq]
    unfold toSigned16 toUnsigned64
    split_ifs <;> omega
  · simp only [List.cons_append, List.nil_append, asInt64, List.length_cons,
      byteAt_cons_zero, byteAt_cons_cons_one]
    rw [if_neg (by omega), if_neg (by decide), if_neg (by decide), if_pos (by decide),
      if_neg (by omega)]
    simp only [Except.ok.injEq]
    unfold toSigned8 toUnsigned64
    split_ifs <;> omega
  · simp only [List.cons_append, List.nil_append, asInt64, List.length_cons,
      byteAt_cons_zero]
    rw [if_neg (by omega)]
    by_cases hn : 0 ≤ n
    · rw [if_pos (show toUnsigned64 n % 2 ^ 8 ≤ 0x7f by unfold toUnsigned64; omega)]
      simp only [Except.ok.injEq]
      unfold toUnsigned64
      omega
    · rw [if_neg (show ¬ toUnsigned64 n % 2 ^ 8 ≤ 0x7f by unfold toUnsigned64; omega),
          if_pos (show 0xe0 ≤ toUnsigned64 n % 2 ^ 8 by unfold toUnsigned64; omega)]
      simp only [Except.ok.injEq]
      unfold toSigned8 toUnsigned64
      split_ifs <;> omega
  · simp only [List.cons_append, List.nil_append, asInt64, List.length_cons,
      byteAt_cons_zero, byteAt_cons_cons_one]
    rw [if_neg (by omega), if_neg (by decide), if_neg (by decide), if_neg (by decide),
      if_neg (by decide), if_neg (by decide), if_neg (by decide), if_pos (by decide),
      if_neg (by omega)]
    simp only [Except.ok.injEq]
    omega
  · simp only [List.cons_append, asInt64, List.length_cons, List.length_append,
      be16Bytes_length, byteAt_cons_zero]
    rw [if_neg (by omega), if_neg (by decide), if_neg (by decide), if_neg (by decide),
      if_neg (by decide), if_neg (by decide), if_neg (by decide), if_neg (by decide),
      if_pos (by decide), if_neg (by omega), mp_read_be16_cons]
    simp only [Except.ok.injEq]
    omega
  · simp only [List.cons_append, asInt64, List.length_cons, List.length_append,
      be32Bytes_length, byteAt_cons_zero]
    rw [if_neg (by omega), if_neg (by decide), if_neg (by decide), if_neg (by decide),
      if_neg (by decide), if_neg (by decide), if_neg (by decide), if_neg (by decide),
      if_neg (by decide), if_pos (by decide), if_neg (by omega), mp_read_be32_cons]
    simp only [Except.ok.injEq]
    omega
  · simp only [List.cons_append, asInt64, List.length_cons, List.length_append,
      be64Bytes_length, byteAt_cons_zero]
    rw [if_neg (by omega), if_neg (by decide), if_neg (by decide), if_neg (by decide),
      if_neg (by decide), if_neg (by decide), if_neg (by decide), if_neg (by decide),
      if_neg (by decide), if_neg (by decide), if_pos (by decide), if_neg (by omega),
      mp_read_be64_cons]
    simp only [Except.ok.injEq]
    unfold toSigned64
    split_ifs <;> omega


theorem sliceBytes_cons (a : Nat) (l : List Nat) (k n : Nat) :
    sliceBytes (a :: l) (k + 1) n = sliceBytes l k n := rfl

theorem sliceBytes_zero_take (l : List Nat) (n : Nat) :
    sliceBytes l 0 n = l.take n := rfl

theorem asUInt64_encUInt64 (n : Nat) (rest : List Nat) (h : n < 2 ^ 64) :
    asUInt64 (encUInt64 n ++ rest) = .ok n := by
  unfold encUInt64
  split_ifs with c1 c2 c3 c4
  · simp only [List.cons_append, List.nil_append, asUInt64, List.length_cons,
      byteAt_cons_zero]
    rw [if_neg (by omega), if_pos (by omega)]
  · simp only [List.cons_append, List.nil_append, asUInt64, List.length_cons,
      byteAt_cons_zero, byteAt_cons_cons_one]
    rw [if_neg (by omega), if_neg (by omega), if_pos (by decide), if_neg (by omega)]
  · simp only [List.cons_append, asUInt64, List.length_cons, List.length_append,
      be16Bytes_length, byteAt_cons_zero]
    rw [if_neg (by omega), if_neg (by decide), if_neg (by decide), if_pos (by decide),
      if_neg (by omega), mp_read_be16_cons]
    simp only [Except.ok.injEq]
    omega
  · simp only [List.cons_append, asUInt64, List.length_cons, List.length_append,
      be32Bytes_length, byteAt_cons_zero]
    rw [if_neg (by omega), if_neg (by decide), if_neg (by decide), if_neg (by decide),
      if_pos (by decide), if_neg (by omega), mp_read_be32_cons]
    simp only [Except.ok.injEq]
    omega
  · simp only [List.cons_append, asUInt64, List.length_cons, List.length_append,
      be64Bytes_length, byteAt_cons_zero]
    rw [if_neg (by omega), if_neg (by decide), if_neg (by decide), if_neg (by decide),
      if_neg (by decide), if_pos (by decide), if_neg (by omega), mp_read_be64_cons]
    simp only [Except.ok.injEq]
    omega

theorem isIntOrUInt_encInt64 (n : Int) (rest : List Nat) :
    (isInt (encInt64 n ++ rest) || isUInt (encInt64 n ++ rest)) = true := by
  unfold encInt64
  split_ifs with c1 c2 c3 c4 c5 c6 c7 c8 <;>
    simp only [isInt, isUInt, List.cons_append, List.nil_append, List.length_cons,
      byteAt_cons_zero] <;>
    rw [if_neg (by omega), if_neg (by omega)] <;>
    simp only [Bool.or_eq_true, decide_eq_true_eq]
  · simp
  · simp
  · simp
  · simp
  · unfold toUnsigned64
    omega
  · simp
  · simp
  · simp
  · simp

theorem isUInt_encUInt64 (n : Nat) (rest : List Nat) :
    isUInt (encUInt64 n ++ rest) = true := by
  unfold encUInt64
  split_ifs with c1 c2 c3 c4 <;>
    simp only [isUInt, List.cons_append, List.nil_append, List.length_cons,
      byteAt_cons_zero] <;>
    rw [if_neg (by omega)] <;>
    simp only [Bool.or_eq_true, decide_eq_true_eq]
  · omega
  · simp
  · simp
  · simp
  · simp

theorem asStringView_encStr (s rest : List Nat) (h : s.length < 2 ^ 32) :
    asStringView (encStrHeader s.length ++ s ++ rest) = .ok s := by
  unfold encStrHeader
  split_ifs with c1 c2 c3
  · simp only [List.cons_append, List.nil_append, asStringView, byteAt_cons_zero,
      List.append_assoc]
    rw [if_pos (by omega)]
    have : (0xa0 + s.length) % 32 = s.length := by omega
    rw [this, sliceBytes_cons, sliceBytes_zero_take, List.take_left]
  · simp only [List.cons_append, List.nil_append, asStringView, byteAt_cons_zero,
      byteAt_cons_cons_one, List.append_assoc]
    rw [if_neg (by omega), if_pos (by decide), sliceBytes_cons, sliceBytes_cons,
      sliceBytes_zero_take, List.take_left]
  · simp only [List.cons_append, asStringView, byteAt_cons_zero, List.append_assoc,
      mp_read_be16_cons]
    rw [if_neg (by decide), if_neg (by decide), if_pos (by decide)]
    rw [show s.length % 2 ^ 16 = s.length by omega, sliceBytes_cons]
    simp only [Except.ok.injEq]
    show sliceBytes (be16Bytes s.length ++ (s ++ rest)) 2 s.length = s
    unfold sliceBytes
    rw [show (2 : Nat) = (be16Bytes s.length).length from rfl, List.drop_left,
      List.take_left]
  · simp only [List.cons_append, asStringView, byteAt_cons_zero, List.append_assoc,
      mp_read_be32_cons]
    rw [if_neg (by decide), if_neg (by decide), if_neg (by decide), if_pos (by decide)]
    rw [show s.length % 2 ^ 32 = s.length by omega, sliceBytes_cons]
    simp only [Except.ok.injEq]
    show sliceBytes (be32Bytes s.length ++ (s ++ rest)) 4 s.length = s
    unfold sliceBytes
    rw [show (4 : Nat) = (be32Bytes s.length).length from rfl, List.drop_left,
      List.take_left]


theorem isString_encStr (s rest : List Nat) (h : s.length < 2 ^ 32) :
    isString (encStrHeader s.length ++ s ++ rest) = true := by
  unfold encStrHeader
  split_ifs with c1 c2 c3 <;>
    simp only [isString, List.cons_append, List.nil_append, List.length_cons,
      byteAt_cons_zero] <;>
    rw [if_neg (by omega)] <;>
    simp only [Bool.or_eq_true, decide_eq_true_eq]
  · omega
  · simp
  · simp
  · simp

theorem asBlob_encBin (b rest : List Nat) (h : b.length < 2 ^ 32) :
    asBlob (encBinHeader b.length ++ b ++ rest) = .ok b := by
  unfold encBinHeader
  split_ifs with c1 c2
  · simp only [List.cons_append, List.nil_append, asBlob, byteAt_cons_zero,
      byteAt_cons_cons_one, List.append_assoc]
    rw [if_pos (by decide), sliceBytes_cons, sliceBytes_cons, sliceBytes_zero_take,
      List.take_left]
  · simp only [List.cons_append, asBlob, byteAt_cons_zero, List.append_assoc,
      mp_read_be16_cons]
    rw [if_neg (by decide), if_pos (by decide)]
    rw [show b.length % 2 ^ 16 = b.length by omega, sliceBytes_cons]
    simp only [Except.ok.injEq]
    show sliceBytes (be16Bytes b.length ++ (b ++ rest)) 2 b.length = b
    unfold sliceBytes
    rw [show (2 : Nat) = (be16Bytes b.length).length from rfl, List.drop_left,
      List.take_left]
  · simp only [List.cons_append, asBlob, byteAt_cons_zero, List.append_assoc,
      mp_read_be32_cons]
    rw [if_neg (by decide), if_neg (by decide), if_pos (by decide)]
    rw [show b.length % 2 ^ 32 = b.length by omega, sliceBytes_cons]
    simp only [Except.ok.injEq]
    show sliceBytes (be32Bytes b.length ++ (b ++ rest)) 4 b.length = b
    unfold sliceBytes
    rw [show (4 : Nat) = (be32Bytes b.length).length from rfl, List.drop_left,
      List.take_left]

theorem isBlob_encBin (b rest : List Nat) (h : b.length < 2 ^ 32) :
    isBlob (encBinHeader b.length ++ b ++ rest) = true := by
  unfold encBinHeader
  split_ifs with c1 c2 <;>
    simp only [isBlob, List.cons_append, List.nil_append, List.length_cons,
      byteAt_cons_zero] <;>
    rw [if_neg (by omega)] <;>
    simp

theorem isFloat_encF64 (bits : Nat) (rest : List Nat) :
    isFloat (0xcb :: (be64Bytes bits ++ rest)) = true := by
  simp only [isFloat, List.length_cons, byteAt_cons_zero]
  rw [if_neg (by omega)]
  simp

theorem asDouble_encF64 (bits : Nat) (rest : List Nat) (h : bits < 2 ^ 64) :
    asDouble (0xcb :: (be64Bytes bits ++ rest)) = .ok (.f64Bits bits) := by
  simp only [asDouble, isFloat_encF64, Bool.not_true, Bool.false_eq_true, if_false,
    byteAt_cons_zero]
  rw [if_neg (by decide),
    if_neg (by simp only [List.length_cons, List.length_append, be64Bytes_length]; omega),
    mp_read_be64_cons, Nat.mod_eq_of_lt h]


theorem encStrHeader_length (n : Nat) : (encStrHeader n).length =
    if n < 32 then 1 else if n < 2 ^ 8 then 2 else if n < 2 ^ 16 then 3 else 5 := by
  unfold encStrHeader
  split_ifs <;> simp [be16Bytes_length, be32Bytes_length]

theorem mp_skip_strChunk (fuel : Nat) (k tail : List Nat) (hk : k.length < 2 ^ 32)
    (hf : 1 ≤ fuel) :
    mp_skip fuel (encStrHeader k.length ++ (k ++ tail)) =
      .ok ((encStrHeader k.length).length + k.length) := by
  cases fuel with
  | zero => omega
  | succ f =>
    rw [encStrHeader_length]
    unfold encStrHeader
    split_ifs with c1 c2 c3
    · simp only [List.cons_append, List.nil_append, mp_skip, List.length_cons,
        byteAt_cons_zero]
      rw [if_neg (by omega),
        if_neg (by simp only [Bool.or_eq_true, decide_eq_true_eq]; omega),
        if_pos (by omega)]
      simp only [Except.ok.injEq]
      omega
    · simp only [List.cons_append, List.nil_append, mp_skip, List.length_cons,
        byteAt_cons_zero, byteAt_cons_cons_one]
      rw [if_neg (by omega), if_neg (by simp), if_neg (by simp), if_neg (by simp),
        if_neg (by simp), if_neg (by simp), if_neg (by simp), if_neg (by simp),
        if_neg (by simp), if_pos (by simp), if_neg (by omega)]
    · simp only [List.cons_append, mp_skip, List.length_cons, List.length_append,
        be16Bytes_length, byteAt_cons_zero, mp_read_be16_cons]
      rw [if_neg (by omega), if_neg (by simp), if_neg (by simp), if_neg (by simp),
        if_neg (by simp), if_neg (by simp), if_neg (by simp), if_neg (by simp),
        if_neg (by simp), if_neg (by simp), if_pos (by simp), if_neg (by omega)]
      simp only [Except.ok.injEq]
      omega
    · simp only [List.cons_append, mp_skip, List.length_cons, List.length_append,
        be32Bytes_length, byteAt_cons_zero, mp_read_be32_cons]
      rw [if_neg (by omega), if_neg (by simp), if_neg (by simp), if_neg (by simp),
        if_neg (by simp), if_neg (by simp), if_neg (by simp), if_neg (by simp),
        if_neg (by simp), if_neg (by simp), if_neg (by simp), if_pos (by simp),
        if_neg (by omega)]
      simp only [Except.ok.injEq]
      omega


theorem mp_skip_encInt64 (f : Nat) (n : Int) (rest : List Nat) :
    mp_skip (f + 1) (encInt64 n ++ rest) = .ok (encInt64 n).length := by
  unfold encInt64
  split_ifs with c1 c2 c3 c4 c5 c6 c7 c8 <;>
    simp only [List.cons_append, List.nil_append, mp_skip, List.length_cons,
      List.length_append, be16Bytes_length, be32Bytes_length, be64Bytes_length,
      byteAt_cons_zero]
  · rw [if_neg (by omega), if_neg (by simp), if_neg (by simp), if_neg (by simp),
      if_neg (by simp), if_neg (by simp), if_neg (by simp), if_neg (by simp),
      if_pos (by simp)]
  · rw [if_neg (by omega), if_neg (by simp), if_neg (by simp), if_neg (by simp),
      if_neg (by simp), if_neg (by simp), if_neg (by simp), if_pos (by simp)]
  · rw [if_neg (by omega), if_neg (by simp), if_neg (by simp), if_neg (by simp),
      if_neg (by simp), if_neg (by simp), if_pos (by simp)]
  · rw [if_neg (by omega), if_neg (by simp), if_neg (by simp), if_neg (by simp),
      if_neg (by simp), if_pos (by simp)]
    rfl
  · rw [if_neg (by omega),
      if_pos (show (decide (toUnsigned64 n % 2 ^ 8 ≤ 0x7f) || decide (0xe0 ≤ toUnsigned64 n % 2 ^ 8) ||
        decide (toUnsigned64 n % 2 ^ 8 = 0xc0) || decide (toUnsigned64 n % 2 ^ 8 = 0xc2) ||
        decide (toUnsigned64 n % 2 ^ 8 = 0xc3)) = true by
          simp only [Bool.or_eq_true, decide_eq_true_eq]
          unfold toUnsigned64
          omega)]
    rfl
  · rw [if_neg (by omega), if_neg (by simp), if_neg (by simp), if_neg (by simp),
      if_neg (by simp), if_pos (by simp)]
    rfl
  · rw [if_neg (by omega), if_neg (by simp), if_neg (by simp), if_neg (by simp),
      if_neg (by simp), if_neg (by simp), if_pos (by simp)]
  · rw [if_neg (by omega), if_neg (by simp), if_neg (by simp), if_neg (by simp),
      if_neg (by simp), if_neg (by simp), if_neg (by simp), if_pos (by simp)]
  · rw [if_neg (by omega), if_neg (by simp), if_neg (by simp), if_neg (by simp),
      if_neg (by simp), if_neg (by simp), if_neg (by simp), if_neg (by simp),
      if_pos (by simp)]

theorem mp_skip_encUInt64 (f : Nat) (n : Nat) (rest : List Nat) :
    mp_skip (f + 1) (encUInt64 n ++ rest) = .ok (encUInt64 n).length := by
  unfold encUInt64
  split_ifs with c1 c2 c3 c4 <;>
    simp only [List.cons_append, List.nil_append, mp_skip, List.length_cons,
      List.length_append, be16Bytes_length, be32Bytes_length, be64Bytes_length,
      byteAt_cons_zero]
  · rw [if_neg (by omega), if_pos (by simp only [Bool.or_eq_true, decide_eq_true_eq]; omega)]
    rfl
  · rw [if_neg (by omega), if_neg (by simp), if_neg (by simp), if_neg (by simp),
      if_neg (by simp), if_pos (by simp)]
    rfl
  · rw [if_neg (by omega), if_neg (by simp), if_neg (by simp), if_neg (by simp),
      if_neg (by simp), if_neg (by simp), if_pos (by simp)]
  · rw [if_neg (by omega), if_neg (by simp), if_neg (by simp), if_neg (by simp),
      if_neg (by simp), if_neg (by simp), if_neg (by simp), if_pos (by simp)]
  · rw [if_neg (by omega), if_neg (by simp), if_neg (by simp), if_neg (by simp),
      if_neg (by simp), if_neg (by simp), if_neg (by simp), if_neg (by simp),
      if_pos (by simp)]

theorem mp_skip_one (f : Nat) (m : Nat) (rest : List Nat) (h1 : m ≤ 0x7f ∨ 0xe0 ≤ m ∨ m = 0xc0 ∨ m = 0xc2 ∨ m = 0xc3) :
    mp_skip (f + 1) (m :: rest) = .ok 1 := by
  simp only [mp_skip, List.length_cons, byteAt_cons_zero]
  rw [if_neg (by omega),
    if_pos (by simp only [Bool.or_eq_true, decide_eq_true_eq]; omega)]

theorem mp_skip_encF64 (f : Nat) (bits : Nat) (rest : List Nat) :
    mp_skip (f + 1) (0xcb :: (be64Bytes bits ++ rest)) = .ok 9 := by
  simp only [mp_skip, List.length_cons, byteAt_cons_zero]
  rw [if_neg (by omega), if_neg (by simp), if_neg (by simp), if_neg (by simp),
    if_neg (by simp), if_neg (by simp), if_neg (by simp), if_neg (by simp),
    if_pos (by simp)]

theorem encBinHeader_length (n : Nat) : (encBinHeader n).length =
    if n < 2 ^ 8 then 2 else if n < 2 ^ 16 then 3 else 5 := by
  unfold encBinHeader
  split_ifs <;> simp [be16Bytes_length, be32Bytes_length]

theorem mp_skip_binChunk (f : Nat) (b tail : List Nat) (hb : b.length < 2 ^ 32) :
    mp_skip (f + 1) (encBinHeader b.length ++ (b ++ tail)) =
      .ok ((encBinHeader b.length).length + b.length) := by
  rw [encBinHeader_length]
  unfold encBinHeader
  split_ifs with c1 c2
  · simp only [List.cons_append, List.nil_append, mp_skip, List.length_cons,
      byteAt_cons_zero, byteAt_cons_cons_one]
    rw [if_neg (by omega), if_neg (by simp), if_neg (by simp), if_neg (by simp),
      if_neg (by simp), if_neg (by simp), if_neg (by simp), if_neg (by simp),
      if_neg (by simp), if_neg (by simp), if_neg (by simp), if_neg (by simp),
      if_pos (by simp), if_neg (by omega)]
  · simp only [List.cons_append, mp_skip, List.length_cons, List.length_append,
      be16Bytes_length, byteAt_cons_zero, mp_read_be16_cons]
    rw [if_neg (by omega), if_neg (by simp), if_neg (by simp), if_neg (by simp),
      if_neg (by simp), if_neg (by simp), if_neg (by simp), if_neg (by simp),
      if_neg (by simp), if_neg (by simp), if_neg (by simp), if_neg (by simp),
      if_neg (by simp), if_pos (by simp), if_neg (by omega)]
    simp only [Except.ok.injEq]
    omega
  · simp only [List.cons_append, mp_skip, List.length_cons, List.length_append,
      be32Bytes_length, byteAt_cons_zero, mp_read_be32_cons]
    rw [if_neg (by omega), if_neg (by simp), if_neg (by simp), if_neg (by simp),
      if_neg (by simp), if_neg (by simp), if_neg (by simp), if_neg (by simp),
      if_neg (by simp), if_neg (by simp), if_neg (by simp), if_neg (by simp),
      if_neg (by simp), if_neg (by simp), if_pos (by simp), if_neg (by omega)]
    simp only [Except.ok.injEq]
    omega


theorem encStrHeader_pos (n : Nat) : 1 ≤ (encStrHeader n).length := by
  rw [encStrHeader_length]
  split_ifs <;> omega

end MsgPack

theorem encVal_length_pos (u : Val) : 1 ≤ (MsgPack.encVal u).length := by
  cases u with
  | vnull => simp [MsgPack.encVal]
  | vbool b => cases b <;> simp [MsgPack.encVal]
  | vi64 n =>
      simp only [MsgPack.encVal]
      unfold MsgPack.encInt64
      split_ifs <;> simp
  | vu64 n =>
      simp only [MsgPack.encVal]
      unfold MsgPack.encUInt64
      split_ifs <;> simp
  | vf64 bits => simp [MsgPack.encVal]
  | vstr s =>
      simp only [MsgPack.encVal, List.length_append]
      have := MsgPack.encStrHeader_pos s.length
      omega
  | vblob b =>
      simp only [MsgPack.encVal, List.length_append]
      rw [MsgPack.encBinHeader_length]
      split_ifs <;> omega
  | varr es =>
      simp only [MsgPack.encVal, List.length_append]
      unfold MsgPack.encArrayHeader
      split_ifs <;> simp [be16Bytes_length, be32Bytes_length] <;> omega
  | vmap es =>
      simp only [MsgPack.encVal, List.length_append]
      unfold MsgPack.encMapHeader
      split_ifs <;> simp [be16Bytes_length, be32Bytes_length] <;> omega

theorem footprint_ge (u : Val) : 64 ≤ u.footprint := by
  cases u <;> simp [Val.footprint] <;> omega

theorem footprintList_member (u : Val) (elems : List Val) (h : u ∈ elems) :
    u.footprint ≤ Val.footprintList elems := by
  induction elems with
  | nil => cases h
  | cons e tl ih =>
      simp only [Val.footprintList]
      rcases List.mem_cons.mp h with h | h
      · subst h
        omega
      · have := ih h
        omega

theorem footprintList_count (elems : List Val) :
    64 * elems.length ≤ Val.footprintList elems := by
  induction elems with
  | nil => simp [Val.footprintList]
  | cons e tl ih =>
      simp only [Val.footprintList, List.length_cons]
      have := footprint_ge e
      omega

theorem footprintEntries_member (k : List Nat) (v : Val)
    (entries : List (List Nat × Val)) (h : (k, v) ∈ entries) :
    64 + k.length + v.footprint ≤ Val.footprintEntries entries := by
  induction entries with
  | nil => cases h
  | cons e tl ih =>
      simp only [Val.footprintEntries]
      rcases List.mem_cons.mp h with h | h
      · rw [← h]
        dsimp only
        omega
      · have := ih h
        omega

theorem footprintEntries_count (entries : List (List Nat × Val)) :
    64 * entries.length ≤ Val.footprintEntries entries := by
  induction entries with
  | nil => simp [Val.footprintEntries]
  | cons e tl ih =>
      simp only [Val.footprintEntries, List.length_cons]
      omega

namespace MsgPack

theorem drop_after (v pre post : List Nat) (off : Nat) (h : v.drop off = pre ++ post) :
    v.drop (off + pre.length) = post := by
  have h2 := congrArg (List.drop pre.length) h
  rw [List.drop_drop, List.drop_left] at h2
  exact h2

theorem mp_skipN_encList (fuel : Nat)
    (IH : ∀ u rest, Val.wf u = true → Val.footprint u ≤ 2 ^ 31 →
      (encVal u).length ≤ fuel → mp_skip fuel (encVal u ++ rest) = .ok (encVal u).length)
    (elems : List Val) :
    ∀ v off rest, Val.wfList elems = true → Val.footprintList elems ≤ 2 ^ 31 →
      (encList elems).length ≤ fuel → v.drop off = encList elems ++ rest →
      mp_skipN fuel elems.length v off = .ok (off + (encList elems).length) := by
  induction elems with
  | nil =>
      intro v off rest _ _ _ _
      simp [mp_skipN, encList]
  | cons e tl ih =>
      intro v off rest hw hb hf hdrop
      simp only [encList, List.append_assoc] at hdrop hf ⊢
      simp only [Val.wfList, Bool.and_eq_true] at hw
      simp only [Val.footprintList] at hb
      simp only [List.length_cons]
      simp only [mp_skipN]
      rw [hdrop, IH e (encList tl ++ rest) hw.1 (by omega)
        (by simp only [List.length_append] at hf; omega)]
      simp only [eeBindOk]
      rw [ih v (off + (encVal e).length) rest hw.2 (by omega)
        (by simp only [List.length_append] at hf; omega)
        (drop_after v (encVal e) (encList tl ++ rest) off hdrop)]
      simp only [Except.ok.injEq, List.length_append]
      omega

theorem mp_skipN_encEntries (fuel : Nat)
    (IH : ∀ u rest, Val.wf u = true → Val.footprint u ≤ 2 ^ 31 →
      (encVal u).length ≤ fuel → mp_skip fuel (encVal u ++ rest) = .ok (encVal u).length)
    (entries : List (List Nat × Val)) :
    ∀ v off rest, Val.wfEntries entries = true → Val.footprintEntries entries ≤ 2 ^ 31 →
      (encEntries entries).length ≤ fuel → v.drop off = encEntries entries ++ rest →
      mp_skipN fuel (2 * entries.length) v off =
        .ok (off + (encEntries entries).length) := by
  induction entries with
  | nil =>
      intro v off rest _ _ _ _
      simp [mp_skipN, encEntries]
  | cons e tl ih =>
      obtain ⟨k, val⟩ := e
      intro v off rest hw hb hf hdrop
      simp only [encEntries, List.append_assoc] at hdrop hf ⊢
      simp only [Val.wfEntries, Bool.and_eq_true] at hw
      simp only [Val.footprintEntries] at hb
      simp only [List.length_cons]
      rw [show 2 * (tl.length + 1) = 2 * tl.length + 1 + 1 by ring]
      have hfuel1 : 1 ≤ fuel := by
        have := encStrHeader_pos k.length
        simp only [List.length_append] at hf
        omega
      simp only [mp_skipN]
      rw [hdrop, mp_skip_strChunk fuel k (encVal val ++ (encEntries tl ++ rest))
        (by omega) hfuel1]
      simp only [eeBindOk]
      have hdropA : v.drop off =
          (encStrHeader k.length ++ k) ++ (encVal val ++ (encEntries tl ++ rest)) := by
        rw [List.append_assoc]
        exact hdrop
      have hdrop2 := drop_after v (encStrHeader k.length ++ k)
        (encVal val ++ (encEntries tl ++ rest)) off hdropA
      rw [show off + ((encStrHeader k.length).length + k.length) =
        off + (encStrHeader k.length ++ k).length by simp]
      rw [hdrop2, IH val (encEntries tl ++ rest) hw.1 (by omega)
        (by simp only [List.length_append] at hf; omega)]
      simp only [eeBindOk]
      rw [ih v _ rest hw.2 (by omega)
        (by simp only [List.length_append] at hf; omega)
        (drop_after v (encVal val) (encEntries tl ++ rest)
          (off + (encStrHeader k.length ++ k).length) hdrop2)]
      simp only [Except.ok.injEq, List.length_append]
      omega


theorem mp_skip_encVal : ∀ fuel (u : Val) (rest : List Nat), Val.wf u = true →
    Val.footprint u ≤ 2 ^ 31 → (encVal u).length ≤ fuel →
    mp_skip fuel (encVal u ++ rest) = .ok (encVal u).length := by
  intro fuel
  induction fuel with
  | zero =>
      intro u rest _ _ hf
      have := encVal_length_pos u
      omega
  | succ f ihf =>
      intro u rest hw hb hf
      cases u with
      | vnull =>
          simp only [encVal, List.cons_append, List.nil_append]
          exact mp_skip_one f 0xc0 rest (by omega)
      | vbool b =>
          cases b <;> simp only [encVal, List.cons_append, List.nil_append] <;>
            [exact mp_skip_one f 0xc2 rest (by omega);
             exact mp_skip_one f 0xc3 rest (by omega)]
      | vi64 n =>
          simp only [encVal]
          exact mp_skip_encInt64 f n rest
      | vu64 n =>
          simp only [encVal]
          exact mp_skip_encUInt64 f n rest
      | vf64 bits =>
          simp only [encVal, List.cons_append]
          rw [mp_skip_encF64 f bits rest]
          simp [be64Bytes_length]
      | vstr s =>
          simp only [encVal, List.append_assoc]
          rw [mp_skip_strChunk (f + 1) s rest
            (by simp only [Val.footprint] at hb; omega) (by omega)]
          simp
      | vblob b =>
          simp only [encVal, List.append_assoc]
          rw [mp_skip_binChunk f b rest (by simp only [Val.footprint] at hb; omega)]
          simp
      | varr elems =>
          simp only [Val.wf] at hw
          simp only [Val.footprint] at hb
          have hcount := footprintList_count elems
          have hALen : 1 ≤ (encArrayHeader elems.length).length := by
            unfold encArrayHeader
            split_ifs <;> simp [be16Bytes_length, be32Bytes_length]
          have hfl : (encList elems).length ≤ f := by
            simp only [encVal, List.length_append] at hf
            omega
          simp only [encVal]
          unfold encArrayHeader
          split_ifs with c1 c2
          · simp only [List.cons_append, List.nil_append, mp_skip, List.length_cons,
              byteAt_cons_zero, List.length_nil]
            rw [if_neg (by omega),
              if_neg (by simp only [Bool.or_eq_true, decide_eq_true_eq]; omega),
              if_neg (by omega), if_pos (by omega),
              show (0x90 + elems.length) % 16 = elems.length by omega]
            rw [mp_skipN_encList f ihf elems
              ((0x90 + elems.length) :: (encList elems ++ rest)) 1 rest hw (by omega)
              hfl rfl]
            simp only [Except.ok.injEq]
            omega
          · simp only [List.cons_append, List.append_assoc, mp_skip, List.length_cons,
              List.length_append, be16Bytes_length, byteAt_cons_zero, mp_read_be16_cons]
            rw [if_neg (by omega), if_neg (by simp), if_neg (by simp), if_neg (by simp),
              if_neg (by simp), if_neg (by simp), if_neg (by simp), if_neg (by simp),
              if_neg (by simp), if_neg (by simp), if_neg (by simp), if_neg (by simp),
              if_neg (by simp), if_neg (by simp), if_neg (by simp), if_pos (by simp),
              if_neg (by omega),
              show elems.length % 2 ^ 16 = elems.length by omega]
            have hdropv : (0xdc :: (be16Bytes elems.length ++ (encList elems ++ rest))).drop 3 =
                encList elems ++ rest := by
              simp [be16Bytes]
            rw [mp_skipN_encList f ihf elems
              (0xdc :: (be16Bytes elems.length ++ (encList elems ++ rest))) 3 rest hw
              (by omega) hfl hdropv]
            simp only [Except.ok.injEq]
            omega
          · simp only [List.cons_append, List.append_assoc, mp_skip, List.length_cons,
              List.length_append, be32Bytes_length, byteAt_cons_zero, mp_read_be32_cons]
            rw [if_neg (by omega), if_neg (by simp), if_neg (by simp), if_neg (by simp),
              if_neg (by simp), if_neg (by simp), if_neg (by simp), if_neg (by simp),
              if_neg (by simp), if_neg (by simp), if_neg (by simp), if_neg (by simp),
              if_neg (by simp), if_neg (by simp), if_neg (by simp), if_neg (by simp),
              if_pos (by simp), if_neg (by omega),
              show elems.length % 2 ^ 32 = elems.length by omega]
            have hdropv : (0xdd :: (be32Bytes elems.length ++ (encList elems ++ rest))).drop 5 =
                encList elems ++ rest := by
              simp [be32Bytes]
            rw [mp_skipN_encList f ihf elems
              (0xdd :: (be32Bytes elems.length ++ (encList elems ++ rest))) 5 rest hw
              (by omega) hfl hdropv]
            simp only [Except.ok.injEq]
            omega
      | vmap entries =>
          simp only [Val.wf, Bool.and_eq_true] at hw
          simp only [Val.footprint] at hb
          have hcount := footprintEntries_count entries
          have hALen : 1 ≤ (encMapHeader entries.length).length := by
            unfold encMapHeader
            split_ifs <;> simp [be16Bytes_length, be32Bytes_length]
          have hfl : (encEntries entries).length ≤ f := by
            simp only [encVal, List.length_append] at hf
            omega
          simp only [encVal]
          unfold encMapHeader
          split_ifs with c1 c2
          · simp only [List.cons_append, List.nil_append, mp_skip, List.length_cons,
              byteAt_cons_zero, List.length_nil]
            rw [if_neg (by omega),
              if_neg (by simp only [Bool.or_eq_true, decide_eq_true_eq]; omega),
              if_neg (by omega), if_neg (by omega), if_pos (by omega),
              show 2 * ((0x80 + entries.length) % 16) = 2 * entries.length by omega]
            rw [mp_skipN_encEntries f ihf entries
              ((0x80 + entries.length) :: (encEntries entries ++ rest)) 1 rest hw.1.1
              (by omega) hfl rfl]
            simp only [Except.ok.injEq]
            omega
          · simp only [List.cons_append, List.append_assoc, mp_skip, List.length_cons,
              List.length_append, be16Bytes_length, byteAt_cons_zero, mp_read_be16_cons]
            rw [if_neg (by omega), if_neg (by simp), if_neg (by simp), if_neg (by simp),
              if_neg (by simp), if_neg (by simp), if_neg (by simp), if_neg (by simp),
              if_neg (by simp), if_neg (by simp), if_neg (by simp), if_neg (by simp),
              if_neg (by simp), if_neg (by simp), if_neg (by simp), if_neg (by simp),
              if_neg (by simp), if_pos (by simp), if_neg (by omega),
              show 2 * (entries.length % 2 ^ 16) = 2 * entries.length by omega]
            have hdropv : (0xde :: (be16Bytes entries.length ++ (encEntries entries ++ rest))).drop 3 =
                encEntries entries ++ rest := by
              simp [be16Bytes]
            rw [mp_skipN_encEntries f ihf entries
              (0xde :: (be16Bytes entries.length ++ (encEntries entries ++ rest))) 3 rest hw.1.1
              (by omega) hfl hdropv]
            simp only [Except.ok.injEq]
            omega
          · simp only [List.cons_append, List.append_assoc, mp_skip, List.length_cons,
              List.length_append, be32Bytes_length, byteAt_cons_zero, mp_read_be32_cons]
            rw [if_neg (by omega), if_neg (by simp), if_neg (by simp), if_neg (by simp),
              if_neg (by simp), if_neg (by simp), if_neg (by simp), if_neg (by simp),
              if_neg (by simp), if_neg (by simp), if_neg (by simp), if_neg (by simp),
              if_neg (by simp), if_neg (by simp), if_neg (by simp), if_neg (by simp),
              if_neg (by simp), if_neg (by simp), if_pos (by simp), if_neg (by omega),
              show 2 * (entries.length % 2 ^ 32) = 2 * entries.length by omega]
            have hdropv : (0xdf :: (be32Bytes entries.length ++ (encEntries entries ++ rest))).drop 5 =
                encEntries entries ++ rest := by
              simp [be32Bytes]
            rw [mp_skipN_encEntries f ihf entries
              (0xdf :: (be32Bytes entries.length ++ (encEntries entries ++ rest))) 5 rest hw.1.1
              (by omega) hfl hdropv]
            simp only [Except.ok.injEq]
            omega


theorem encList_append (a b : List Val) :
    encList (a ++ b) = encList a ++ encList b := by
  induction a with
  | nil => simp [encList]
  | cons e tl ih => simp [encList, ih]

theorem encEntries_append (a b : List (List Nat × Val)) :
    encEntries (a ++ b) = encEntries a ++ encEntries b := by
  induction a with
  | nil => simp [encEntries]
  | cons e tl ih =>
      obtain ⟨k, v⟩ := e
      simp [encEntries, ih]

end MsgPack

theorem wfList_append (a b : List Val) :
    Val.wfList (a ++ b) = (Val.wfList a && Val.wfList b) := by
  induction a with
  | nil => simp [Val.wfList]
  | cons e tl ih => simp [Val.wfList, ih, Bool.and_assoc]

theorem wfEntries_append (a b : List (List Nat × Val)) :
    Val.wfEntries (a ++ b) = (Val.wfEntries a && Val.wfEntries b) := by
  induction a with
  | nil => simp [Val.wfEntries]
  | cons e tl ih => simp [Val.wfEntries, ih, Bool.and_assoc]

theorem footprintList_append (a b : List Val) :
    Val.footprintList (a ++ b) = Val.footprintList a + Val.footprintList b := by
  induction a with
  | nil => simp [Val.footprintList]
  | cons e tl ih => simp [Val.footprintList, ih]; omega

theorem footprintEntries_append (a b : List (List Nat × Val)) :
    Val.footprintEntries (a ++ b) = Val.footprintEntries a + Val.footprintEntries b := by
  induction a with
  | nil => simp [Val.footprintEntries]
  | cons e tl ih =>
      obtain ⟨k, v⟩ := e
      simp [Val.footprintEntries, ih]
      omega

namespace MsgPack

theorem arr_info_enc (n : Nat) (tail : List Nat) (hc : n < 2 ^ 32) :
    arr_info (encArrayHeader n ++ tail) = .ok (n, (encArrayHeader n).length) := by
  unfold encArrayHeader
  split_ifs with c1 c2
  · simp only [List.cons_append, List.nil_append, arr_info, List.length_cons,
      byteAt_cons_zero, List.length_nil]
    rw [if_neg (by omega), if_pos (by omega)]
    simp only [Except.ok.injEq, Prod.mk.injEq]
    refine ⟨by omega, by simp [be16Bytes_length, be32Bytes_length]⟩
  · simp only [List.cons_append, arr_info, List.length_cons, List.length_append,
      be16Bytes_length, byteAt_cons_zero, mp_read_be16_cons]
    rw [if_neg (by omega), if_neg (by decide), if_pos (by decide)]
    simp only [Except.ok.injEq, Prod.mk.injEq]
    refine ⟨by omega, by simp [be16Bytes_length, be32Bytes_length]⟩
  · simp only [List.cons_append, arr_info, List.length_cons, List.length_append,
      be32Bytes_length, byteAt_cons_zero, mp_read_be32_cons]
    rw [if_neg (by omega), if_neg (by decide), if_neg (by decide), if_pos (by decide)]
    simp only [Except.ok.injEq, Prod.mk.injEq]
    refine ⟨by omega, by simp [be16Bytes_length, be32Bytes_length]⟩

theorem map_info_enc (n : Nat) (tail : List Nat) (hc : n < 2 ^ 32) :
    map_info (encMapHeader n ++ tail) = .ok (n, (encMapHeader n).length) := by
  unfold encMapHeader
  split_ifs with c1 c2
  · simp only [List.cons_append, List.nil_append, map_info, List.length_cons,
      byteAt_cons_zero, List.length_nil]
    rw [if_neg (by omega), if_pos (by omega)]
    simp only [Except.ok.injEq, Prod.mk.injEq]
    refine ⟨by omega, by simp [be16Bytes_length, be32Bytes_length]⟩
  · simp only [List.cons_append, map_info, List.length_cons, List.length_append,
      be16Bytes_length, byteAt_cons_zero, mp_read_be16_cons]
    rw [if_neg (by omega), if_neg (by decide), if_pos (by decide)]
    simp only [Except.ok.injEq, Prod.mk.injEq]
    refine ⟨by omega, by simp [be16Bytes_length, be32Bytes_length]⟩
  · simp only [List.cons_append, map_info, List.length_cons, List.length_append,
      be32Bytes_length, byteAt_cons_zero, mp_read_be32_cons]
    rw [if_neg (by omega), if_neg (by decide), if_neg (by decide), if_pos (by decide)]
    simp only [Except.ok.injEq, Prod.mk.injEq]
    refine ⟨by omega, by simp [be16Bytes_length, be32Bytes_length]⟩

theorem isArray_enc (n : Nat) (tail : List Nat) :
    isArray (encArrayHeader n ++ tail) = true := by
  unfold encArrayHeader
  split_ifs with c1 c2 <;>
    simp only [isArray, List.cons_append, List.nil_append, List.length_cons,
      byteAt_cons_zero] <;>
    rw [if_neg (by omega)] <;>
    simp only [Bool.or_eq_true, decide_eq_true_eq]
  · omega
  · simp
  · simp

theorem isMap_enc (n : Nat) (tail : List Nat) :
    isMap (encMapHeader n ++ tail) = true := by
  unfold encMapHeader
  split_ifs with c1 c2 <;>
    simp only [isMap, List.cons_append, List.nil_append, List.length_cons,
      byteAt_cons_zero] <;>
    rw [if_neg (by omega)] <;>
    simp only [Bool.or_eq_true, decide_eq_true_eq]
  · omega
  · simp
  · simp


theorem elem_enc (pre : List Val) (e : Val) (post : List Val)
    (hw : Val.wfList (pre ++ e :: post) = true)
    (hb : Val.footprintList (pre ++ e :: post) ≤ 2 ^ 31) :
    elem (encArrayHeader (pre ++ e :: post).length ++ encList (pre ++ e :: post))
      pre.length = .ok (encVal e) := by
  rw [wfList_append] at hw
  simp only [Bool.and_eq_true] at hw
  obtain ⟨hwpre, hwrest⟩ := hw
  simp only [Val.wfList, Bool.and_eq_true] at hwrest
  obtain ⟨hwe, hwpost⟩ := hwrest
  have hbsplit : Val.footprintList pre + (e.footprint + Val.footprintList post) ≤ 2 ^ 31 := by
    rw [footprintList_append] at hb
    simp only [Val.footprintList] at hb
    omega
  have hc : (pre ++ e :: post).length < 2 ^ 32 := by
    have h1 := footprintList_count (pre ++ e :: post)
    omega
  have hL : (encArrayHeader (pre ++ e :: post).length ++ encList (pre ++ e :: post)).length =
      (encArrayHeader (pre ++ e :: post).length).length +
      ((encList pre).length + ((encVal e).length + (encList post).length)) := by
    simp only [List.length_append, encList_append, encList]
  unfold elem
  rw [arr_info_enc _ _ hc]
  simp only [eeBindOk]
  rw [if_neg (by simp only [List.length_append, List.length_cons]; omega)]
  have hdrop0 : (encArrayHeader (pre ++ e :: post).length ++ encList (pre ++ e :: post)).drop
      (encArrayHeader (pre ++ e :: post).length).length =
      encList pre ++ (encVal e ++ encList post) := by
    rw [List.drop_left, encList_append]
    simp [encList]
  rw [mp_skipN_encList
    ((encArrayHeader (pre ++ e :: post).length ++ encList (pre ++ e :: post)).length + 1)
    (fun u rest hw2 hb2 hlen => mp_skip_encVal _ u rest hw2 hb2 hlen) pre _
    (encArrayHeader (pre ++ e :: post).length).length (encVal e ++ encList post)
    hwpre (by omega) (by omega) hdrop0]
  simp only [eeBindOk]
  have hdrop1 := drop_after _ (encList pre) (encVal e ++ encList post)
    (encArrayHeader (pre ++ e :: post).length).length hdrop0
  rw [hdrop1, mp_skip_encVal _ e (encList post) hwe (by omega) (by omega)]
  simp only [eeBindOk, Except.ok.injEq]
  unfold sliceBytes
  rw [hdrop1, List.take_left]


theorem keyStep (v : List Nat) (off : Nat) (k0 : List Nat) (v0 : Val)
    (X : List Nat) (hdrop : v.drop off = encStrHeader k0.length ++ (k0 ++ (encVal v0 ++ X)))
    (hk0 : k0.length < 2 ^ 32) (hwv0 : Val.wf v0 = true) (hbv0 : v0.footprint ≤ 2 ^ 31) :
    mpSkipT (v.drop off) = .ok ((encStrHeader k0.length).length + k0.length) ∧
    sliceBytes v off ((encStrHeader k0.length).length + k0.length) =
      encStrHeader k0.length ++ k0 ∧
    v.drop (off + ((encStrHeader k0.length).length + k0.length)) = encVal v0 ++ X ∧
    mpSkipT (v.drop (off + ((encStrHeader k0.length).length + k0.length))) =
      .ok (encVal v0).length := by
  have hdropA : v.drop off = (encStrHeader k0.length ++ k0) ++ (encVal v0 ++ X) := by
    rw [List.append_assoc]
    exact hdrop
  have hd2 : v.drop (off + ((encStrHeader k0.length).length + k0.length)) =
      encVal v0 ++ X := by
    have := drop_after v (encStrHeader k0.length ++ k0) (encVal v0 ++ X) off hdropA
    simpa using this
  refine ⟨?_, ?_, hd2, ?_⟩
  · unfold mpSkipT
    rw [hdrop, mp_skip_strChunk _ k0 (encVal v0 ++ X) hk0 (by omega)]
  · unfold sliceBytes
    rw [hdropA, show (encStrHeader k0.length).length + k0.length =
      (encStrHeader k0.length ++ k0).length by simp, List.take_left]
  · unfold mpSkipT
    rw [hd2, mp_skip_encVal _ v0 X hwv0 hbv0
      (by simp only [List.length_append]; omega)]

theorem keyFind_enc (v : List Nat) (key : List Nat) (val : Val) :
    ∀ (mid tail : List (List Nat × Val)) (off : Nat),
      v.drop off = encEntries (mid ++ (key, val) :: tail) →
      (∀ p ∈ mid, p.1 ≠ key) →
      Val.wfEntries (mid ++ (key, val) :: tail) = true →
      Val.footprintEntries (mid ++ (key, val) :: tail) ≤ 2 ^ 31 →
      keyFind v key (mid ++ (key, val) :: tail).length off = .ok (encVal val) := by
  intro mid
  induction mid with
  | nil =>
      intro tail off hdrop hne hw hb
      simp only [List.nil_append] at hdrop hw hb ⊢
      simp only [Val.wfEntries, Bool.and_eq_true] at hw
      simp only [Val.footprintEntries] at hb
      simp only [encEntries, List.append_assoc] at hdrop
      obtain ⟨h1, h2, h3, h4⟩ := keyStep v off key val (encEntries tail) hdrop
        (by omega) hw.1 (by omega)
      simp only [List.length_cons]
      unfold keyFind
      rw [h1]
      simp only [eeBindOk]
      rw [h2, h4]
      simp only [eeBindOk]
      rw [if_pos (by
        rw [show encStrHeader key.length ++ key =
          encStrHeader key.length ++ key ++ [] by simp]
        exact isString_encStr key [] (by omega))]
      rw [show encStrHeader key.length ++ key =
        encStrHeader key.length ++ key ++ [] by simp]
      rw [asStringView_encStr key [] (by omega)]
      simp only [eeBindOk, if_pos rfl]
      unfold sliceBytes
      rw [h3, List.take_left]
      simp
  | cons p mid ih =>
      obtain ⟨k0, v0⟩ := p
      intro tail off hdrop hne hw hb
      simp only [List.cons_append] at hdrop hw hb ⊢
      simp only [Val.wfEntries, Bool.and_eq_true] at hw
      simp only [Val.footprintEntries] at hb
      simp only [encEntries, List.append_assoc] at hdrop
      obtain ⟨h1, h2, h3, h4⟩ := keyStep v off k0 v0
        (encEntries (mid ++ (key, val) :: tail)) hdrop (by omega) hw.1 (by omega)
      simp only [List.length_cons]
      unfold keyFind
      rw [h1]
      simp only [eeBindOk]
      rw [h2, h4]
      simp only [eeBindOk]
      rw [if_pos (by
        rw [show encStrHeader k0.length ++ k0 =
          encStrHeader k0.length ++ k0 ++ [] by simp]
        exact isString_encStr k0 [] (by omega))]
      rw [show encStrHeader k0.length ++ k0 =
        encStrHeader k0.length ++ k0 ++ [] by simp]
      rw [asStringView_encStr k0 [] (by omega)]
      simp only [eeBindOk]
      rw [if_neg (by
        intro heq
        exact hne (k0, v0) (List.mem_cons_self _ _) heq)]
      have hdropNext := drop_after v (encVal v0) (encEntries (mid ++ (key, val) :: tail))
        (off + ((encStrHeader k0.length).length + k0.length)) h3
      exact ih tail (off + ((encStrHeader k0.length).length + k0.length) + (encVal v0).length)
        hdropNext (fun p hp => hne p (List.mem_cons_of_mem _ hp)) hw.2 (by omega)


theorem keyGet_enc (entries : List (List Nat × Val)) (key : List Nat) (val : Val)
    (hmem : (key, val) ∈ entries)
    (hnd : (entries.map Prod.fst).Nodup)
    (hw : Val.wfEntries entries = true)
    (hb : Val.footprintEntries entries ≤ 2 ^ 31) :
    keyGet (encMapHeader entries.length ++ encEntries entries) key = .ok (encVal val) := by
  have hc : entries.length < 2 ^ 32 := by
    have := footprintEntries_count entries
    omega
  obtain ⟨mid, tail, hsplit⟩ := List.append_of_mem hmem
  subst hsplit
  have hne : ∀ p ∈ mid, p.1 ≠ key := by
    intro p hp heq
    rw [List.map_append, List.nodup_append] at hnd
    have hmem1 : p.1 ∈ List.map Prod.fst mid := List.mem_map_of_mem _ hp
    have h2 := hnd.2.2 hmem1
    apply h2
    rw [heq]
    simp
  unfold keyGet
  rw [map_info_enc _ _ hc]
  simp only [eeBindOk]
  exact keyFind_enc _ key val mid tail _ (List.drop_left _ _) hne hw hb



theorem wfList_member (u : Val) (elems : List Val) (hw : Val.wfList elems = true)
    (h : u ∈ elems) : Val.wf u = true := by
  induction elems with
  | nil => cases h
  | cons e tl ih =>
      simp only [Val.wfList, Bool.and_eq_true] at hw
      rcases List.mem_cons.mp h with h | h
      · rw [h]
        exact hw.1
      · exact ih hw.2 h

theorem wfEntries_member (k : List Nat) (v : Val) (entries : List (List Nat × Val))
    (hw : Val.wfEntries entries = true) (h : (k, v) ∈ entries) : Val.wf v = true := by
  induction entries with
  | nil => cases h
  | cons e tl ih =>
      simp only [Val.wfEntries, Bool.and_eq_true] at hw
      rcases List.mem_cons.mp h with h | h
      · rw [show v = e.2 by rw [← h]]
        exact hw.1
      · exact ih hw.2 h


theorem mp_SEq_encN : ∀ (N : Nat) (u : Val), u.footprint ≤ N → Val.wf u = true →
    u.footprint ≤ 2 ^ 31 → SEq false (encVal u) u = true := by
  intro N
  induction N with
  | zero =>
      intro u hN _ _
      have := footprint_ge u
      omega
  | succ N ihN =>
      intro u hN hw hb
      cases u with
      | vnull => decide
      | vbool b => cases b <;> decide
      | vi64 n =>
          simp only [Val.wf, Bool.and_eq_true, decide_eq_true_eq] at hw
          simp only [SEq, encVal, Bool.if_false_left, Bool.and_eq_true]
          constructor
          · have h := isIntOrUInt_encInt64 n []
            rw [List.append_nil] at h
            simpa using h
          · have h := asInt64_encInt64 n [] (by omega) (by omega)
            rw [List.append_nil] at h
            simp [h]
      | vu64 n =>
          simp only [Val.wf, decide_eq_true_eq] at hw
          simp only [SEq, encVal, Bool.and_eq_true]
          constructor
          · have h := isUInt_encUInt64 n []
            rw [List.append_nil] at h
            exact h
          · have h := asUInt64_encUInt64 n [] hw
            rw [List.append_nil] at h
            simp [h]
      | vf64 bits =>
          simp only [Val.wf, decide_eq_true_eq] at hw
          simp only [SEq, encVal, Bool.and_eq_true]
          constructor
          · have h := isFloat_encF64 bits []
            rw [List.append_nil] at h
            exact h
          · have h := asDouble_encF64 bits [] hw
            rw [List.append_nil] at h
            simp [h]
      | vstr s =>
          simp only [Val.footprint] at hb
          simp only [SEq, encVal, Bool.and_eq_true]
          constructor
          · have h := isString_encStr s [] (by omega)
            rw [List.append_nil] at h
            exact h
          · have h := asStringView_encStr s [] (by omega)
            rw [List.append_nil] at h
            simp [h]
      | vblob b =>
          simp only [Val.footprint] at hb
          simp only [SEq, encVal, Bool.and_eq_true]
          constructor
          · have h := isBlob_encBin b [] (by omega)
            rw [List.append_nil] at h
            exact h
          · have h := asBlob_encBin b [] (by omega)
            rw [List.append_nil] at h
            simp [h]
      | varr elems =>
          simp only [Val.wf] at hw
          simp only [Val.footprint] at hN hb
          have hc : elems.length < 2 ^ 32 := by
            have := footprintList_count elems
            omega
          simp only [SEq, encVal, Bool.and_eq_true]
          refine ⟨⟨isArray_enc _ _, ?_⟩, ?_⟩
          · simp only [decide_eq_true_eq]
            unfold arraySize
            rw [arr_info_enc _ _ hc]
            rfl
          · have hElems : ∀ (post pre : List Val), elems = pre ++ post →
                SEqElems false (encArrayHeader elems.length ++ encList elems)
                  pre.length post = true := by
              intro post
              induction post with
              | nil =>
                  intro pre _
                  rfl
              | cons e post2 ihp =>
                  intro pre hsplit
                  simp only [SEqElems, Bool.and_eq_true]
                  constructor
                  · have helem := elem_enc pre e post2 (by rw [← hsplit]; exact hw)
                      (by rw [← hsplit]; omega)
                    rw [show (encArrayHeader elems.length ++ encList elems) =
                      (encArrayHeader (pre ++ e :: post2).length ++
                        encList (pre ++ e :: post2)) by rw [← hsplit], helem]
                    have hmem : e ∈ elems := by
                      rw [hsplit]
                      simp
                    exact ihN e (by have := footprintList_member e elems hmem; omega)
                      (wfList_member e elems hw hmem)
                      (by have := footprintList_member e elems hmem; omega)
                  · have := ihp (pre ++ [e]) (by rw [hsplit]; simp)
                    simpa using this
            exact hElems elems [] rfl
      | vmap entries =>
          simp only [Val.wf, Bool.and_eq_true] at hw
          obtain ⟨⟨hwE, hnd⟩, hbytes⟩ := hw
          simp only [Val.footprint] at hN hb
          simp only [SEq, encVal, Bool.and_eq_true]
          refine ⟨isMap_enc _ _, ?_⟩
          have hkg : ∀ k v2, (k, v2) ∈ entries →
              keyGet (encMapHeader entries.length ++ encEntries entries) k =
                .ok (encVal v2) := by
            intro k v2 hmem
            exact keyGet_enc entries k v2 hmem (by simpa using hnd) hwE (by omega)
          have hEnt : ∀ post : List (List Nat × Val), (∀ p ∈ post, p ∈ entries) →
              SEqEntries false (encMapHeader entries.length ++ encEntries entries)
                post = true := by
            intro post
            induction post with
            | nil =>
                intro _
                rfl
            | cons p post2 ihp =>
                obtain ⟨k, v2⟩ := p
                intro hsub
                simp only [SEqEntries, Bool.and_eq_true]
                have hmem : (k, v2) ∈ entries := hsub _ (List.mem_cons_self _ _)
                constructor
                · rw [hkg k v2 hmem]
                  exact ihN v2
                    (by have := footprintEntries_member k v2 entries hmem; omega)
                    (wfEntries_member k v2 entries hwE hmem)
                    (by have := footprintEntries_member k v2 entries hmem; omega)
                · exact ihp (fun q hq => hsub q (List.mem_cons_of_mem _ hq))
          exact hEnt entries (fun _ hp => hp)

theorem mp_roundTrip (v : Val) (hw : Val.wf v = true) (hb : Val.bounded v = true) :
    roundTrip false v = true := by
  simp only [Val.bounded, decide_eq_true_eq] at hb
  exact mp_SEq_encN v.footprint v le_rfl hw hb


theorem keysWalk_enc (v : List Nat) :
    ∀ (post : List (List Nat × Val)) (off : Nat),
      v.drop off = encEntries post →
      Val.wfEntries post = true →
      Val.footprintEntries post ≤ 2 ^ 31 →
      keysWalk v post.length off = .ok (post.map Prod.fst) := by
  intro post
  induction post with
  | nil =>
      intro off _ _ _
      rfl
  | cons p post2 ih =>
      obtain ⟨k0, v0⟩ := p
      intro off hdrop hw hb
      simp only [Val.wfEntries, Bool.and_eq_true] at hw
      simp only [Val.footprintEntries] at hb
      simp only [encEntries, List.append_assoc] at hdrop
      obtain ⟨h1, h2, h3, h4⟩ := keyStep v off k0 v0 (encEntries post2) hdrop
        (by omega) hw.1 (by omega)
      simp only [List.length_cons]
      unfold keysWalk
      rw [h1]
      simp only [eeBindOk]
      rw [h2]
      rw [show encStrHeader k0.length ++ k0 =
        encStrHeader k0.length ++ k0 ++ [] by simp]
      rw [asStringView_encStr k0 [] (by omega)]
      simp only [eeBindOk]
      rw [h4]
      simp only [eeBindOk]
      have hdropNext := drop_after v (encVal v0) (encEntries post2)
        (off + ((encStrHeader k0.length).length + k0.length)) h3
      rw [ih (off + ((encStrHeader k0.length).length + k0.length) + (encVal v0).length)
        hdropNext hw.2 (by omega)]
      simp

theorem mapKeys_enc (entries : List (List Nat × Val))
    (hw : Val.wfEntries entries = true)
    (hb : Val.footprintEntries entries ≤ 2 ^ 31) :
    mapKeys (encMapHeader entries.length ++ encEntries entries) =
      .ok (entries.map Prod.fst) := by
  have hc : entries.length < 2 ^ 32 := by
    have := footprintEntries_count entries
    omega
  unfold mapKeys
  rw [isMap_enc]
  simp only [Bool.not_true, Bool.false_eq_true, if_false]
  rw [map_info_enc _ _ hc]
  simp only [eeBindOk]
  exact keysWalk_enc _ entries _ (List.drop_left _ _) hw hb

end MsgPack
end Zerialize
